import Mathlib

/-!
# Background replication pipeline (`src/mongo/db/repl/bgsync.cpp`)

A shallow embedding of the parts of `BackgroundSync` that the replication
contract talks about: the queue shared by the producer (`produce`) and the
applier (`applyOpsFromOplog`), the rollback algorithm (`runRollback`), the
choice of a sync target (`isStale`, `getOplogReader`), the body of `produce`
with `isRollbackRequired`, the lifecycle operations (`producerThread`,
`stopOpSyncThread`, `startOpSyncThread`, `shutdown`) and `handleSlaveDelay`.

Beside the pipeline, three helpers: the namespace strings of
`src/mongo/db/namespacestring.h`, the master test of
`src/mongo/db/replutil.h`, and the dup tracking and match counting classes of
`src/mongo/db/queryoptimizercursorimpl.h`.

Threads are modelled by interleaving atomic steps; one step is one critical
section of the source (a block holding `_mutex`) or one stretch of code that
runs outside the mutex and touches no shared field.
-/

namespace BgSync

/-! ## Data model -/

/-- Modelled from the spec: the GTID value type (its header is not part of
the sources at hand). Two unsigned integers, primary epoch and sequence. -/
structure GTID where
  primary : Nat
  seq : Nat
deriving DecidableEq, Repr

/-- Modelled from the spec: `GTID::cmp(a, b)`, lexicographic on
(primary, sequence); negative, zero or positive. -/
def GTID.cmp (a b : GTID) : Int :=
  if a.primary < b.primary then -1
  else if b.primary < a.primary then 1
  else if a.seq < b.seq then -1
  else if b.seq < a.seq then 1
  else 0

/-- Modelled from the spec: the sentinel GTID built by the default
constructor `GTID()`; it compares below every other GTID. -/
def GTID.initial : GTID := ⟨0, 0⟩

/-- Modelled from the spec: `isInitial()` holds for the sentinel only. -/
def GTID.isInitial (g : GTID) : Bool := decide (g = GTID.initial)

/-- An oplog entry as the code reads it: `o["_id"]` (through
`getGTIDFromOplogEntry` / `getGTIDFromBSON`), `o["ts"]._numberLong()` and
`o["h"].numberLong()` stored in `uint64_t`, and the rest of the document. -/
structure BSONObj where
  _id : GTID
  ts : Nat
  h : Nat
  payload : Nat
deriving DecidableEq, Repr

/-! ## Producer / applier queue -/

/-- External calls of the applier thread that returned normally, plus the
queue operations it performed, in program order. -/
inductive ApplierCall where
  | noteApplyingGTID (g : GTID)
  | applyTransactionFromOplog (o : BSONObj)
  | noteGTIDApplied (g : GTID)
  | pop_front (o : BSONObj)
  | notify_all
  | sleepsecs (n : Nat)
deriving DecidableEq, Repr

/-- Where the applier thread stands inside one iteration of the `while (1)`
loop of `applyOpsFromOplog`. -/
inductive ApplierPc where
  /-- At the top of the loop (or waiting on `_queueCond` for an item). -/
  | top
  /-- After `curr = _deque.front()` (line 124), mutex released. -/
  | fetched (curr : BSONObj)
  /-- After `applyTransactionFromOplog(curr)` returned (line 128). -/
  | applied (curr : BSONObj)
deriving DecidableEq, Repr

/-- The fields of `BackgroundSync` shared by producer and applier, the
applier's position, and two history variables (`pushed`, `applierCalls`). -/
structure BackgroundSync where
  /-- The queue `_deque`, front first. -/
  _deque : List BSONObj
  /-- The producer is inside `_queueCond.wait(lock)` of `produce` (line 386). -/
  producerBlocked : Bool
  applierPc : ApplierPc
  /-- Every object given to `_deque.push_back`, oldest first. -/
  pushed : List BSONObj
  applierCalls : List ApplierCall
deriving DecidableEq, Repr

/-- The state built by the constructor: empty queue, nobody waiting. -/
def BackgroundSync.init : BackgroundSync :=
  { _deque := [], producerBlocked := false, applierPc := .top, pushed := [], applierCalls := [] }

/-- Whether an external call returns or throws. -/
inductive Outcome where
  | returns
  | throws
deriving DecidableEq, Repr

/-- The critical section of `produce` at lines 366-388: `push_back(o)`, then
`if (_deque.size() > 20000) _queueCond.wait(lock)`. A producer that is
waiting takes no step: in `step` and `run` its wait returns on the applier's
signal only (`applierFinish`); `stepWithWake` adds the returns that no signal
of the applier caused. (The `notify_all` on an empty queue only wakes the
applier, whose waiting is the enabledness of `applierFront`.) -/
def producePush (o : BSONObj) (s : BackgroundSync) : Option BackgroundSync :=
  if s.producerBlocked then none
  else
    let d := s._deque ++ [o]
    some { s with _deque := d, pushed := s.pushed ++ [o],
                  producerBlocked := decide (d.length > 20000) }

/-- Lines 114-125 of `applyOpsFromOplog`: wait while the queue is empty, then
`curr = _deque.front()`. -/
def applierFront (s : BackgroundSync) : Option BackgroundSync :=
  match s.applierPc, s._deque with
  | .top, curr :: _ => some { s with applierPc := .fetched curr }
  | _, _ => none

/-- Lines 126-128, outside the mutex: `noteApplyingGTID(currEntry)` then
`applyTransactionFromOplog(curr)`. A throw is caught at lines 149-156
(`sleepsecs(2)`) and the loop starts over. -/
def applierApply (noteApplying applyTxn : Outcome) (s : BackgroundSync) :
    Option BackgroundSync :=
  match s.applierPc with
  | .fetched curr =>
    match noteApplying, applyTxn with
    | .throws, _ =>
      some { s with applierPc := .top,
                    applierCalls := s.applierCalls ++ [.sleepsecs 2] }
    | .returns, .throws =>
      some { s with applierPc := .top,
                    applierCalls := s.applierCalls ++
                      [.noteApplyingGTID curr._id, .sleepsecs 2] }
    | .returns, .returns =>
      some { s with applierPc := .applied curr,
                    applierCalls := s.applierCalls ++
                      [.noteApplyingGTID curr._id, .applyTransactionFromOplog curr] }
  | _ => none

/-- Lines 130-147, under the mutex: `noteGTIDApplied(currEntry)`,
`dassert(_deque.size() > 0)`, `_deque.pop_front()`, and
`if (_deque.size() == 10000) _queueCond.notify_all()`, which releases a
producer waiting at line 386. -/
def applierFinish (noteApplied : Outcome) (s : BackgroundSync) : Option BackgroundSync :=
  match s.applierPc with
  | .applied curr =>
    match noteApplied with
    | .throws =>
      some { s with applierPc := .top,
                    applierCalls := s.applierCalls ++ [.sleepsecs 2] }
    | .returns =>
      match s._deque with
      | [] => none
      | front :: rest =>
        if rest.length = 10000 then
          some { s with _deque := rest, applierPc := .top, producerBlocked := false,
                        applierCalls := s.applierCalls ++
                          [.noteGTIDApplied curr._id, .pop_front front, .notify_all] }
        else
          some { s with _deque := rest, applierPc := .top,
                        applierCalls := s.applierCalls ++
                          [.noteGTIDApplied curr._id, .pop_front front] }
  | _ => none

/-- One atomic step of the two threads. -/
inductive Step where
  | push (o : BSONObj)
  | front
  | apply (noteApplying applyTxn : Outcome)
  | finish (noteApplied : Outcome)
deriving DecidableEq, Repr

/-- The effect of a step; `none` when the step is not enabled. -/
def step : Step → BackgroundSync → Option BackgroundSync
  | .push o, s => producePush o s
  | .front, s => applierFront s
  | .apply a b, s => applierApply a b s
  | .finish a, s => applierFinish a s

/-- An interleaving of producer and applier steps, run from `s`. -/
def run : List Step → BackgroundSync → Option BackgroundSync
  | [], s => some s
  | l :: ls, s => (step l s).bind (run ls)

/-- The entries the applier removed with `pop_front`, oldest first. -/
def popped : List ApplierCall → List BSONObj
  | [] => []
  | .pop_front o :: cs => o :: popped cs
  | _ :: cs => popped cs

/-- The entries for which `applyTransactionFromOplog` returned, oldest first. -/
def appliedEntries : List ApplierCall → List BSONObj
  | [] => []
  | .applyTransactionFromOplog o :: cs => o :: appliedEntries cs
  | _ :: cs => appliedEntries cs

/-! ## Rollback (`runRollback`) -/

/-- The two reasons for which the scan phase of `runRollback` throws
`RollbackOplogException` itself (lines 495 and 529). The catch blocks at
lines 532-537 rethrow whatever the scan throws as a `RollbackOplogException`
again, so the type of the exception that leaves `runRollback` is the same. -/
inductive RollbackOplogException where
  /-- Line 495, "too long a time period for a rollback (at least 30 minutes)". -/
  | tooLong
  /-- Line 529, "could not find ID to rollback to". -/
  | couldNotFind
deriving DecidableEq, Repr

/-- Modelled from the spec: `Helpers::findOne(rsoplog, {_id: g}, localObj)`,
the point query for the local oplog entry whose `_id` is `g`. -/
def findOne (localOplog : List BSONObj) (g : GTID) : Option BSONObj :=
  localOplog.find? (fun o => decide (o._id = g))

/-- Modelled from the spec: `Helpers::getLast(rsoplog, o)`, the last entry of
the local oplog, `none` when the oplog is empty. -/
def getLast (localOplog : List BSONObj) : Option BSONObj :=
  localOplog.getLast?

/-- Modelled from the spec: `rollbackTransactionFromOplog(o)` undoes the
payload and removes the entry (the row whose `_id` is that of `o`) from the
local oplog. -/
def rollbackTransactionFromOplog (o : BSONObj) (localOplog : List BSONObj) : List BSONObj :=
  localOplog.filter (fun e => decide (e._id ≠ o._id))

/-- Modelled from the spec: the part of the GTID manager that rollback
touches, the last live GTID with its timestamp and hash. -/
structure GTIDManager where
  lastLive : GTID
  lastLiveTS : Nat
  lastLiveHash : Nat
deriving DecidableEq, Repr

/-- Modelled from the spec: `resetAfterInitialSync(gtid, ts, hash)` resets the
bookkeeping to the given point. -/
def GTIDManager.resetAfterInitialSync (_gm : GTIDManager) (g : GTID) (ts h : Nat) :
    GTIDManager :=
  { lastLive := g, lastLiveTS := ts, lastLiveHash := h }

/-- Modelled from the spec: `getLiveState()` returns `lastLive`. -/
def GTIDManager.getLiveState (gm : GTIDManager) : GTID := gm.lastLive

/-- The locals of `runRollback` that the scan loop reads and writes, and the
history of local lookups (`Helpers::findOne` calls, line 506). The two
`uint64_t` rollback-point locals are declared without a value; they are read
only after line 519-520 assigned them, and start here at 0. -/
structure RollbackVars where
  oplogTS : Nat
  idToRollbackTo : GTID
  rollbackPointTS : Nat
  rollbackPointHash : Nat
  lookups : List GTID
deriving DecidableEq, Repr

/-- The `uint64_t` comparison of line 494, `remoteTS + 1800*1000 < oplogTS`;
the sum wraps at 2^64. -/
def outsideWindow (remoteTS oplogTS : Nat) : Bool :=
  decide ((remoteTS + 1800 * 1000) % 2 ^ 64 < oplogTS)

/-- The loop of lines 484-524 over the entries the backward rollback cursor
returns, in cursor order. -/
def scanLoop (localOplog : List BSONObj) :
    List BSONObj → RollbackVars → Except RollbackOplogException RollbackVars
  | [], v => .ok v
  | remoteObj :: rest, v =>
    let remoteGTID := remoteObj._id
    let remoteTS := remoteObj.ts
    let oplogTS := if v.oplogTS = 0 then remoteTS else v.oplogTS
    let remoteLastHash := remoteObj.h
    if outsideWindow remoteTS oplogTS then .error .tooLong
    else
      let v := { v with oplogTS := oplogTS, lookups := v.lookups ++ [remoteGTID] }
      match findOne localOplog remoteGTID with
      | some localObj =>
        if localObj.h = remoteLastHash ∧ localObj.ts = remoteTS ∧
            GTID.cmp localObj._id remoteGTID = 0 then
          .ok { v with idToRollbackTo := localObj._id,
                       rollbackPointTS := localObj.ts,
                       rollbackPointHash := localObj.h }
        else scanLoop localOplog rest v
      | none => scanLoop localOplog rest v

/-- The locals at line 477-480: `idToRollbackTo` is the default `GTID()`. -/
def RollbackVars.start (oplogTS : Nat) : RollbackVars :=
  { oplogTS := oplogTS, idToRollbackTo := GTID.initial,
    rollbackPointTS := 0, rollbackPointHash := 0, lookups := [] }

/-- The scan phase of `runRollback`, lines 477-537: the loop, then the test
`idToRollbackTo.isInitial()` of line 527. -/
def scanPhase (localOplog cursor : List BSONObj) (oplogTS : Nat) :
    Except RollbackOplogException RollbackVars :=
  match scanLoop localOplog cursor (RollbackVars.start oplogTS) with
  | .error e => .error e
  | .ok v => if v.idToRollbackTo.isInitial then .error .couldNotFind else .ok v

/-- How the undo loop of lines 586-603 was left. -/
inductive UndoExit where
  /-- Line 593, `getLast` found nothing. -/
  | emptyOplog
  /-- Line 600 with `GTID::cmp(lastGTID, idToRollbackTo) == 0`. -/
  | reachedAncestor
  /-- Line 599-600 with `GTID::cmp(lastGTID, idToRollbackTo) < 0`: the
  `dassert` fails. -/
  | belowAncestor
deriving DecidableEq, Repr

/-- What the undo loop leaves: the local oplog, the entries handed to
`rollbackTransactionFromOplog` in call order, and the exit taken. -/
structure UndoResult where
  oplog : List BSONObj
  undone : List BSONObj
  exit : UndoExit
deriving DecidableEq, Repr

/-- The `while (true)` loop of lines 586-603; `none` when the fuel runs out
before the loop breaks. -/
def undoLoop (idToRollbackTo : GTID) :
    Nat → List BSONObj → List BSONObj → Option UndoResult
  | 0, _, _ => none
  | fuel + 1, oplog, undone =>
    match getLast oplog with
    | none => some { oplog := oplog, undone := undone, exit := .emptyOplog }
    | some o =>
      let lastGTID := o._id
      if GTID.cmp lastGTID idToRollbackTo ≤ 0 then
        if GTID.cmp lastGTID idToRollbackTo = 0 then
          some { oplog := oplog, undone := undone, exit := .reachedAncestor }
        else
          some { oplog := oplog, undone := undone, exit := .belowAncestor }
      else
        undoLoop idToRollbackTo fuel (rollbackTransactionFromOplog o oplog) (undone ++ [o])

/-- The undo phase of `runRollback`, lines 568-605: reset the GTID manager
to the rollback point, then run the undo loop. -/
def undoPhase (fuel : Nat) (v : RollbackVars) (gm : GTIDManager) (localOplog : List BSONObj) :
    Option (GTIDManager × UndoResult) :=
  let gm := gm.resetAfterInitialSync v.idToRollbackTo v.rollbackPointTS v.rollbackPointHash
  (undoLoop v.idToRollbackTo fuel localOplog []).map (fun r => (gm, r))

/-- Strictly increasing GTID order of an oplog. -/
def StrictlyIncreasing (oplog : List BSONObj) : Prop :=
  oplog.Pairwise (fun x y => GTID.cmp x._id y._id < 0)

instance (oplog : List BSONObj) : Decidable (StrictlyIncreasing oplog) := by
  unfold StrictlyIncreasing; infer_instance

/-! ## Predicates used in the statements -/

/-- The applier's call order: every `pop_front` is directly preceded, in the
applier's own program order, by `noteApplyingGTID`, `applyTransactionFromOplog`
and `noteGTIDApplied` for the very entry that is popped. -/
def StepOrder (calls : List ApplierCall) : Prop :=
  ∀ pre o post, calls = pre ++ ApplierCall.pop_front o :: post →
    ∃ pre', pre = pre' ++ [ApplierCall.noteApplyingGTID o._id,
      ApplierCall.applyTransactionFromOplog o, ApplierCall.noteGTIDApplied o._id]

/-- What holds in every state reachable from `BackgroundSync.init`. -/
structure Inv (s : BackgroundSync) : Prop where
  fifo : s.pushed = popped s.applierCalls ++ s._deque
  front_fetched : ∀ c, s.applierPc = .fetched c → s._deque.head? = some c
  front_applied : ∀ c, s.applierPc = .applied c → s._deque.head? = some c ∧
    ∃ pre, s.applierCalls = pre ++
      [ApplierCall.noteApplyingGTID c._id, ApplierCall.applyTransactionFromOplog c]
  order : StepOrder s.applierCalls
  bound : s._deque.length ≤ 20001
  unblocked : s.producerBlocked = false → s._deque.length ≤ 20000
  blocked : s.producerBlocked = true → 10000 < s._deque.length

/-- The entry whose application is complete but which is not yet popped. -/
def pendingApplied : ApplierPc → List BSONObj
  | .applied c => [c]
  | _ => []

/-- At most once: no entry has more completed applications than pushes. -/
def AtMostOnce (s : BackgroundSync) : Prop :=
  ∀ o, (appliedEntries s.applierCalls).count o ≤ s.pushed.count o

/-- The local oplog holds an entry with the GTID of `r` whose timestamp and
hash both equal those of `r`. -/
def HoldsSame (localOplog : List BSONObj) (r : BSONObj) : Prop :=
  ∃ l ∈ localOplog, l._id = r._id ∧ l.ts = r.ts ∧ l.h = r.h

/-- The test of lines 508-515 succeeds on the remote entry `remoteObj`. -/
def Accepts (localOplog : List BSONObj) (remoteObj : BSONObj) : Prop :=
  ∃ localObj, findOne localOplog remoteObj._id = some localObj ∧
    localObj.h = remoteObj.h ∧ localObj.ts = remoteObj.ts ∧
    GTID.cmp localObj._id remoteObj._id = 0

/-- The horizon that line 494 compares with: `oplogTS` after lines 488-492. -/
def horizon (v : RollbackVars) (remoteObj : BSONObj) : Nat :=
  if v.oplogTS = 0 then remoteObj.ts else v.oplogTS

/-! ## Sample data -/

/-- A sample oplog entry with GTID (1, n), timestamp `1000 * n` and hash `n`. -/
def sampleEntry (n : Nat) : BSONObj :=
  { _id := ⟨1, n⟩, ts := 1000 * n, h := n, payload := n }

/-- A sample interleaving: two pushes, one full applier iteration, one push. -/
def sampleRun : List Step :=
  [.push (sampleEntry 1), .push (sampleEntry 2), .front, .apply .returns .returns,
   .finish .returns, .push (sampleEntry 3)]

/-- The state `sampleRun` leads to. -/
def sampleState : BackgroundSync :=
  { _deque := [sampleEntry 2, sampleEntry 3], producerBlocked := false, applierPc := .top,
    pushed := [sampleEntry 1, sampleEntry 2, sampleEntry 3],
    applierCalls := [.noteApplyingGTID ⟨1, 1⟩, .applyTransactionFromOplog (sampleEntry 1),
      .noteGTIDApplied ⟨1, 1⟩, .pop_front (sampleEntry 1)] }

/-- The state after `n` pushes of `o` with nothing applied yet. -/
def afterPushes (o : BSONObj) (n : Nat) : BackgroundSync :=
  { _deque := List.replicate n o, producerBlocked := decide (n > 20000), applierPc := .top,
    pushed := List.replicate n o, applierCalls := [] }

/-- A sample interleaving that stops after the front entry was read. -/
def sampleRunFetched : List Step :=
  [.push (sampleEntry 1), .push (sampleEntry 2), .front]

/-- The state `sampleRunFetched` leads to. -/
def sampleStateFetched : BackgroundSync :=
  { _deque := [sampleEntry 1, sampleEntry 2], producerBlocked := false,
    applierPc := .fetched (sampleEntry 1),
    pushed := [sampleEntry 1, sampleEntry 2], applierCalls := [] }

/-- The state after `applyTransactionFromOplog` threw in `sampleStateFetched`. -/
def sampleStateFailed : BackgroundSync :=
  { _deque := [sampleEntry 1, sampleEntry 2], producerBlocked := false, applierPc := .top,
    pushed := [sampleEntry 1, sampleEntry 2],
    applierCalls := [.noteApplyingGTID ⟨1, 1⟩, .sleepsecs 2] }

/-- A run in which `noteGTIDApplied` throws once after the entry was applied. -/
def sampleRunRetry : List Step :=
  [.push (sampleEntry 1), .front, .apply .returns .returns, .finish .throws,
   .front, .apply .returns .returns, .finish .returns]

/-- The state `sampleRunRetry` leads to. -/
def sampleStateRetry : BackgroundSync :=
  { _deque := [], producerBlocked := false, applierPc := .top,
    pushed := [sampleEntry 1],
    applierCalls := [.noteApplyingGTID ⟨1, 1⟩, .applyTransactionFromOplog (sampleEntry 1),
      .sleepsecs 2,
      .noteApplyingGTID ⟨1, 1⟩, .applyTransactionFromOplog (sampleEntry 1),
      .noteGTIDApplied ⟨1, 1⟩, .pop_front (sampleEntry 1)] }

/-- A sample local oplog with GTIDs (1, 1) to (1, 5). -/
def sampleOplog : List BSONObj :=
  [sampleEntry 1, sampleEntry 2, sampleEntry 3, sampleEntry 4, sampleEntry 5]

/-- Sample scan locals: the rollback point is the entry with GTID (1, 3). -/
def sampleVars : RollbackVars :=
  { oplogTS := 6000, idToRollbackTo := ⟨1, 3⟩, rollbackPointTS := 3000,
    rollbackPointHash := 3, lookups := [⟨1, 5⟩, ⟨1, 4⟩, ⟨1, 3⟩] }

/-- A sample GTID manager whose last live GTID is (1, 5). -/
def sampleManager : GTIDManager :=
  { lastLive := ⟨1, 5⟩, lastLiveTS := 5000, lastLiveHash := 5 }

/-- Sample remote entries in backward cursor order: (1, 5) and (1, 4) differ
from the local ones in their hash, (1, 3) is the same as the local entry. -/
def sampleCursor : List BSONObj :=
  [{ _id := ⟨1, 5⟩, ts := 5000, h := 55, payload := 0 },
   { _id := ⟨1, 4⟩, ts := 4000, h := 44, payload := 0 },
   sampleEntry 3, sampleEntry 2]

/-- A remote entry whose timestamp is the largest `uint64_t` value. -/
def lateEntry : BSONObj :=
  { _id := ⟨1, 5⟩, ts := 18446744073709551615, h := 5, payload := 5 }

/-! ## Sync target selection (`isStale`, `getOplogReader`) -/

/-- A candidate as `getOplogReader` sees it: its name, whether
`r.connect(current)` succeeds, and the answer of `r.findOne(rsoplog, Query())`,
the oldest entry of its oplog. -/
structure Member where
  fullName : String
  connects : Bool
  remoteOldestOp : BSONObj
deriving DecidableEq, Repr

/-- The function `isStale`, lines 410-421: the live state of the GTID manager
is compared with the GTID of the candidate's oldest oplog entry. -/
def isStale (gm : GTIDManager) (remoteOldestOp : BSONObj) : Bool :=
  let remoteOldestGTID := remoteOldestOp._id
  let currLiveState := gm.getLiveState
  if GTID.cmp currLiveState remoteOldestGTID < 0 then true else false

/-- The locals of `getOplogReader` (`stale`, `oldest`) and the history of the
call: the candidates taken from `getMemberToSyncTo` and the vetoes issued, in
order. A veto without a time (`theReplSet->veto(current)`) carries `none`. -/
structure SyncVars where
  stale : Option Member
  oldest : Option BSONObj
  consulted : List Member
  vetoes : List (String × Option Nat)
deriving DecidableEq, Repr

/-- The locals at lines 424-425. -/
def SyncVars.start : SyncVars :=
  { stale := none, oldest := none, consulted := [], vetoes := [] }

/-- The loop of lines 428-452 over the candidates that successive calls of
`getMemberToSyncTo` return before it returns `NULL`. The result is the
accepted target, if any, and the locals when the loop is left. -/
def getOplogReaderLoop (gm : GTIDManager) : List Member → SyncVars → Option Member × SyncVars
  | [], v => (none, v)
  | target :: rest, v =>
    let current := target.fullName
    let v := { v with consulted := v.consulted ++ [target] }
    if target.connects = false then
      getOplogReaderLoop gm rest { v with vetoes := v.vetoes ++ [(current, none)] }
    else
      let v := { v with oldest := some target.remoteOldestOp }
      if isStale gm target.remoteOldestOp = true then
        getOplogReaderLoop gm rest
          { v with vetoes := v.vetoes ++ [(current, some 600)], stale := some target }
      else (some target, v)

/-- What a call of `getOplogReader` leaves behind. -/
structure SyncOutcome where
  /-- The field `_currentSyncTarget` after the call. -/
  _currentSyncTarget : Option Member
  consulted : List Member
  vetoes : List (String × Option Nat)
  /-- The arguments of `theReplSet->goStale`, when it was called. -/
  goStale : Option (Member × Option GTID)
deriving DecidableEq, Repr

/-- The function `getOplogReader`, lines 423-469. -/
def getOplogReader (gm : GTIDManager) (candidates : List Member) : SyncOutcome :=
  match getOplogReaderLoop gm candidates SyncVars.start with
  | (some target, v) =>
    { _currentSyncTarget := some target, consulted := v.consulted, vetoes := v.vetoes,
      goStale := none }
  | (none, v) =>
    match v.stale with
    | some stale =>
      { _currentSyncTarget := none, consulted := v.consulted, vetoes := v.vetoes,
        goStale := some (stale, v.oldest.map (fun o => o._id)) }
    | none =>
      { _currentSyncTarget := none, consulted := v.consulted, vetoes := v.vetoes,
        goStale := none }

/-- A candidate that connects and is not stale. -/
def Acceptable (gm : GTIDManager) (m : Member) : Prop :=
  m.connects = true ∧ isStale gm m.remoteOldestOp = false

instance (gm : GTIDManager) (m : Member) : Decidable (Acceptable gm m) := by
  unfold Acceptable; infer_instance

/-- The veto an unacceptable candidate receives: the default time when the
connection failed, 600 seconds when it connected and was stale. -/
def vetoFor (m : Member) : String × Option Nat :=
  if m.connects = false then (m.fullName, none) else (m.fullName, some 600)

/-- Four sample candidates: one that is down, one whose oldest entry (1, 9)
is ahead of the local live state (1, 5), and two that are fine. -/
def sampleMembers : List Member :=
  [{ fullName := "a:27017", connects := false, remoteOldestOp := sampleEntry 1 },
   { fullName := "b:27017", connects := true, remoteOldestOp := sampleEntry 9 },
   { fullName := "c:27017", connects := true, remoteOldestOp := sampleEntry 2 },
   { fullName := "d:27017", connects := true, remoteOldestOp := sampleEntry 1 }]

/-! ## The producer: `runRollback`, `isRollbackRequired`, `produce` -/

/-- Modelled from the spec: the replica-set member states that the producer
tests or sets (`startup()`, `fatal()`, `goToRollbackState()`); every other
state is `other`. -/
inductive MemberState where
  | startup
  | fatal
  | rollback
  | other
deriving DecidableEq, Repr

/-- Calls the producer thread makes on its collaborators (calls that
returned), in program order. -/
inductive ProducerCall where
  | msgCheckNewState
  | veto (host : String) (secs : Option Nat)
  | goStale (host : String) (remoteOldestGTID : Option GTID)
  | tailingQueryGTE (g : GTID)
  | incRBID
  | waitQueueDone
  | verifySettled
  | invalidateAllCursors
  | abortLiveTransactions
  | goToRollbackState
  | resetAfterInitialSync (g : GTID) (ts h : Nat)
  | forceUpdateReplInfo
  | rollbackTransactionFromOplog (o : BSONObj)
  | leaveRollbackState
  | fatal
  | handleSlaveDelay (ts : Nat)
  | replicateTransactionToOplog (o : BSONObj)
  | commit
  | noteGTIDAdded (g : GTID) (ts h : Nat)
  | push_back (o : BSONObj)
deriving DecidableEq, Repr

/-- What the producer thread reads and writes besides the queue: the local
oplog, the GTID manager, the rollback id, the member state, the current sync
target, and the history of its calls. -/
structure ReplSet where
  localOplog : List BSONObj
  gtidManager : GTIDManager
  rbid : Nat
  state : MemberState
  _currentSyncTarget : Option Member
  calls : List ProducerCall
deriving DecidableEq, Repr

/-- Modelled from the spec: `noteGTIDAdded(gtid, ts, hash)` advances the last
live GTID to the entry just written to the local oplog. -/
def GTIDManager.noteGTIDAdded (_gm : GTIDManager) (g : GTID) (ts h : Nat) : GTIDManager :=
  { lastLive := g, lastLiveTS := ts, lastLiveHash := h }

/-- Modelled from the spec: `rollbackNeeded(gtid, ts, hash)` holds when the
remote entry does not agree with the local hash chain at `lastLive`. -/
def GTIDManager.rollbackNeeded (gm : GTIDManager) (g : GTID) (ts h : Nat) : Bool :=
  !(decide (gm.lastLiveTS = ts) && decide (gm.lastLiveHash = h) &&
    decide (GTID.cmp g gm.lastLive = 0))

/-- Modelled from the spec: the tailing cursor of an `OplogReader`: what is
left of the current batch, the batches later requests will bring, and
whether the cursor is dead. -/
structure OplogReader where
  batch : List BSONObj
  script : List (List BSONObj)
  dead : Bool
deriving DecidableEq, Repr

/-- Modelled from the spec: `moreInCurrentBatch()`. -/
def OplogReader.moreInCurrentBatch (r : OplogReader) : Bool := !r.batch.isEmpty

/-- Modelled from the spec: `more()`; with an empty batch and a live cursor
it requests the next batch. -/
def OplogReader.more (r : OplogReader) : Bool × OplogReader :=
  match r.batch with
  | _ :: _ => (true, r)
  | [] =>
    if r.dead then (false, r)
    else
      match r.script with
      | [] => (false, { r with dead := true })
      | b :: rest => (!b.isEmpty, { batch := b, script := rest, dead := false })

/-- Modelled from the spec: `nextSafe()`, the next entry of the batch. -/
def OplogReader.nextSafe (r : OplogReader) : Option (BSONObj × OplogReader) :=
  match r.batch with
  | o :: rest => some (o, { r with batch := rest })
  | [] => none

/-- Modelled from the spec: `haveCursor()` after `tailCheck()`, which drops a
dead cursor. -/
def OplogReader.haveCursor (r : OplogReader) : Bool := !r.dead

/-- The undo loop run with fuel above the oplog length, which is enough for
every oplog (`undoLoop_total`). -/
def undoAll (idToRollbackTo : GTID) (localOplog : List BSONObj) : UndoResult :=
  (undoLoop idToRollbackTo (localOplog.length + 1) localOplog []).getD
    { oplog := localOplog, undone := [], exit := .emptyOplog }

/-- The function `runRollback`, lines 471-613, with `rollbackCursor` the
entries `r.getRollbackCursor(ourLast)` returns. The result says whether a
`RollbackOplogException` leaves the function. -/
def runRollback (w : ReplSet) (rollbackCursor : List BSONObj) (oplogTS : Nat) :
    ReplSet × Except RollbackOplogException Unit :=
  let w : ReplSet := { w with rbid := w.rbid + 1, calls := w.calls ++ [ProducerCall.incRBID] }
  match scanPhase w.localOplog rollbackCursor oplogTS with
  | .error e => (w, .error e)
  | .ok v =>
    let w : ReplSet := { w with
      state := MemberState.rollback,
      calls := w.calls ++ [ProducerCall.waitQueueDone, ProducerCall.verifySettled,
        ProducerCall.invalidateAllCursors, ProducerCall.abortLiveTransactions,
        ProducerCall.goToRollbackState] }
    let gm := w.gtidManager.resetAfterInitialSync v.idToRollbackTo v.rollbackPointTS
      v.rollbackPointHash
    let u := undoAll v.idToRollbackTo w.localOplog
    ({ w with
        gtidManager := gm, localOplog := u.oplog, state := MemberState.other,
        calls := w.calls ++
          [ProducerCall.resetAfterInitialSync v.idToRollbackTo v.rollbackPointTS
            v.rollbackPointHash, ProducerCall.forceUpdateReplInfo] ++
          u.undone.map ProducerCall.rollbackTransactionFromOplog ++
          [ProducerCall.leaveRollbackState] },
      .ok ())

/-- The function `isRollbackRequired`, lines 615-646. `tsOuter` is the value
of the expression `ts` at line 626, which is used there before the local `ts`
of line 631 is declared and whose declaration is not in the sources at hand.
(After `more()` answered true the batch is not empty, so the branch in which
`nextSafe()` has no entry is never taken.) -/
def isRollbackRequired (tsOuter : Nat) (rollbackCursor : List BSONObj) (w : ReplSet)
    (r : OplogReader) : ReplSet × OplogReader × Except RollbackOplogException Bool :=
  match r.more with
  | (false, r) =>
    match runRollback w rollbackCursor tsOuter with
    | (w, .error e) => (w, r, .error e)
    | (w, .ok _) => (w, r, .ok true)
  | (true, r) =>
    match r.nextSafe with
    | none => (w, r, .ok false)
    | some (o, r) =>
      let ts := o.ts
      let lastHash := o.h
      let gtid := o._id
      if w.gtidManager.rollbackNeeded gtid ts lastHash = false then (w, r, .ok false)
      else
        match runRollback w rollbackCursor ts with
        | (w, .error e) => (w, r, .error e)
        | (w, .ok _) => (w, r, .ok true)

/-- What one pass through the body of the inner fetch loop of `produce`
(lines 306-389) and the code after it (lines 391-403) reads from other
threads and from its collaborators. -/
structure IterEnv where
  /-- The flag `_opSyncShouldExit` at the loop heads, lines 305-306. -/
  shouldExit : Bool
  /-- The flag `_opSyncShouldRun` at line 310. -/
  shouldRun : Bool
  /-- The answer of `theReplSet->gotForceSync()`, line 319. -/
  gotForceSync : Bool
  /-- The answer of `theReplSet->isPrimary()`, line 323. -/
  isPrimary : Bool
  /-- Line 327: the sync target is set and readable. -/
  targetReadable : Bool
  /-- The flag `_opSyncShouldRun` at line 352, after `handleSlaveDelay`. -/
  shouldRunAfterDelay : Bool
  /-- Line 362, `replicateTransactionToOplog(o)`. -/
  write : Outcome
  /-- Line 364, `transaction.commit(DB_TXN_NOSYNC)`. -/
  commit : Outcome
  /-- Line 371, `noteGTIDAdded`. -/
  noteAdded : Outcome
  /-- Line 393: the sync target is set and readable. -/
  targetReadableAfter : Bool
deriving DecidableEq, Repr

/-- How a call of `produce` ends: with the number of seconds to sleep, with an
exception that reaches `producerThread`, or, in the model, with the scripted
environment used up. -/
inductive ProduceResult where
  | returned (secs : Nat)
  | threw
  | outOfFuel
deriving DecidableEq, Repr

/-- Lines 391-403, the code after the inner loop, followed by `rest`, the
next pass of the outer loop. -/
def afterInner (env : IterEnv) (r : OplogReader) (w : ReplSet)
    (rest : ReplSet × ProduceResult) : ReplSet × ProduceResult :=
  if env.targetReadableAfter = false then (w, .returned 0)
  else if r.haveCursor = false then (w, .returned 0)
  else rest

/-- Lines 358-388 of `produce` for the fetched entry `o`: write it to the
local oplog in a transaction of its own and commit, then, under the mutex,
`noteGTIDAdded` and `push_back`. The flag of the result says whether an
exception left the block. -/
def replicateAndPush (env : IterEnv) (o : BSONObj) (w : ReplSet) : ReplSet × Bool :=
  let ts := o.ts
  match env.write, env.commit, env.noteAdded with
  | .throws, _, _ => (w, true)
  | .returns, .throws, _ =>
    ({ w with calls := w.calls ++ [ProducerCall.replicateTransactionToOplog o] }, true)
  | .returns, .returns, .throws =>
    ({ w with
        localOplog := w.localOplog ++ [o],
        calls := w.calls ++
          [ProducerCall.replicateTransactionToOplog o, ProducerCall.commit] },
      true)
  | .returns, .returns, .returns =>
    let currEntry := o._id
    let lastHash := o.h
    ({ w with
        localOplog := w.localOplog ++ [o],
        gtidManager := w.gtidManager.noteGTIDAdded currEntry ts lastHash,
        calls := w.calls ++
          [ProducerCall.replicateTransactionToOplog o, ProducerCall.commit,
            ProducerCall.noteGTIDAdded currEntry ts lastHash,
            ProducerCall.push_back o] },
      false)

/-- Lines 348-356 of `produce`: with a slave delay configured,
`handleSlaveDelay(ts)` is called before the entry is written. -/
def noteSlaveDelay (slaveDelay : Nat) (ts : Nat) (w : ReplSet) : ReplSet :=
  if 0 < slaveDelay then { w with calls := w.calls ++ [ProducerCall.handleSlaveDelay ts] }
  else w

/-- The two nested loops of `produce`, lines 305-407; one element of the
environment list is consumed per pass through the inner loop body. -/
def fetchLoop (slaveDelay : Nat) :
    List IterEnv → OplogReader → ReplSet → ReplSet × ProduceResult
  | [], _, w => (w, .outOfFuel)
  | env :: envs, r, w =>
    if env.shouldExit = true then (w, .returned 0)
    else if env.shouldRun = false then (w, .returned 0)
    else if r.moreInCurrentBatch = false ∧ env.gotForceSync = true then (w, .returned 0)
    else if r.moreInCurrentBatch = false ∧ env.isPrimary = true then (w, .threw)
    else if r.moreInCurrentBatch = false ∧ env.targetReadable = false then (w, .returned 0)
    else
      match (if r.moreInCurrentBatch = false then r.more.2 else r).more with
      | (false, r) => afterInner env r w (fetchLoop slaveDelay envs r w)
      | (true, r) =>
        match r.nextSafe with
        | none => (w, .threw)
        | some (o, r) =>
          let ts := o.ts
          if 0 < slaveDelay ∧ env.shouldRunAfterDelay = false then
            afterInner env r (noteSlaveDelay slaveDelay ts w)
              (fetchLoop slaveDelay envs r (noteSlaveDelay slaveDelay ts w))
          else
            match replicateAndPush env o (noteSlaveDelay slaveDelay ts w) with
            | (w, true) => (w, .threw)
            | (w, false) => fetchLoop slaveDelay envs r w

/-- What a call of `produce` reads from its surroundings. -/
structure ProduceEnv where
  /-- The value of `theReplSet->config().members.size()`. -/
  membersSize : Nat
  /-- The value of `theReplSet->myConfig().potentiallyHot()`. -/
  potentiallyHot : Bool
  /-- Whether `theReplSet->mgr` is set. -/
  mgr : Bool
  /-- The candidates `getMemberToSyncTo` offers. -/
  candidates : List Member
  /-- The cursor `tailingQueryGTE` opens; `none` when there is none. -/
  reader : Option OplogReader
  /-- The value of `ts` at line 626. -/
  tsOuter : Nat
  /-- The entries of the rollback cursor, in the order it returns them. -/
  rollbackCursor : List BSONObj
  /-- The value of `theReplSet->myConfig().slaveDelay`. -/
  slaveDelay : Nat
  iters : List IterEnv

/-- The calls `getOplogReader` makes on the replica set, in order. -/
def SyncOutcome.calls (out : SyncOutcome) : List ProducerCall :=
  out.vetoes.map (fun v => ProducerCall.veto v.1 v.2) ++
    match out.goStale with
    | some (m, g) => [ProducerCall.goStale m.fullName g]
    | none => []

/-- The function `produce`, lines 251-408. -/
def produce (env : ProduceEnv) (w : ReplSet) : ReplSet × ProduceResult :=
  if env.membersSize = 1 ∧ env.potentiallyHot = true ∧ env.mgr = true then
    ({ w with calls := w.calls ++ [ProducerCall.msgCheckNewState] }, .returned 1)
  else
    let out := getOplogReader w.gtidManager env.candidates
    let w : ReplSet :=
      { w with _currentSyncTarget := out._currentSyncTarget, calls := w.calls ++ out.calls }
    let lastGTIDFetched := w.gtidManager.getLiveState
    if w._currentSyncTarget = none then (w, .returned 1)
    else
      let w : ReplSet :=
        { w with calls := w.calls ++ [ProducerCall.tailingQueryGTE lastGTIDFetched] }
      match env.reader with
      | none => (w, .returned 0)
      | some r =>
        if r.haveCursor = false then (w, .returned 0)
        else
          match isRollbackRequired env.tsOuter env.rollbackCursor w r with
          | (w, _, .ok true) => (w, .returned 2)
          | (w, r, .ok false) => fetchLoop env.slaveDelay env.iters r w
          | (w, r, .error _) =>
            fetchLoop env.slaveDelay env.iters r
              { w with state := MemberState.fatal, calls := w.calls ++ [ProducerCall.fatal] }

/-- Sample candidates none of which is accepted: one is down, one is stale. -/
def sampleBadMembers : List Member :=
  [{ fullName := "a:27017", connects := false, remoteOldestOp := sampleEntry 1 },
   { fullName := "b:27017", connects := true, remoteOldestOp := sampleEntry 9 }]

/-- A sample state of the producer's surroundings: the sample oplog, the
last live GTID (1, 5), no sync target yet. -/
def sampleReplSet : ReplSet :=
  { localOplog := sampleOplog, gtidManager := sampleManager, rbid := 0,
    state := MemberState.other, _currentSyncTarget := none, calls := [] }

/-- A sample environment of `produce` in a three-member set that offers
`sampleBadMembers` only. -/
def sampleStaleEnv : ProduceEnv :=
  { membersSize := 3, potentiallyHot := true, mgr := true, candidates := sampleBadMembers,
    reader := none, tsOuter := 0, rollbackCursor := [], slaveDelay := 0, iters := [] }

/-- The producer's call order: every `push_back(o)` is directly preceded, in
the producer's program order, by `replicateTransactionToOplog(o)`, the commit
of its transaction, and `noteGTIDAdded` with the GTID, timestamp and hash of
`o`. -/
def WriteOrder (calls : List ProducerCall) : Prop :=
  ∀ pre o post, calls = pre ++ ProducerCall.push_back o :: post →
    ∃ pre', pre = pre' ++ [ProducerCall.replicateTransactionToOplog o, ProducerCall.commit,
      ProducerCall.noteGTIDAdded o._id o.ts o.h]

/-- The outcome `res` continues the history of `w`: it adds calls that obey
`WriteOrder` and appends to the local oplog every entry it pushes. -/
def Extends (w : ReplSet) (res : ReplSet × ProduceResult) : Prop :=
  ∃ evs added, res.1.calls = w.calls ++ evs ∧ WriteOrder evs ∧
    res.1.localOplog = w.localOplog ++ added ∧
    ∀ o, ProducerCall.push_back o ∈ evs → o ∈ added

/-- The outcome `res` of the producer continues the history of `w` with calls
that obey `WriteOrder`, and every entry pushed is in the local oplog. -/
def Durable (w : ReplSet) (res : ReplSet × ProduceResult) : Prop :=
  ∃ evs, res.1.calls = w.calls ++ evs ∧ WriteOrder evs ∧
    ∀ o, ProducerCall.push_back o ∈ evs → o ∈ res.1.localOplog

/-- A sample tailing cursor whose first batch holds the entries (1, 5),
(1, 6) and (1, 7). -/
def sampleReader : OplogReader :=
  { batch := [sampleEntry 5, sampleEntry 6, sampleEntry 7], script := [], dead := false }

/-- A pass of the fetch loop in which nothing interferes and every call
returns. -/
def quietIter : IterEnv :=
  { shouldExit := false, shouldRun := true, gotForceSync := false, isPrimary := false,
    targetReadable := true, shouldRunAfterDelay := true, write := Outcome.returns,
    commit := Outcome.returns, noteAdded := Outcome.returns, targetReadableAfter := true }

/-- A pass of the fetch loop in which the write to the local oplog throws. -/
def failingWriteIter : IterEnv := { quietIter with write := Outcome.throws }

/-- A sample environment of `produce`: one good candidate, the sample reader,
no slave delay, four quiet passes. -/
def sampleProduceEnv : ProduceEnv :=
  { membersSize := 3, potentiallyHot := true, mgr := true,
    candidates := [{ fullName := "c:27017", connects := true, remoteOldestOp := sampleEntry 2 }],
    reader := some sampleReader, tsOuter := 0, rollbackCursor := [], slaveDelay := 0,
    iters := [quietIter, quietIter, quietIter, quietIter] }

/-- A remote entry with the local last live GTID (1, 5) and another hash: the
upstream has diverged. -/
def divergedEntry : BSONObj :=
  { _id := ⟨1, 5⟩, ts := 5000, h := 55, payload := 0 }

/-- A sample environment of `produce` in which the first remote entry calls
for a rollback and no entry of the rollback cursor agrees with the local
oplog, so that `runRollback` throws; the entry (1, 6) is still in the current
batch. -/
def failedRollbackEnv : ProduceEnv :=
  { membersSize := 3, potentiallyHot := true, mgr := true,
    candidates := [{ fullName := "c:27017", connects := true, remoteOldestOp := sampleEntry 2 }],
    reader := some { batch := [divergedEntry, sampleEntry 6], script := [], dead := false },
    tsOuter := 0,
    rollbackCursor := [divergedEntry, { _id := ⟨1, 4⟩, ts := 4000, h := 44, payload := 0 }],
    slaveDelay := 0, iters := [quietIter, quietIter] }

/-- Where the producer thread stands in `producerThread`, lines 160-225. -/
inductive ProducerPc where
  | notStarted
  /-- At the loop test of line 166, with the current `timeToSleep`. -/
  | loopHead (timeToSleep : Nat)
  /-- Before the critical section of lines 169-174. -/
  | sleepEnter
  /-- In the sleep loop of lines 175-180. -/
  | sleeping
  /-- At the test of line 183. -/
  | exitCheck
  /-- Before the critical section of lines 185-199. -/
  | gate
  /-- Inside `_opSyncCanRunCondVar.wait(lck)`, line 193. -/
  | gateWaiting
  /-- At the test of line 201. -/
  | afterGate
  /-- At the state test of lines 203-207. -/
  | stateCheck
  /-- Inside `produce()`, line 210. -/
  | producing
  /-- After the loop, before lines 222-224. -/
  | leaving
  | exited
deriving DecidableEq, Repr

/-- Where a caller of `stopOpSyncThread` stands; `returned` records the
values of `_opSyncShouldRun`, `_opSyncRunning` and `_deque.size()` at the
moment the function returned. -/
inductive StopPc where
  | idle
  /-- Inside `_opSyncRunningCondVar.wait(lock)`, line 686. -/
  | waitRunning
  /-- Inside `_queueDone.wait(lock)`, line 693. -/
  | waitQueue
  | returned (shouldRun running : Bool) (size : Nat)
  /-- The assertion `verify(!_opSyncShouldRun)` of line 689 failed. -/
  | asserted
deriving DecidableEq, Repr

/-- Where a caller of `startOpSyncThread` stands. -/
inductive StartPc where
  | idle
  /-- Inside `_opSyncRunningCondVar.wait(lock)`, line 706. -/
  | waitRunning
  | returned
  /-- An assertion failed: `verifySettled` (line 701) or line 709. -/
  | asserted
deriving DecidableEq, Repr

/-- Where a caller of `shutdown` stands. -/
inductive ShutdownPc where
  | idle
  /-- In the loop of lines 76-79, waiting for `_opSyncInProgress` to clear. -/
  | waitProducer
  /-- In the loop of lines 92-95, waiting for `_applierInProgress` to clear. -/
  | waitApplier
  | returned
deriving DecidableEq, Repr

/-- The flags of `BackgroundSync`, the queue, and the positions of the
threads that run its functions. -/
structure Lifecycle where
  _opSyncShouldRun : Bool
  _opSyncRunning : Bool
  _opSyncShouldExit : Bool
  _opSyncInProgress : Bool
  _applierShouldExit : Bool
  _applierInProgress : Bool
  queue : BackgroundSync
  producer : ProducerPc
  stopPc : StopPc
  startPc : StartPc
  shutdownPc : ShutdownPc
deriving DecidableEq, Repr

/-- The object after its constructor, lines 30-38: every flag is false. -/
def Lifecycle.init : Lifecycle :=
  { _opSyncShouldRun := false, _opSyncRunning := false, _opSyncShouldExit := false,
    _opSyncInProgress := false, _applierShouldExit := false, _applierInProgress := false,
    queue := BackgroundSync.init, producer := .notStarted, stopPc := .idle,
    startPc := .idle, shutdownPc := .idle }

/-- One atomic step of the producer thread outside `produce()`; the argument
is the answer of `state.fatal() || state.startup()` at line 204. -/
def producerAdvance (fatalOrStartup : Bool) (s : Lifecycle) : Option Lifecycle :=
  match s.producer with
  | .notStarted => some { s with _opSyncInProgress := true, producer := .loopHead 0 }
  | .loopHead t =>
    if s._opSyncShouldExit = true then some { s with producer := .leaving }
    else if t ≠ 0 then some { s with producer := .sleepEnter }
    else some { s with producer := .exitCheck }
  | .sleepEnter => some { s with _opSyncRunning := false, producer := .sleeping }
  | .sleeping => some { s with producer := .exitCheck }
  | .exitCheck =>
    if s._opSyncShouldExit = true then some { s with producer := .leaving }
    else some { s with producer := .gate }
  | .gate =>
    if s._opSyncShouldRun = false ∧ s._opSyncShouldExit = false then
      some { s with _opSyncRunning := false, producer := .gateWaiting }
    else some { s with _opSyncRunning := true, producer := .afterGate }
  | .gateWaiting =>
    if s._opSyncShouldRun = false ∧ s._opSyncShouldExit = false then none
    else some { s with _opSyncRunning := true, producer := .afterGate }
  | .afterGate =>
    if s._opSyncShouldExit = true then some { s with producer := .leaving }
    else some { s with producer := .stateCheck }
  | .stateCheck =>
    if fatalOrStartup = true then some { s with producer := .loopHead 5 }
    else some { s with producer := .producing }
  | .producing => none
  | .leaving =>
    some { s with _opSyncRunning := false, _opSyncInProgress := false, producer := .exited }
  | .exited => none

/-- The rest of `stopOpSyncThread` once `_opSyncRunning` is seen false: the
assertion of line 689, then the wait for the queue, lines 692-696. -/
def stopAfterRunning (s : Lifecycle) : Lifecycle :=
  if s._opSyncShouldRun = true then { s with stopPc := .asserted }
  else if s.queue._deque.length > 0 then { s with stopPc := .waitQueue }
  else { s with
    stopPc := .returned s._opSyncShouldRun s._opSyncRunning s.queue._deque.length }

/-- A step of the threads that run `BackgroundSync`. -/
inductive LStep where
  /-- The producer thread advances outside `produce()`. -/
  | producer (fatalOrStartup : Bool)
  /-- The critical section of lines 366-388 inside `produce()`. -/
  | push (o : BSONObj)
  /-- The call of `produce()` returns the number of seconds to sleep. -/
  | produceReturn (secs : Nat)
  /-- The call of `produce()` throws; line 214 or 218 sets `timeToSleep = 10`. -/
  | produceThrows
  /-- The applier thread starts, line 100. -/
  | applierStart
  /-- A step of `applyOpsFromOplog`. -/
  | applier (st : Step)
  /-- The applier thread leaves at line 122 and line 105. -/
  | applierExit
  | stopCall
  | stopWake
  | startCall
  | startWake
  | shutdownCall
  | shutdownWake
deriving DecidableEq, Repr

/-- The effect of a step; `none` when the step is not enabled. -/
def lstep : LStep → Lifecycle → Option Lifecycle
  | .producer b, s => producerAdvance b s
  | .push o, s =>
    if s.producer = .producing then
      (producePush o s.queue).map (fun q => { s with queue := q })
    else none
  | .produceReturn secs, s =>
    if s.producer = .producing ∧ s.queue.producerBlocked = false then
      some { s with producer := .loopHead secs }
    else none
  | .produceThrows, s =>
    if s.producer = .producing ∧ s.queue.producerBlocked = false then
      some { s with producer := .loopHead 10 }
    else none
  | .applierStart, s =>
    if s._applierInProgress = false then some { s with _applierInProgress := true } else none
  | .applier st, s =>
    match st with
    | .push _ => none
    | st =>
      if s._applierInProgress = true then
        (step st s.queue).map (fun q => { s with queue := q })
      else none
  | .applierExit, s =>
    if s._applierInProgress = true ∧ s.queue.applierPc = .top ∧ s.queue._deque = [] ∧
        s._applierShouldExit = true then
      some { s with _applierInProgress := false }
    else none
  | .stopCall, s =>
    match s.stopPc with
    | .waitRunning => none
    | .waitQueue => none
    | _ =>
      let s := { s with _opSyncShouldRun := false }
      if s._opSyncRunning = true then some { s with stopPc := .waitRunning }
      else some (stopAfterRunning s)
  | .stopWake, s =>
    match s.stopPc with
    | .waitRunning => if s._opSyncRunning = true then none else some (stopAfterRunning s)
    | .waitQueue =>
      if s.queue._deque.length > 0 then none
      else some { s with
        stopPc := .returned s._opSyncShouldRun s._opSyncRunning s.queue._deque.length }
    | _ => none
  | .startCall, s =>
    match s.startPc with
    | .waitRunning => none
    | _ =>
      if s.queue._deque.length ≠ 0 then some { s with startPc := .asserted }
      else
        let s := { s with _opSyncShouldRun := true }
        if s._opSyncRunning = false then some { s with startPc := .waitRunning }
        else some { s with startPc := .returned }
  | .startWake, s =>
    match s.startPc with
    | .waitRunning =>
      if s._opSyncRunning = false then none
      else if s._opSyncShouldRun = true then some { s with startPc := .returned }
      else some { s with startPc := .asserted }
    | _ => none
  | .shutdownCall, s =>
    match s.shutdownPc with
    | .idle =>
      some { s with _opSyncShouldExit := true, _opSyncShouldRun := false,
                    shutdownPc := .waitProducer }
    | _ => none
  | .shutdownWake, s =>
    match s.shutdownPc with
    | .waitProducer =>
      if s._opSyncInProgress = true then none
      else some { s with _applierShouldExit := true, shutdownPc := .waitApplier }
    | .waitApplier =>
      if s._applierInProgress = true then none
      else some { s with shutdownPc := .returned }
    | _ => none

/-- An interleaving of lifecycle, producer and applier steps, run from `s`. -/
def lrun : List LStep → Lifecycle → Option Lifecycle
  | [], s => some s
  | l :: ls, s => (lstep l s).bind (lrun ls)

/-- What holds while a call of `stopOpSyncThread` is under way and neither
`startOpSyncThread` nor `shutdown` interferes. -/
def StopInv (s : Lifecycle) : Prop :=
  s._opSyncShouldExit = false ∧
  (s.stopPc = StopPc.waitRunning ∨ s.stopPc = StopPc.waitQueue →
    s._opSyncShouldRun = false) ∧
  (s.stopPc = StopPc.waitQueue → s._opSyncRunning = false) ∧
  (∀ a b n, s.stopPc = StopPc.returned a b n → a = false ∧ b = false ∧ n = 0)

/-- A run in which the threads start, `startOpSyncThread` lets the producer
run, and the producer pushes one entry from inside `produce()`. -/
def runUntilPush : List LStep :=
  [.producer false, .applierStart, .startCall, .producer false, .producer false,
   .producer false, .startWake, .producer false, .producer false, .push (sampleEntry 1)]

/-- The state `runUntilPush` leads to. -/
def statePushed : Lifecycle :=
  { _opSyncShouldRun := true, _opSyncRunning := true, _opSyncShouldExit := false,
    _opSyncInProgress := true, _applierShouldExit := false, _applierInProgress := true,
    queue := { _deque := [sampleEntry 1], producerBlocked := false, applierPc := .top,
               pushed := [sampleEntry 1], applierCalls := [] },
    producer := .producing, stopPc := .idle, startPc := .returned, shutdownPc := .idle }

/-- `stopOpSyncThread` is called, the producer leaves `produce()` and pauses,
and `stopOpSyncThread` goes on to wait for the queue to drain. -/
def stopUntilQueueWait : List LStep :=
  [.stopCall, .produceReturn 0, .producer false, .producer false, .producer false, .stopWake]

/-- The state `stopUntilQueueWait` leads to from `statePushed`. -/
def stateStopWaits : Lifecycle :=
  { statePushed with
    _opSyncShouldRun := false, _opSyncRunning := false, producer := .gateWaiting,
    stopPc := .waitQueue }

/-- The queue after the applier has applied and popped the one sample entry. -/
def drainedQueue : BackgroundSync :=
  { _deque := [], producerBlocked := false, applierPc := .top, pushed := [sampleEntry 1],
    applierCalls := [.noteApplyingGTID ⟨1, 1⟩, .applyTransactionFromOplog (sampleEntry 1),
      .noteGTIDApplied ⟨1, 1⟩, .pop_front (sampleEntry 1)] }

/-- A run up to the point where `stopOpSyncThread` waits for the queue. -/
def runUntilStopWaits : List LStep := runUntilPush ++ stopUntilQueueWait

/-- The applier applies and pops the front entry. -/
def applierDrainsOne : List LStep :=
  [.applier .front, .applier (.apply .returns .returns), .applier (.finish .returns)]

/-- While `stopOpSyncThread` waits for the queue, `shutdown` is called and
the producer, woken by `_opSyncShouldExit`, sets `_opSyncRunning`; the applier
drains the queue and `stopOpSyncThread` returns. -/
def stopDuringShutdownRun : List LStep :=
  runUntilStopWaits ++ [.shutdownCall, .producer false] ++ applierDrainsOne ++ [.stopWake]

/-- While `stopOpSyncThread` waits for the queue, the applier drains it and
`startOpSyncThread` is called before `stopOpSyncThread` wakes up. -/
def stopDuringStartRun : List LStep :=
  runUntilStopWaits ++ applierDrainsOne ++ [.startCall, .stopWake]

/-- A run in which `stopOpSyncThread` is called and returns undisturbed. -/
def quietStopRun : List LStep :=
  runUntilStopWaits ++ applierDrainsOne ++ [.stopWake]

/-! ## One pass of `producerThread`, and `handleSlaveDelay` -/

/-- How one pass through the loop body of `producerThread` ends: the loop is
left, or the next pass starts with the given `timeToSleep`. -/
inductive IterationEnd where
  | breaks
  | next (timeToSleep : Nat)
  | outOfFuel
deriving DecidableEq, Repr

/-- What one pass through the loop body of `producerThread` leaves: the
state of the producer's surroundings, whether `produce()` was called, and how
the pass ended. -/
structure IterationResult where
  world : ReplSet
  produceCalled : Bool
  fin : IterationEnd
deriving DecidableEq, Repr

/-- One pass through the loop body of `producerThread`, lines 167-219, that
gets past the wait of lines 185-199. `exitAt183` and `exitAt201` are the
values of `_opSyncShouldExit` read at those lines; `theReplSet->state()` is
the state of `w`. -/
def producerThreadIteration (exitAt183 exitAt201 : Bool) (env : ProduceEnv) (w : ReplSet) :
    IterationResult :=
  if exitAt183 = true then { world := w, produceCalled := false, fin := .breaks }
  else if exitAt201 = true then { world := w, produceCalled := false, fin := .breaks }
  else if w.state = MemberState.fatal ∨ w.state = MemberState.startup then
    { world := w, produceCalled := false, fin := .next 5 }
  else
    match produce env w with
    | (w, .returned secs) => { world := w, produceCalled := true, fin := .next secs }
    | (w, .threw) => { world := w, produceCalled := true, fin := .next 10 }
    | (w, .outOfFuel) => { world := w, produceCalled := true, fin := .outOfFuel }

/-- Successive passes of the loop of `producerThread`; the result is the
final state, whether `produce()` was called in some pass, and the values of
`timeToSleep` chosen, in order. -/
def producerThreadLoop :
    List (Bool × Bool × ProduceEnv) → ReplSet → ReplSet × Bool × List Nat
  | [], w => (w, false, [])
  | (e1, e2, env) :: rest, w =>
    let it := producerThreadIteration e1 e2 env w
    match it.fin with
    | .next t =>
      let res := producerThreadLoop rest it.world
      (res.1, it.produceCalled || res.2.1, t :: res.2.2)
    | _ => (it.world, it.produceCalled, [])

/-- What `handleSlaveDelay` reads after one sleep: the flag `_opSyncShouldRun`
at line 241 and, when the flag is set, the clock at line 246. -/
structure DelayTick where
  shouldRun : Bool
  now : Nat
deriving DecidableEq, Repr

/-- What `handleSlaveDelay` does, in order. -/
inductive DelayEvent where
  | sleepmillis (ms : Nat)
  | readShouldRun (value : Bool)
deriving DecidableEq, Repr

/-- How the loop of `handleSlaveDelay` is left: the loop test fails at the
clock reading `currTime`, or line 242 breaks. -/
inductive DelayExit where
  | reached (currTime : Nat)
  | paused
deriving DecidableEq, Repr

/-- The loop of lines 232-247; `none` when the scripted readings run out
before the loop is left. -/
def slaveDelayLoop (timeOpShouldBeApplied : Nat) :
    List DelayTick → Nat → List DelayEvent → Option (List DelayEvent × DelayExit)
  | [], currTime, evs =>
    if currTime < timeOpShouldBeApplied then none else some (evs, .reached currTime)
  | tick :: rest, currTime, evs =>
    if currTime < timeOpShouldBeApplied then
      let sleepTime := timeOpShouldBeApplied - currTime
      let evs := evs ++ [DelayEvent.sleepmillis (if sleepTime < 1000 then sleepTime else 1000),
        DelayEvent.readShouldRun tick.shouldRun]
      if tick.shouldRun = false then some (evs, .paused)
      else slaveDelayLoop timeOpShouldBeApplied rest tick.now evs
    else some (evs, .reached currTime)

/-- The product `slaveDelay * 1000` of line 229 as a `uint64_t`. `slaveDelay`
is the configured delay in seconds, an `int` that is not negative: the
product is formed in `int` (two's complement wrap-around; an overflow of `int`
is undefined in C++ and wraps on the hardware) and only then converted to
`uint64_t`, which maps a negative `int` to its value plus 2^64. -/
def slaveDelayMillisOf (slaveDelay : Nat) : Nat :=
  let p := (slaveDelay * 1000) % 2 ^ 32
  if p < 2 ^ 31 then p else p + (2 ^ 64 - 2 ^ 32)

/-- The function `handleSlaveDelay`, lines 227-248: `slaveDelay` is the
configured delay in seconds, `firstNow` the clock reading of line 230; the sum
of line 231 is formed in `uint64_t`. -/
def handleSlaveDelay (slaveDelay opTimestamp firstNow : Nat) (ticks : List DelayTick) :
    Option (List DelayEvent × DelayExit) :=
  let slaveDelayMillis := slaveDelayMillisOf slaveDelay
  let currTime := firstNow
  let timeOpShouldBeApplied := (opTimestamp + slaveDelayMillis) % 2 ^ 64
  slaveDelayLoop timeOpShouldBeApplied ticks currTime []

/-- The events are sleeps of at most 1000 ms, each directly followed by a
read of `_opSyncShouldRun`. -/
def SleepThenCheck (evs : List DelayEvent) : Prop :=
  ∃ pairs : List (Nat × Bool),
    evs = pairs.flatMap (fun p => [DelayEvent.sleepmillis p.1, DelayEvent.readShouldRun p.2]) ∧
    ∀ p ∈ pairs, 0 < p.1 ∧ p.1 ≤ 1000

/-- The sample state after a failed rollback: the member state is fatal. -/
def fatalReplSet : ReplSet := { sampleReplSet with state := MemberState.fatal }

/-! ## Namespace strings (`src/mongo/db/namespacestring.h`) -/

/-- The terminator of a C string. -/
def NUL : Char := Char.ofNat 0

/-- The bytes of a `StringData` or of a `std::string`: every byte counts, a
terminator included. A `const char*` argument is given as the bytes it points
to; the functions that take one read it up to the first terminator, and the
end of the list terminates it as well. -/
abbrev StringData := List Char

/-- The C string that starts at the first byte: the bytes before the
terminator. -/
def cstr (s : List Char) : List Char := s.takeWhile (fun c => c != NUL)

/-- The byte `s[i]` of a C string, the terminator at its end. -/
def charAt (s : List Char) (i : Nat) : Char := s.getD i NUL

/-- The call `strchr(s, c)`: the offset of the first `c` at or before the
terminator, `none` for the null pointer. -/
def strchr : List Char → Char → Option Nat
  | [], c => if c = NUL then some 0 else none
  | x :: xs, c =>
    if x = c then some 0
    else if x = NUL then none
    else (strchr xs c).map (fun i => i + 1)

/-- The call `strcmp(a, b)`: the sign of the first difference between the two
C strings, 0 when they are equal. -/
def strcmp : List Char → List Char → Int
  | [], [] => 0
  | [], y :: _ => if y = NUL then 0 else -1
  | x :: _, [] => if x = NUL then 0 else 1
  | x :: xs, y :: ys =>
    if x = y then (if x = NUL then 0 else strcmp xs ys)
    else if x.toNat < y.toNat then -1 else 1

/-- The constant `MaxDatabaseNameLen`, line 29. -/
def MaxDatabaseNameLen : Nat := 128

/-- The string `"local.oplog.$main"` of line 77. -/
def localOplogMain : List Char :=
  ['l', 'o', 'c', 'a', 'l', '.', 'o', 'p', 'l', 'o', 'g', '.', '$', 'm', 'a', 'i', 'n']

/-- The class `NamespaceString`, lines 35-132: its two data members. -/
structure NamespaceString where
  db : List Char
  coll : List Char
deriving DecidableEq, Repr

/-- The function `NamespaceString::init`, lines 126-131, which both
constructors call (the one that takes a `std::string` with `ns.c_str()`, the
bytes of the string followed by a terminator): `db` is `string(ns, p - ns)`,
`coll` is the C string at `p + 1`, and both stay empty when `strchr` finds no
dot. -/
def NamespaceString.init (ns : List Char) : NamespaceString :=
  match strchr ns '.' with
  | none => { db := [], coll := [] }
  | some p => { db := ns.take p, coll := cstr (ns.drop (p + 1)) }

/-- The function `NamespaceString::normal`, lines 73-78. -/
def NamespaceString.normal (ns : List Char) : Bool :=
  match strchr ns '$' with
  | none => true
  | some _ => decide (strcmp ns localOplogMain = 0)

/-- Modelled from the spec: `StringData::cspn(chars)`, the number of bytes at
the start of the string that are none of `chars` (the class `StringData` is
not among the sources at hand). -/
def StringData.cspn (s : StringData) (chars : List Char) : Nat :=
  (s.takeWhile (fun c => !chars.contains c)).length

/-- The characters of the literal at line 105: slash, backslash, dot, blank
and double quote. -/
def badDBNameChars : List Char := ['/', Char.ofNat 92, '.', Char.ofNat 32, Char.ofNat 34]

/-- The function `NamespaceString::validDBName`, lines 98-108. -/
def NamespaceString.validDBName (db : StringData) : Bool :=
  if db.length = 0 ∨ db.length > 64 then false
  else
    let good := StringData.cspn db badDBNameChars
    decide (good = db.length)

/-- The function `NamespaceString::validCollectionName`, lines 120-123; `c[1]`
is the byte after the dot that `strchr` found. -/
def NamespaceString.validCollectionName (dbcoll : List Char) : Bool :=
  match strchr dbcoll '.' with
  | none => false
  | some c => (charAt dbcoll (c + 1) != NUL) && NamespaceString.normal dbcoll

/-- Modelled from the spec: `StringData::find(c)`, the offset of the first byte
equal to `c`, `none` for `string::npos`. -/
def StringData.find : StringData → Char → Option Nat
  | [], _ => none
  | x :: xs, c => if x = c then some 0 else (StringData.find xs c).map (fun i => i + 1)

/-- The function `nsToDatabaseSubstring`, lines 135-143. A failed `massert`
throws; the error is its code (10078 or 10088). -/
def nsToDatabaseSubstring (ns : StringData) : Except Nat StringData :=
  match StringData.find ns '.' with
  | none => if ns.length < MaxDatabaseNameLen then .ok ns else .error 10078
  | some i => if i < MaxDatabaseNameLen then .ok (ns.take i) else .error 10088

/-- The part of a string before its first dot, the whole string when it has
no dot. -/
def databasePart (ns : List Char) : List Char := ns.takeWhile (fun c => c != '.')

/-! ## Master test for a namespace (`src/mongo/db/replutil.h`) -/

/-- The string `"local"` of lines 56 and 62. -/
def localDB : List Char := ['l', 'o', 'c', 'a', 'l']

/-- What `_isMaster`, `isMaster` and `isMasterNs` read from outside: the
global `replSet`, the global `theReplSet` (`none` for the null pointer, else
what `theReplSet->isPrimary()` answers), and the name of the database of the
current client, `cc().database()` (`none` for the null pointer). -/
structure ReplGlobals where
  replSet : Bool
  theReplSet : Option Bool
  currentDatabase : Option (List Char)
deriving DecidableEq, Repr

/-- The function `_isMaster`, lines 40-47. -/
def _isMaster (g : ReplGlobals) : Bool :=
  if g.replSet then
    match g.theReplSet with
    | some isPrimary => isPrimary
    | none => false
  else true

/-- The function `isMaster`, lines 48-57; `dbname` is `none` for the null
pointer, the default argument. The result is `none` when `verify(database)`
fails. -/
def isMaster (g : ReplGlobals) (dbname : Option (List Char)) : Option Bool :=
  if _isMaster g then some true
  else
    match dbname with
    | some d => some (decide (strcmp d localDB = 0))
    | none =>
      match g.currentDatabase with
      | none => none
      | some d => some (decide (strcmp d localDB = 0))

/-- Modelled from the spec: `str::startsWith(s, p)` of `mongoutils/str.h`,
whether the C string `s` begins with the C string `p`. -/
def startsWith : List Char → List Char → Bool
  | _, [] => true
  | [], p :: _ => decide (p = NUL)
  | x :: xs, p :: ps => if p = NUL then true else if x = p then startsWith xs ps else false

/-- The function `isMasterNs`, lines 58-65; `ns` is `none` for the null
pointer, on which `verify(ns)` fails (result `none`). -/
def isMasterNs (g : ReplGlobals) (ns : Option (List Char)) : Option Bool :=
  if _isMaster g then some true
  else
    match ns with
    | none => none
    | some ns =>
      if !startsWith ns localDB then some false
      else some (charAt ns 5 == NUL || charAt ns 5 == '.')

/-- A node that is not master: a replica-set member that is not primary. -/
def secondaryGlobals : ReplGlobals :=
  { replSet := true, theReplSet := some false, currentDatabase := none }

/-! ## Dup tracking and match counting (`src/mongo/db/queryoptimizercursorimpl.h`) -/

/-- Modelled from the spec: a `std::set<BSONObj>` is the list of its keys,
each once; `insert(x)` gives the set with `x` in it and whether `x` was
inserted, which it is not when the set holds an equal key already. (The
comparison of the set and the `==` of the vector scan both compare whole
documents; here they are the equality of `BSONObj`.) -/
def setInsert (s : List BSONObj) (x : BSONObj) : List BSONObj × Bool :=
  if x ∈ s then (s, false) else (s ++ [x], true)

/-- Modelled from the spec: the range insert `insert(first, last)` of a
`std::set<BSONObj>`. -/
def setInsertRange (s : List BSONObj) (xs : List BSONObj) : List BSONObj :=
  xs.foldl (fun acc x => (setInsert acc x).1) s

/-- A value brought into the range of `long long` the way the hardware does
it, by two's complement wrap-around. -/
def wrapLongLong (x : Int) : Int := (x + 2 ^ 63) % 2 ^ 64 - 2 ^ 63

/-- A value brought into the range of `int` by two's complement
wrap-around. -/
def wrapInt (x : Int) : Int := (x + 2 ^ 31) % 2 ^ 32 - 2 ^ 31

/-- The class `SmallDupSet`, lines 117-170: its three data members. -/
structure SmallDupSet where
  _vec : List BSONObj
  _set : List BSONObj
  _accesses : Int
deriving DecidableEq, Repr

/-- The constructor, lines 119-121 (`reserve` changes no content). -/
def SmallDupSet.init : SmallDupSet := { _vec := [], _set := [], _accesses := 0 }

/-- The function `vec`, lines 142-144. -/
def SmallDupSet.vec (s : SmallDupSet) : Bool := decide (s._set.length = 0)

/-- The function `mayUpgrade`, lines 137-141. -/
def SmallDupSet.mayUpgrade (s : SmallDupSet) : SmallDupSet :=
  if s.vec = true ∧ s._accesses > 500 then
    { s with _set := setInsertRange s._set s._vec }
  else s

/-- The function `access`, lines 133-136. -/
def SmallDupSet.access (s : SmallDupSet) : SmallDupSet :=
  SmallDupSet.mayUpgrade { s with _accesses := wrapLongLong (s._accesses + 1) }

/-- The function `getdupVec`, lines 152-159: the scan of `_vec`. -/
def SmallDupSet.getdupVec (s : SmallDupSet) (pk : BSONObj) : Bool :=
  s._vec.any (fun i => decide (i = pk))

/-- The function `getsetdupVec`, lines 145-151. -/
def SmallDupSet.getsetdupVec (s : SmallDupSet) (pk : BSONObj) : Bool × SmallDupSet :=
  if s.getdupVec pk then (true, s)
  else (false, { s with _vec := s._vec ++ [pk] })

/-- The function `getsetdupSet`, lines 160-163. -/
def SmallDupSet.getsetdupSet (s : SmallDupSet) (pk : BSONObj) : Bool × SmallDupSet :=
  let p := setInsert s._set pk
  (!p.2, { s with _set := p.1 })

/-- The function `getdupSet`, lines 164-166. -/
def SmallDupSet.getdupSet (s : SmallDupSet) (pk : BSONObj) : Bool :=
  decide (s._set.count pk > 0)

/-- The function `getsetdup`, lines 123-126. -/
def SmallDupSet.getsetdup (s : SmallDupSet) (pk : BSONObj) : Bool × SmallDupSet :=
  let s := s.access
  if s.vec then s.getsetdupVec pk else s.getsetdupSet pk

/-- The function `getdup`, lines 128-131. -/
def SmallDupSet.getdup (s : SmallDupSet) (pk : BSONObj) : Bool × SmallDupSet :=
  let s := s.access
  (if s.vec then s.getdupVec pk else s.getdupSet pk, s)

/-- A call of one of the two public functions of `SmallDupSet`. -/
inductive DupCall where
  | getsetdup (pk : BSONObj)
  | getdup (pk : BSONObj)
deriving DecidableEq, Repr

/-- The argument of a call. -/
def DupCall.pk : DupCall → BSONObj
  | .getsetdup pk => pk
  | .getdup pk => pk

/-- One call on a `SmallDupSet`: its answer and the object afterwards. -/
def SmallDupSet.call (s : SmallDupSet) : DupCall → Bool × SmallDupSet
  | .getsetdup pk => s.getsetdup pk
  | .getdup pk => s.getdup pk

/-- The answers of a sequence of calls, in order. -/
def SmallDupSet.answers : List DupCall → SmallDupSet → List Bool
  | [], _ => []
  | c :: cs, s => (s.call c).1 :: SmallDupSet.answers cs (s.call c).2

/-- The answer of a set in the words of the contract: whether `pk` was passed
to an earlier `getsetdup` call. -/
def passedEarlier (earlier : List DupCall) (pk : BSONObj) : Bool :=
  decide (DupCall.getsetdup pk ∈ earlier)

/-- The answers of a set to a sequence of calls made after the calls
`earlier`, in the words of the contract. -/
def setAnswers : List DupCall → List DupCall → List Bool
  | _, [] => []
  | earlier, c :: cs => passedEarlier earlier c.pk :: setAnswers (earlier ++ [c]) cs

/-- The keys a `SmallDupSet` holds: those of `_vec` while it works on the
vector, those of `_set` afterwards. -/
def SmallDupSet.contents (s : SmallDupSet) : List BSONObj :=
  if s.vec then s._vec else s._set

/-- The calls `earlier` were made on a fresh object and left `s`: `s` holds
the keys passed to `getsetdup`. -/
def Tracks (s : SmallDupSet) (earlier : List DupCall) : Prop :=
  ∀ y, y ∈ s.contents ↔ DupCall.getsetdup y ∈ earlier

/-- The enum `MatchState`, line 110. -/
inductive MatchState where
  | Unknown
  | False
  | True
deriving DecidableEq, Repr

/-- The class `CachedMatchCounter`, lines 28-114: its data members
(`_aggregateNscanned` is a reference to a count shared with other plans), and
a history variable. -/
structure CachedMatchCounter where
  _aggregateNscanned : Int
  _nscanned : Int
  _cumulativeCount : Int
  _count : Int
  _checkDups : Bool
  _match : MatchState
  _counted : Bool
  _dups : List BSONObj
  /-- Every `pk` for which `countMatch` incremented the counts, oldest first,
  each with the value `_checkDups` had in that call. -/
  countedPks : List (BSONObj × Bool)
deriving DecidableEq, Repr

/-- The constructor, line 34. -/
def CachedMatchCounter.init (aggregateNscanned cumulativeCount : Int) : CachedMatchCounter :=
  { _aggregateNscanned := aggregateNscanned, _nscanned := 0,
    _cumulativeCount := cumulativeCount, _count := 0, _checkDups := false,
    _match := MatchState.Unknown, _counted := false, _dups := [], countedPks := [] }

/-- The function `setCheckDups`, line 37. -/
def CachedMatchCounter.setCheckDups (s : CachedMatchCounter) (checkDups : Bool) :
    CachedMatchCounter :=
  { s with _checkDups := checkDups }

/-- The function `resetMatch`, lines 47-50. -/
def CachedMatchCounter.resetMatch (s : CachedMatchCounter) : CachedMatchCounter :=
  { s with _match := MatchState.Unknown, _counted := false }

/-- The function `setMatch`, lines 52-56. -/
def CachedMatchCounter.setMatch (s : CachedMatchCounter) (m : Bool) :
    Bool × CachedMatchCounter :=
  let oldMatch := s._match
  let s := { s with _match := if m then MatchState.True else MatchState.False }
  (decide (s._match = MatchState.True ∧ oldMatch ≠ MatchState.True), s)

/-- The function `knowMatch`, line 57. -/
def CachedMatchCounter.knowMatch (s : CachedMatchCounter) : Bool :=
  decide (s._match ≠ MatchState.Unknown)

/-- The private function `getsetdup`, lines 91-98. -/
def CachedMatchCounter.getsetdup (s : CachedMatchCounter) (pk : BSONObj) :
    Bool × CachedMatchCounter :=
  if !s._checkDups then (false, s)
  else
    let p := setInsert s._dups pk
    (!p.2, { s with _dups := p.1 })

/-- The private function `getdup`, lines 99-104. -/
def CachedMatchCounter.getdup (s : CachedMatchCounter) (pk : BSONObj) : Bool :=
  if !s._checkDups then false
  else decide (pk ∈ s._dups)

/-- The function `countMatch`, lines 58-64. The condition is evaluated left
to right and stops at the first false operand, so `getsetdup` runs only when
`!_counted && _match == True`. The increments of the two `int` counts wrap
(an overflow of `int` is undefined in C++; it wraps on the hardware). -/
def CachedMatchCounter.countMatch (s : CachedMatchCounter) (pk : BSONObj) :
    CachedMatchCounter :=
  if s._counted = false ∧ s._match = MatchState.True then
    let r := s.getsetdup pk
    if r.1 = false then
      { r.2 with _cumulativeCount := wrapInt (r.2._cumulativeCount + 1),
                 _count := wrapInt (r.2._count + 1),
                 _counted := true,
                 countedPks := r.2.countedPks ++ [(pk, r.2._checkDups)] }
    else r.2
  else s

/-- The function `wouldCountMatch`, lines 65-67. -/
def CachedMatchCounter.wouldCountMatch (s : CachedMatchCounter) (pk : BSONObj) : Bool :=
  !s._counted && decide (s._match = MatchState.True) && !s.getdup pk

/-- The function `updateNscanned`, lines 84-87, in `long long` arithmetic. -/
def CachedMatchCounter.updateNscanned (s : CachedMatchCounter) (nscanned : Int) :
    CachedMatchCounter :=
  { s with
    _aggregateNscanned := wrapLongLong (s._aggregateNscanned + wrapLongLong (nscanned - s._nscanned)),
    _nscanned := nscanned }

/-- A call of one of the public functions of `CachedMatchCounter` that change
the object. -/
inductive CounterCall where
  | setCheckDups (checkDups : Bool)
  | resetMatch
  | setMatch (m : Bool)
  | countMatch (pk : BSONObj)
  | updateNscanned (nscanned : Int)
deriving DecidableEq, Repr

/-- The object after one call. -/
def CachedMatchCounter.call (s : CachedMatchCounter) : CounterCall → CachedMatchCounter
  | .setCheckDups b => s.setCheckDups b
  | .resetMatch => s.resetMatch
  | .setMatch m => (s.setMatch m).2
  | .countMatch pk => s.countMatch pk
  | .updateNscanned n => s.updateNscanned n

/-- The object after a sequence of calls. -/
def CachedMatchCounter.calls : List CounterCall → CachedMatchCounter → CachedMatchCounter
  | [], s => s
  | c :: cs, s => CachedMatchCounter.calls cs (s.call c)

/-- A sequence of calls that counts `sampleEntry 1` while dup checking is
off, then enables dup checking and sets the match again. -/
def countThenEnableDupCheck : List CounterCall :=
  [CounterCall.setMatch true, CounterCall.countMatch (sampleEntry 1), CounterCall.resetMatch,
   CounterCall.setCheckDups true, CounterCall.setMatch true]

/-- What holds of a `CachedMatchCounter` built with `cumulativeCount = c0`
after any calls. -/
structure CounterInv (c0 : Int) (s : CachedMatchCounter) : Prop where
  diff : wrapInt (s._cumulativeCount - s._count) = c0
  dups : ∀ pk, pk ∈ s._dups ↔ (pk, true) ∈ s.countedPks
  count_eq : s._count = wrapInt s.countedPks.length
  cumul_eq : s._cumulativeCount = wrapInt (c0 + s.countedPks.length)

/-! ## `runRollback` with a cursor or a local lookup that throws -/

/-- What the scan phase of `runRollback` can meet besides its own two throws:
a `DBException` or another `std::exception` out of the rollback cursor (lines
483-485) or out of the local lookup (lines 503-507). -/
inductive ScanFault where
  | dbException
  | stdException
deriving DecidableEq, Repr

/-- What `rollbackCursor->more()` and `rollbackCursor->next()` give in one
round of the loop: the next remote entry, or a throw. -/
inductive CursorAnswer where
  | entry (remoteObj : BSONObj)
  | throws (f : ScanFault)
deriving DecidableEq, Repr

/-- One round of the loop of lines 484-524 as the collaborators decide it:
the answer of the cursor, and whether the local lookup of that entry (the
block of lines 503-507) throws. -/
structure ScanRound where
  next : CursorAnswer
  lookup : Option ScanFault
deriving DecidableEq, Repr

/-- The `RollbackOplogException` that leaves the scan phase: one of its own
(lines 495 and 529), or the one the catch blocks of lines 532-537 build from
an exception of the cursor or of the lookup. -/
inductive ScanFailure where
  | scan (e : RollbackOplogException)
  | rethrown (f : ScanFault)
deriving DecidableEq, Repr

/-- The loop of lines 484-524, as `scanLoop`, with rounds that may throw. -/
def scanLoopWithFaults (localOplog : List BSONObj) :
    List ScanRound → RollbackVars → Except ScanFailure RollbackVars
  | [], v => .ok v
  | round :: rest, v =>
    match round.next with
    | .throws f => .error (.rethrown f)
    | .entry remoteObj =>
      let remoteGTID := remoteObj._id
      let remoteTS := remoteObj.ts
      let oplogTS := if v.oplogTS = 0 then remoteTS else v.oplogTS
      let remoteLastHash := remoteObj.h
      if outsideWindow remoteTS oplogTS then .error (.scan .tooLong)
      else
        let v := { v with oplogTS := oplogTS, lookups := v.lookups ++ [remoteGTID] }
        match round.lookup with
        | some f => .error (.rethrown f)
        | none =>
          match findOne localOplog remoteGTID with
          | some localObj =>
            if localObj.h = remoteLastHash ∧ localObj.ts = remoteTS ∧
                GTID.cmp localObj._id remoteGTID = 0 then
              .ok { v with idToRollbackTo := localObj._id,
                           rollbackPointTS := localObj.ts,
                           rollbackPointHash := localObj.h }
            else scanLoopWithFaults localOplog rest v
          | none => scanLoopWithFaults localOplog rest v

/-- The scan phase, lines 477-537, as `scanPhase`: `opening` says whether
`r.getRollbackCursor(ourLast)` of line 483 throws. -/
def scanPhaseWithFaults (localOplog : List BSONObj) (opening : Option ScanFault)
    (rounds : List ScanRound) (oplogTS : Nat) : Except ScanFailure RollbackVars :=
  match opening with
  | some f => .error (.rethrown f)
  | none =>
    match scanLoopWithFaults localOplog rounds (RollbackVars.start oplogTS) with
    | .error e => .error e
    | .ok v => if v.idToRollbackTo.isInitial then .error (.scan .couldNotFind) else .ok v

/-- The function `runRollback`, lines 471-613, as `runRollback` above, with a
rollback cursor and a local lookup that may throw. -/
def runRollbackWithFaults (w : ReplSet) (opening : Option ScanFault)
    (rounds : List ScanRound) (oplogTS : Nat) : ReplSet × Except ScanFailure Unit :=
  let w : ReplSet := { w with rbid := w.rbid + 1, calls := w.calls ++ [ProducerCall.incRBID] }
  match scanPhaseWithFaults w.localOplog opening rounds oplogTS with
  | .error e => (w, .error e)
  | .ok v =>
    let w : ReplSet := { w with
      state := MemberState.rollback,
      calls := w.calls ++ [ProducerCall.waitQueueDone, ProducerCall.verifySettled,
        ProducerCall.invalidateAllCursors, ProducerCall.abortLiveTransactions,
        ProducerCall.goToRollbackState] }
    let gm := w.gtidManager.resetAfterInitialSync v.idToRollbackTo v.rollbackPointTS
      v.rollbackPointHash
    let u := undoAll v.idToRollbackTo w.localOplog
    ({ w with
        gtidManager := gm, localOplog := u.oplog, state := MemberState.other,
        calls := w.calls ++
          [ProducerCall.resetAfterInitialSync v.idToRollbackTo v.rollbackPointTS
            v.rollbackPointHash, ProducerCall.forceUpdateReplInfo] ++
          u.undone.map ProducerCall.rollbackTransactionFromOplog ++
          [ProducerCall.leaveRollbackState] },
      .ok ())

/-- A round in which nothing throws. -/
def ScanRound.quiet (remoteObj : BSONObj) : ScanRound :=
  { next := CursorAnswer.entry remoteObj, lookup := none }

/-- The world `runRollback` leaves when its scan phase fails: only `incRBID`
was called. -/
def afterIncRBID (w : ReplSet) : ReplSet :=
  { w with rbid := w.rbid + 1, calls := w.calls ++ [ProducerCall.incRBID] }

/-! ## The queue with wake-ups that the applier did not cause, and a drained queue -/

/-- A step of the two threads, or a return of the producer's
`_queueCond.wait(lock)` of line 386 that no signal of the applier caused (a
wait on a condition variable may return spuriously). -/
inductive WakeStep where
  | step (l : Step)
  | spuriousWake
deriving DecidableEq, Repr

/-- The effect of a step. Line 385 is an `if`, not a loop: after the wait
returns the producer leaves the critical section and goes on, whatever the
size of the queue. -/
def stepWithWake : WakeStep → BackgroundSync → Option BackgroundSync
  | .step l, s => step l s
  | .spuriousWake, s =>
    if s.producerBlocked then some { s with producerBlocked := false } else none

/-- An interleaving with such wake-ups, run from `s`. -/
def runWithWake : List WakeStep → BackgroundSync → Option BackgroundSync
  | [], s => some s
  | l :: ls, s => (stepWithWake l s).bind (runWithWake ls)

/-- The steps of `k` iterations of the applier in which nothing throws. -/
def applierIterations : Nat → List Step
  | 0 => []
  | k + 1 => applierIterations k ++
      [Step.front, Step.apply Outcome.returns Outcome.returns, Step.finish Outcome.returns]

/-- The calls of the applier in its first `k` iterations on a queue that held
`n` copies of `o`. -/
def drainCalls (o : BSONObj) (n : Nat) : Nat → List ApplierCall
  | 0 => []
  | k + 1 => drainCalls o n k ++
      [ApplierCall.noteApplyingGTID o._id, ApplierCall.applyTransactionFromOplog o] ++
      (if n - (k + 1) = 10000 then
        [ApplierCall.noteGTIDApplied o._id, ApplierCall.pop_front o, ApplierCall.notify_all]
      else [ApplierCall.noteGTIDApplied o._id, ApplierCall.pop_front o])

/-- The state after `n` pushes of `o` and then `k` iterations of the
applier. -/
def afterDrain (o : BSONObj) (n k : Nat) : BackgroundSync :=
  { _deque := List.replicate (n - k) o,
    producerBlocked := decide (n > 20000 ∧ n - k > 10000),
    applierPc := .top, pushed := List.replicate n o, applierCalls := drainCalls o n k }

/-- The state after `n` pushes of `o`, `k` iterations of the applier, and the
application of the next entry, which is not popped yet. -/
def midDrain (o : BSONObj) (n k : Nat) : BackgroundSync :=
  { _deque := List.replicate (n - k) o,
    producerBlocked := decide (n > 20000 ∧ n - k > 10000),
    applierPc := .applied o, pushed := List.replicate n o,
    applierCalls := drainCalls o n k ++
      [ApplierCall.noteApplyingGTID o._id, ApplierCall.applyTransactionFromOplog o] }

/-! ## Theorems: queue -/

theorem popped_append (a b : List ApplierCall) : popped (a ++ b) = popped a ++ popped b := by
  induction a with
  | nil => rfl
  | cons x xs ih => cases x <;> simp [popped, ih]

theorem appliedEntries_append (a b : List ApplierCall) :
    appliedEntries (a ++ b) = appliedEntries a ++ appliedEntries b := by
  induction a with
  | nil => rfl
  | cons x xs ih => cases x <;> simp [appliedEntries, ih]

theorem run_preserves_of (Q : Step → Prop) (P : BackgroundSync → Prop)
    (hstep : ∀ l s s', Q l → P s → step l s = some s' → P s') :
    ∀ ls s s', (∀ l ∈ ls, Q l) → P s → run ls s = some s' → P s' := by
  intro ls
  induction ls with
  | nil =>
    intro s s' _ hP h
    simp [run] at h
    exact h ▸ hP
  | cons l ls ih =>
    intro s s' hQ hP h
    simp only [run] at h
    cases hs : step l s with
    | none => simp [hs] at h
    | some t =>
      simp only [hs, Option.bind_some] at h
      exact ih t s' (fun x hx => hQ x (List.mem_cons_of_mem _ hx))
        (hstep l s t (hQ l (List.mem_cons_self _ _)) hP hs) h

theorem run_preserves (P : BackgroundSync → Prop)
    (hstep : ∀ l s s', P s → step l s = some s' → P s') :
    ∀ ls s s', P s → run ls s = some s' → P s' := fun ls s s' hP h =>
  run_preserves_of (fun _ => True) P (fun l s s' _ => hstep l s s') ls s s'
    (fun _ _ => trivial) hP h

theorem run_append (l1 l2 : List Step) (s : BackgroundSync) :
    run (l1 ++ l2) s = (run l1 s).bind (run l2) := by
  induction l1 generalizing s with
  | nil => simp [run]
  | cons l ls ih =>
    simp only [List.cons_append, run]
    cases step l s with
    | none => simp
    | some t => simp [ih]

theorem stepOrder_nil : StepOrder [] := by
  intro pre o post h
  simp at h

theorem stepOrder_append_of_no_pop {calls evs : List ApplierCall} (h : StepOrder calls)
    (hno : ∀ o, ApplierCall.pop_front o ∉ evs) : StepOrder (calls ++ evs) := by
  intro pre o post heq
  rw [List.append_eq_append_iff] at heq
  rcases heq with ⟨a', _, h2⟩ | ⟨c', h1, h2⟩
  · exact absurd (h2 ▸ List.mem_append_right a' (List.mem_cons_self _ _)) (hno o)
  · cases c' with
    | nil =>
      simp only [List.nil_append] at h2
      exact absurd (h2 ▸ List.mem_cons_self _ _) (hno o)
    | cons x c'' =>
      simp only [List.cons_append, List.cons.injEq] at h2
      exact h pre o c'' (by rw [h1, ← h2.1])

theorem stepOrder_append_pop {pre0 : List ApplierCall} {o : BSONObj}
    (h : StepOrder (pre0 ++ [ApplierCall.noteApplyingGTID o._id,
      ApplierCall.applyTransactionFromOplog o])) :
    StepOrder ((pre0 ++ [ApplierCall.noteApplyingGTID o._id,
      ApplierCall.applyTransactionFromOplog o]) ++
      [ApplierCall.noteGTIDApplied o._id, ApplierCall.pop_front o]) := by
  intro pre o' post heq
  rw [List.append_eq_append_iff] at heq
  rcases heq with ⟨a', h1, h2⟩ | ⟨c', h1, h2⟩
  · cases a' with
    | nil => simp at h2
    | cons x a'' =>
      cases a'' with
      | nil =>
        simp only [List.cons_append, List.nil_append, List.cons.injEq,
          ApplierCall.pop_front.injEq] at h2
        obtain ⟨hx, ho, _⟩ := h2
        subst hx ho
        exact ⟨pre0, by simp [h1]⟩
      | cons y a3 =>
        simp at h2
  · cases c' with
    | nil => simp at h2
    | cons x c'' =>
      simp only [List.cons_append, List.cons.injEq] at h2
      exact h pre o' c'' (by rw [h1, ← h2.1])

theorem inv_init : Inv BackgroundSync.init := by
  refine ⟨rfl, ?_, ?_, stepOrder_nil, ?_, ?_, ?_⟩ <;> simp [BackgroundSync.init]

theorem inv_push (o : BSONObj) (s s' : BackgroundSync) (hI : Inv s)
    (h : producePush o s = some s') : Inv s' := by
  unfold producePush at h
  split at h
  · simp at h
  · rename_i hb
    simp only [Option.some.injEq] at h
    subst h
    have hlen := hI.unblocked (by simpa using hb)
    refine ⟨?_, ?_, ?_, hI.order, ?_, ?_, ?_⟩
    · simp [hI.fifo]
    · intro c hc
      have := hI.front_fetched c hc
      cases hd : s._deque with
      | nil => simp [hd] at this
      | cons x xs => simpa [hd] using this
    · intro c hc
      obtain ⟨h1, h2⟩ := hI.front_applied c hc
      refine ⟨?_, h2⟩
      cases hd : s._deque with
      | nil => simp [hd] at h1
      | cons x xs => simpa [hd] using h1
    · simp; omega
    · simp
    · simp; omega

theorem inv_front (s s' : BackgroundSync) (hI : Inv s)
    (h : applierFront s = some s') : Inv s' := by
  unfold applierFront at h
  split at h
  · rename_i curr rest hpc hd
    simp only [Option.some.injEq] at h
    subst h
    refine ⟨hI.fifo, ?_, ?_, hI.order, hI.bound, hI.unblocked, hI.blocked⟩
    · intro c hc
      simp only [ApplierPc.fetched.injEq] at hc
      simp [hd, hc]
    · intro c hc
      simp at hc
  · simp at h

theorem inv_apply (a b : Outcome) (s s' : BackgroundSync) (hI : Inv s)
    (h : applierApply a b s = some s') : Inv s' := by
  unfold applierApply at h
  split at h
  · rename_i curr hpc
    have hfront := hI.front_fetched curr hpc
    split at h <;> simp only [Option.some.injEq] at h <;> subst h
    · refine ⟨?_, ?_, ?_, ?_, hI.bound, hI.unblocked, hI.blocked⟩
      · simp [popped_append, popped, hI.fifo]
      · intro c hc; simp at hc
      · intro c hc; simp at hc
      · exact stepOrder_append_of_no_pop hI.order (by simp)
    · refine ⟨?_, ?_, ?_, ?_, hI.bound, hI.unblocked, hI.blocked⟩
      · simp [popped_append, popped, hI.fifo]
      · intro c hc; simp at hc
      · intro c hc; simp at hc
      · exact stepOrder_append_of_no_pop hI.order (by simp)
    · refine ⟨?_, ?_, ?_, ?_, hI.bound, hI.unblocked, hI.blocked⟩
      · simp [popped_append, popped, hI.fifo]
      · intro c hc; simp at hc
      · intro c hc
        simp only [ApplierPc.applied.injEq] at hc
        subst hc
        exact ⟨hfront, s.applierCalls, rfl⟩
      · exact stepOrder_append_of_no_pop hI.order (by simp)
  · simp at h

theorem inv_finish (a : Outcome) (s s' : BackgroundSync) (hI : Inv s)
    (h : applierFinish a s = some s') : Inv s' := by
  unfold applierFinish at h
  split at h
  · rename_i curr hpc
    obtain ⟨hfront, pre0, hcalls⟩ := hI.front_applied curr hpc
    split at h
    · simp only [Option.some.injEq] at h
      subst h
      refine ⟨?_, ?_, ?_, ?_, hI.bound, hI.unblocked, hI.blocked⟩
      · simp [popped_append, popped, hI.fifo]
      · intro c hc; simp at hc
      · intro c hc; simp at hc
      · exact stepOrder_append_of_no_pop hI.order (by simp)
    · split at h
      · simp at h
      · rename_i front rest hd
        have hfc : front = curr := by simpa [hd] using hfront
        subst hfc
        have hb := hI.bound
        have hub := hI.unblocked
        have hbl := hI.blocked
        have hord : StepOrder (s.applierCalls ++
            [ApplierCall.noteGTIDApplied front._id, ApplierCall.pop_front front]) := by
          have := hI.order
          rw [hcalls] at this ⊢
          exact stepOrder_append_pop this
        rw [hd] at hb hub hbl
        simp only [List.length_cons] at hb hub hbl
        split at h <;> simp only [Option.some.injEq] at h <;> subst h
        · rename_i hlen
          refine ⟨?_, ?_, ?_, ?_, ?_, ?_, ?_⟩
          · simp [popped_append, popped, hI.fifo, hd]
          · intro c hc; simp at hc
          · intro c hc; simp at hc
          · have := @stepOrder_append_of_no_pop _ [ApplierCall.notify_all] hord (by simp)
            simpa using this
          · simp; omega
          · simp; omega
          · simp
        · rename_i hlen
          refine ⟨?_, ?_, ?_, hord, ?_, ?_, ?_⟩
          · simp [popped_append, popped, hI.fifo, hd]
          · intro c hc; simp at hc
          · intro c hc; simp at hc
          · simp; omega
          · intro hbk; have := hub hbk; simp; omega
          · intro hbk; have := hbl hbk; simp; omega
  · simp at h

theorem inv_step (l : Step) (s s' : BackgroundSync) (hI : Inv s)
    (h : step l s = some s') : Inv s' := by
  cases l with
  | push o => exact inv_push o s s' hI h
  | front => exact inv_front s s' hI h
  | apply a b => exact inv_apply a b s s' hI h
  | finish a => exact inv_finish a s s' hI h

theorem inv_run (ls : List Step) (s : BackgroundSync)
    (h : run ls BackgroundSync.init = some s) : Inv s :=
  run_preserves Inv inv_step ls BackgroundSync.init s inv_init h

theorem mem_popped {o : BSONObj} {calls : List ApplierCall} :
    o ∈ popped calls ↔ ApplierCall.pop_front o ∈ calls := by
  induction calls with
  | nil => simp [popped]
  | cons x xs ih => cases x <;> simp [popped, ih]

theorem mem_appliedEntries {o : BSONObj} {calls : List ApplierCall} :
    o ∈ appliedEntries calls ↔ ApplierCall.applyTransactionFromOplog o ∈ calls := by
  induction calls with
  | nil => simp [appliedEntries]
  | cons x xs ih => cases x <;> simp [appliedEntries, ih]

theorem run_pushes (o : BSONObj) (n : Nat) (hn : n ≤ 20001) :
    run (List.replicate n (Step.push o)) BackgroundSync.init = some (afterPushes o n) := by
  induction n with
  | zero => rfl
  | succ k ih =>
    have hk : ¬ k > 20000 := by omega
    rw [List.replicate_succ', run_append, ih (by omega)]
    simp [run, step, producePush, afterPushes, hk, ← List.replicate_succ']

/-- C2, counterexample. 20 001 pushes with no pop in between are one run of
the producer (it waits only after the push that makes the size exceed
20 000), and the queue then holds 20 001 entries. -/
theorem queue_bound_20000_fails :
    ∃ s, run (List.replicate 20001 (Step.push (sampleEntry 1))) BackgroundSync.init = some s ∧
      s._deque.length = 20001 ∧ ¬ s._deque.length ≤ 20000 :=
  ⟨afterPushes (sampleEntry 1) 20001, run_pushes _ 20001 (Nat.le_refl _),
    List.length_replicate _ _, by
      show ¬ (List.replicate 20001 (sampleEntry 1)).length ≤ 20000
      rw [List.length_replicate]
      omega⟩

/-- C2, amended. In every state reached from the empty queue by producer
pushes and applier steps (a waiting producer being released by the applier's
signal only) the queue size never exceeds 20 001, and it exceeds 20 000 only
while the producer is waiting. -/
theorem queue_bound (ls : List Step) (s : BackgroundSync)
    (h : run ls BackgroundSync.init = some s) :
    s._deque.length ≤ 20001 ∧ (20000 < s._deque.length → s.producerBlocked = true) := by
  have hI := inv_run ls s h
  refine ⟨hI.bound, fun hlt => ?_⟩
  cases hb : s.producerBlocked with
  | true => rfl
  | false => have := hI.unblocked hb; omega

/-- C2, witness of the amended bound on the sample run. -/
theorem queue_bound_witness :
    run sampleRun BackgroundSync.init = some sampleState ∧
    sampleState._deque.length ≤ 20001 :=
  ⟨by decide, (queue_bound sampleRun sampleState (by decide)).1⟩

theorem notify_count_step (l : Step) (s s' : BackgroundSync) (hs : step l s = some s') :
    s'.applierCalls.count ApplierCall.notify_all =
      s.applierCalls.count ApplierCall.notify_all +
        (if l = Step.finish Outcome.returns ∧ s'._deque.length = 10000 then 1 else 0) := by
  cases l with
  | push o =>
    simp only [step, producePush] at hs
    split at hs
    · simp at hs
    · simp only [Option.some.injEq] at hs
      subst hs
      simp
  | front =>
    simp only [step, applierFront] at hs
    split at hs
    · simp only [Option.some.injEq] at hs
      subst hs
      simp
    · simp at hs
  | apply a b =>
    simp only [step, applierApply] at hs
    split at hs
    · split at hs <;> simp only [Option.some.injEq] at hs <;> subst hs <;> simp
    · simp at hs
  | finish a =>
    simp only [step, applierFinish] at hs
    split at hs
    · split at hs
      · simp only [Option.some.injEq] at hs
        subst hs
        simp
      · split at hs
        · simp at hs
        · split at hs <;> simp only [Option.some.injEq] at hs <;> subst hs
          · rename_i hlen
            simp [hlen]
          · rename_i hlen
            simp [hlen]
    · simp at hs

theorem unblock_step (l : Step) (s s' : BackgroundSync) (hs : step l s = some s')
    (hb : s.producerBlocked = true) :
    (∀ o, l ≠ Step.push o) ∧
    (s'.producerBlocked = false →
      l = Step.finish Outcome.returns ∧ s'._deque.length = 10000) := by
  cases l with
  | push o =>
    simp [step, producePush, hb] at hs
  | front =>
    simp only [step, applierFront] at hs
    split at hs
    · simp only [Option.some.injEq] at hs
      subst hs
      simp [hb]
    · simp at hs
  | apply a b =>
    simp only [step, applierApply] at hs
    split at hs
    · split at hs <;> simp only [Option.some.injEq] at hs <;> subst hs <;> simp [hb]
    · simp at hs
  | finish a =>
    simp only [step, applierFinish] at hs
    split at hs
    · split at hs
      · simp only [Option.some.injEq] at hs
        subst hs
        simp [hb]
      · split at hs
        · simp at hs
        · split at hs <;> simp only [Option.some.injEq] at hs <;> subst hs
          · rename_i hlen
            simp [hlen]
          · simp [hb]
    · simp at hs

theorem runWithWake_steps (ls : List Step) (s : BackgroundSync) :
    runWithWake (ls.map WakeStep.step) s = run ls s := by
  induction ls generalizing s with
  | nil => rfl
  | cons l ls ih =>
    simp only [List.map_cons, runWithWake, stepWithWake, run]
    cases step l s with
    | none => rfl
    | some t => exact ih t

theorem runWithWake_append (l1 l2 : List WakeStep) (s : BackgroundSync) :
    runWithWake (l1 ++ l2) s = (runWithWake l1 s).bind (runWithWake l2) := by
  induction l1 generalizing s with
  | nil => simp [runWithWake]
  | cons l ls ih =>
    simp only [List.cons_append, runWithWake]
    cases stepWithWake l s with
    | none => simp
    | some t => simp [ih]

theorem wake_then_push (o o2 : BSONObj) (n : Nat) (hn : 20000 < n) :
    runWithWake [WakeStep.spuriousWake, WakeStep.step (Step.push o2)] (afterPushes o n) =
      some { _deque := List.replicate n o ++ [o2], producerBlocked := true,
             applierPc := ApplierPc.top, pushed := List.replicate n o ++ [o2],
             applierCalls := [] } := by
  have hb : decide (n > 20000) = true := decide_eq_true hn
  have hb2 : decide ((List.replicate n o ++ [o2]).length > 20000) = true := by
    rw [List.length_append, List.length_replicate]
    exact decide_eq_true (by show 20000 < n + 1; omega)
  simp only [runWithWake, stepWithWake, afterPushes, hb, if_true, Option.some_bind, step,
    producePush, Bool.false_eq_true, if_false, hb2]

/-- C3, counterexample. After 20 001 pushes the producer waits at line 386.
Its wait returns without a signal of the applier; line 385 being an `if`, the
producer goes on and pushes entry 20 002, while the applier has not popped
anything and the size has not fallen at all. -/
theorem wake_without_signal_pushes_again :
    ∃ s1 s2,
      runWithWake ((List.replicate 20001 (Step.push (sampleEntry 1))).map WakeStep.step)
        BackgroundSync.init = some s1 ∧
      s1.producerBlocked = true ∧ s1._deque.length = 20001 ∧
      runWithWake [WakeStep.spuriousWake, WakeStep.step (Step.push (sampleEntry 2))] s1 =
        some s2 ∧
      s2.pushed = List.replicate 20001 (sampleEntry 1) ++ [sampleEntry 2] ∧
      s2._deque.length = 20002 ∧ s2.applierCalls = [] := by
  refine ⟨afterPushes (sampleEntry 1) 20001,
    { _deque := List.replicate 20001 (sampleEntry 1) ++ [sampleEntry 2],
      producerBlocked := true, applierPc := ApplierPc.top,
      pushed := List.replicate 20001 (sampleEntry 1) ++ [sampleEntry 2],
      applierCalls := [] }, ?_, by decide, List.length_replicate _ _, ?_, rfl, ?_, rfl⟩
  · rw [runWithWake_steps]
    exact run_pushes _ 20001 (Nat.le_refl _)
  · exact wake_then_push _ _ 20001 (by omega)
  · show (List.replicate 20001 (sampleEntry 1) ++ [sampleEntry 2]).length = 20002
    rw [List.length_append, List.length_replicate]
    rfl

theorem afterDrain_zero (o : BSONObj) (n : Nat) : afterDrain o n 0 = afterPushes o n := by
  unfold afterDrain afterPushes drainCalls
  have : decide (n > 20000 ∧ n - 0 > 10000) = decide (n > 20000) := by
    rw [decide_eq_decide]
    constructor
    · exact fun h => h.1
    · intro h
      exact ⟨h, by omega⟩
  rw [this]
  rfl

theorem run_front_apply (o : BSONObj) (n k : Nat) (hk : k < n) :
    run [Step.front, Step.apply Outcome.returns Outcome.returns] (afterDrain o n k) =
      some (midDrain o n k) := by
  have hn : n - k = (n - (k + 1)) + 1 := by omega
  unfold afterDrain midDrain
  rw [hn, List.replicate_succ]
  rfl

theorem step_finish_midDrain (o : BSONObj) (n k : Nat) (hk : k < n) :
    step (Step.finish Outcome.returns) (midDrain o n k) = some (afterDrain o n (k + 1)) := by
  have hn : n - k = (n - (k + 1)) + 1 := by omega
  unfold afterDrain midDrain
  rw [hn, List.replicate_succ]
  simp only [step, applierFinish, List.length_replicate]
  by_cases h1 : n - (k + 1) = 10000
  · have hb : decide (n > 20000 ∧ n - (k + 1) > 10000) = false := by
      rw [decide_eq_false_iff_not]
      omega
    simp only [if_pos h1, drainCalls, hb]
  · have hb : decide (n > 20000 ∧ n - (k + 1) + 1 > 10000) =
        decide (n > 20000 ∧ n - (k + 1) > 10000) := by
      rw [decide_eq_decide]
      constructor
      · exact fun h => ⟨h.1, by omega⟩
      · exact fun h => ⟨h.1, by omega⟩
    simp only [if_neg h1, drainCalls, hb]

theorem run_applierIterations (o : BSONObj) (n : Nat) : ∀ k, k ≤ n →
    run (applierIterations k) (afterPushes o n) = some (afterDrain o n k) := by
  intro k
  induction k with
  | zero =>
    intro _
    rw [afterDrain_zero]
    rfl
  | succ k ih =>
    intro hk
    have h1 := ih (by omega)
    have h2 := run_front_apply o n k (by omega)
    have h3 := step_finish_midDrain o n k (by omega)
    show run (applierIterations k ++
      [Step.front, Step.apply Outcome.returns Outcome.returns, Step.finish Outcome.returns])
      (afterPushes o n) = _
    rw [run_append, h1, Option.some_bind]
    have h4 : run ([Step.front, Step.apply Outcome.returns Outcome.returns] ++
        [Step.finish Outcome.returns]) (afterDrain o n k) = some (afterDrain o n (k + 1)) := by
      rw [run_append, h2, Option.some_bind]
      simp only [run, h3, Option.some_bind]
    exact h4

/-- The run of 20 001 pushes, 10 000 iterations of the applier, and the
application of the next entry leads to `midDrain`. -/
theorem run_to_midDrain (o : BSONObj) :
    run (List.replicate 20001 (Step.push o) ++ applierIterations 10000 ++
      [Step.front, Step.apply Outcome.returns Outcome.returns]) BackgroundSync.init =
      some (midDrain o 20001 10000) := by
  rw [run_append, run_append, run_pushes o 20001 (Nat.le_refl _), Option.some_bind,
    run_applierIterations o 20001 10000 (by omega), Option.some_bind]
  exact run_front_apply o 20001 10000 (by omega)

/-- C3, amended (low-watermark signalling), in the model in which a waiting
producer is woken by the applier's signal only. For every step taken from a
reachable state: the applier's `notify_all` count grows by one exactly when
the step is the one that pops the front entry and the queue size right after
the pop is 10 000, and is unchanged by every other step and at every other
size. While the producer waits at the high watermark the size is above
10 000, the step is not a push, and the producer stops waiting only through
such a pop that leaves exactly 10 000 entries. -/
theorem low_watermark_signal (ls : List Step) (s s' : BackgroundSync) (l : Step)
    (hr : run ls BackgroundSync.init = some s) (hs : step l s = some s') :
    (s'.applierCalls.count ApplierCall.notify_all =
      s.applierCalls.count ApplierCall.notify_all +
        (if l = Step.finish Outcome.returns ∧ s'._deque.length = 10000 then 1 else 0)) ∧
    (s.producerBlocked = true →
      10000 < s._deque.length ∧ (∀ o, l ≠ Step.push o) ∧
      (s'.producerBlocked = false →
        l = Step.finish Outcome.returns ∧ s'._deque.length = 10000)) := by
  refine ⟨notify_count_step l s s' hs, fun hb => ?_⟩
  have h := unblock_step l s s' hs hb
  exact ⟨(inv_run ls s hr).blocked hb, h.1, h.2⟩

/-- C3, witness: 20 001 pushes, after which the producer waits; 10 000
iterations of the applier and the application of the next entry, the producer
still waiting with 10 001 entries queued; then the pop that leaves exactly
10 000 entries, which is the one step that signals and releases the
producer. -/
theorem low_watermark_signal_witness :
    run (List.replicate 20001 (Step.push (sampleEntry 1)) ++ applierIterations 10000 ++
      [Step.front, Step.apply Outcome.returns Outcome.returns]) BackgroundSync.init =
      some (midDrain (sampleEntry 1) 20001 10000) ∧
    step (Step.finish Outcome.returns) (midDrain (sampleEntry 1) 20001 10000) =
      some (afterDrain (sampleEntry 1) 20001 10001) ∧
    (midDrain (sampleEntry 1) 20001 10000).producerBlocked = true ∧
    (afterDrain (sampleEntry 1) 20001 10001).producerBlocked = false ∧
    (afterDrain (sampleEntry 1) 20001 10001)._deque.length = 10000 ∧
    10000 < (midDrain (sampleEntry 1) 20001 10000)._deque.length ∧
    (afterDrain (sampleEntry 1) 20001 10001).applierCalls.count ApplierCall.notify_all =
      (midDrain (sampleEntry 1) 20001 10000).applierCalls.count ApplierCall.notify_all + 1 := by
  have hlen : (afterDrain (sampleEntry 1) 20001 10001)._deque.length = 10000 :=
    List.length_replicate _ _
  have hw := low_watermark_signal _ (midDrain (sampleEntry 1) 20001 10000)
    (afterDrain (sampleEntry 1) 20001 10001) (Step.finish Outcome.returns)
    (run_to_midDrain (sampleEntry 1)) (step_finish_midDrain (sampleEntry 1) 20001 10000 (by omega))
  refine ⟨run_to_midDrain _, step_finish_midDrain _ 20001 10000 (by omega), by decide,
    by decide, hlen, (hw.2 (by decide)).1, ?_⟩
  have h1 := hw.1
  rw [if_pos ⟨rfl, hlen⟩] at h1
  exact h1

theorem finish_returns_spec (s s' : BackgroundSync) (hI : Inv s)
    (hs : step (Step.finish Outcome.returns) s = some s') :
    ∃ c, s.applierPc = ApplierPc.applied c ∧ s._deque = c :: s'._deque ∧
      s'.applierCalls = s.applierCalls ++
        [ApplierCall.noteGTIDApplied c._id, ApplierCall.pop_front c] ++
        (if s'._deque.length = 10000 then [ApplierCall.notify_all] else []) := by
  simp only [step, applierFinish] at hs
  split at hs
  · rename_i curr hpc
    obtain ⟨hfront, _⟩ := hI.front_applied curr hpc
    split at hs
    · simp at hs
    · rename_i front rest hd
      have hfc : front = curr := by simpa [hd] using hfront
      subst hfc
      split at hs <;> simp only [Option.some.injEq] at hs <;> subst hs
      · rename_i hlen
        exact ⟨front, hpc, hd, by simp [hlen]⟩
      · rename_i hlen
        exact ⟨front, hpc, hd, by simp [hlen]⟩
  · simp at hs

/-- C4 (applier step order). In every reachable state, each `pop_front o` in
the applier's call sequence is directly preceded by `noteApplyingGTID(o._id)`,
`applyTransactionFromOplog(o)` and `noteGTIDApplied(o._id)`, in this order;
an entry whose application has completed is still the front of the queue; and
the step that pops removes exactly that entry from the queue, after
`noteGTIDApplied` for it. -/
theorem applier_step_order (ls : List Step) (s : BackgroundSync)
    (h : run ls BackgroundSync.init = some s) :
    (∀ pre o post, s.applierCalls = pre ++ ApplierCall.pop_front o :: post →
      ∃ pre', pre = pre' ++ [ApplierCall.noteApplyingGTID o._id,
        ApplierCall.applyTransactionFromOplog o, ApplierCall.noteGTIDApplied o._id]) ∧
    (∀ c, s.applierPc = ApplierPc.applied c → ∃ rest, s._deque = c :: rest) ∧
    (∀ s', step (Step.finish Outcome.returns) s = some s' →
      ∃ c, s.applierPc = ApplierPc.applied c ∧ s._deque = c :: s'._deque ∧
        s'.applierCalls = s.applierCalls ++
          [ApplierCall.noteGTIDApplied c._id, ApplierCall.pop_front c] ++
          (if s'._deque.length = 10000 then [ApplierCall.notify_all] else [])) := by
  have hI := inv_run ls s h
  refine ⟨hI.order, ?_, fun s' hs => finish_returns_spec s s' hI hs⟩
  intro c hc
  have := (hI.front_applied c hc).1
  cases hd : s._deque with
  | nil => simp [hd] at this
  | cons x xs =>
    simp only [hd, List.head?_cons, Option.some.injEq] at this
    exact ⟨xs, by rw [this]⟩

/-- C4, witness: the one `pop_front` of the sample run and the three calls before it. -/
theorem applier_step_order_witness :
    run sampleRun BackgroundSync.init = some sampleState ∧
    ∃ pre', ([] : List ApplierCall) ++ [ApplierCall.noteApplyingGTID ⟨1, 1⟩,
        ApplierCall.applyTransactionFromOplog (sampleEntry 1),
        ApplierCall.noteGTIDApplied ⟨1, 1⟩] =
      pre' ++ [ApplierCall.noteApplyingGTID (sampleEntry 1)._id,
        ApplierCall.applyTransactionFromOplog (sampleEntry 1),
        ApplierCall.noteGTIDApplied (sampleEntry 1)._id] :=
  ⟨by decide, (applier_step_order sampleRun sampleState (by decide)).1
    [ApplierCall.noteApplyingGTID ⟨1, 1⟩, ApplierCall.applyTransactionFromOplog (sampleEntry 1),
      ApplierCall.noteGTIDApplied ⟨1, 1⟩] (sampleEntry 1) [] rfl⟩

theorem run_pushes_from (os : List BSONObj) (s s2 : BackgroundSync)
    (h : run (os.map Step.push) s = some s2) :
    s2.applierPc = s.applierPc ∧ s2.applierCalls = s.applierCalls ∧
      ∃ tail, s2._deque = s._deque ++ tail := by
  induction os generalizing s with
  | nil =>
    simp only [List.map_nil, run, Option.some.injEq] at h
    subst h
    exact ⟨rfl, rfl, [], by simp⟩
  | cons o os ih =>
    simp only [List.map_cons, run, step, producePush] at h
    split at h
    · simp at h
    · obtain ⟨h1, h2, tail, h3⟩ := ih _ h
      exact ⟨h1, h2, o :: tail, by simp [h3]⟩

/-- C5 (apply failure keeps the entry). If `noteApplyingGTID` or
`applyTransactionFromOplog` throws in an applier iteration that read the front
entry `c`, the iteration leaves the queue as it was, pops nothing, makes no
`noteGTIDApplied` call and returns to the top of the loop; and whatever the
producer pushes meanwhile, the next read of the front yields `c` again. -/
theorem apply_failure_keeps_entry (ls : List Step) (s s1 : BackgroundSync) (a b : Outcome)
    (hr : run ls BackgroundSync.init = some s)
    (hthrow : a = Outcome.throws ∨ b = Outcome.throws)
    (hs : step (Step.apply a b) s = some s1) :
    s1._deque = s._deque ∧ popped s1.applierCalls = popped s.applierCalls ∧
    (∃ evs, s1.applierCalls = s.applierCalls ++ evs ∧
      ∀ g, ApplierCall.noteGTIDApplied g ∉ evs) ∧
    ∃ c, s.applierPc = ApplierPc.fetched c ∧ s._deque.head? = some c ∧
      s1.applierPc = ApplierPc.top ∧
      ∀ (os : List BSONObj) (s2 : BackgroundSync), run (os.map Step.push) s1 = some s2 →
        step Step.front s2 = some { s2 with applierPc := ApplierPc.fetched c } := by
  have hI := inv_run ls s hr
  simp only [step, applierApply] at hs
  split at hs
  · rename_i curr hpc
    have hfront := hI.front_fetched curr hpc
    have key : ∀ t : BackgroundSync, t._deque = s._deque → t.applierPc = ApplierPc.top →
        ∀ (os : List BSONObj) (s2 : BackgroundSync), run (os.map Step.push) t = some s2 →
          step Step.front s2 = some { s2 with applierPc := ApplierPc.fetched curr } := by
      intro t hd ht os s2 h2
      obtain ⟨hpc2, _, tail, hd2⟩ := run_pushes_from os t s2 h2
      cases hq : s._deque with
      | nil => simp [hq] at hfront
      | cons x xs =>
        simp only [hq, List.head?_cons, Option.some.injEq] at hfront
        subst hfront
        rw [hd, hq] at hd2
        rw [ht] at hpc2
        simp [step, applierFront, hpc2, hd2]
    split at hs
    · simp only [Option.some.injEq] at hs
      subst hs
      refine ⟨rfl, by simp [popped_append, popped], ⟨_, rfl, by simp⟩, curr, hpc, hfront, rfl, ?_⟩
      exact key _ rfl rfl
    · simp only [Option.some.injEq] at hs
      subst hs
      refine ⟨rfl, by simp [popped_append, popped], ⟨_, rfl, by simp⟩, curr, hpc, hfront, rfl, ?_⟩
      exact key _ rfl rfl
    · rcases hthrow with h | h <;> simp at h
  · simp at hs

/-- C5, witness: `applyTransactionFromOplog` throws on the first sample entry. -/
theorem apply_failure_keeps_entry_witness :
    run sampleRunFetched BackgroundSync.init = some sampleStateFetched ∧
    step (Step.apply Outcome.returns Outcome.throws) sampleStateFetched =
      some sampleStateFailed ∧
    sampleStateFailed._deque = sampleStateFetched._deque :=
  ⟨by decide, by decide,
    (apply_failure_keeps_entry sampleRunFetched sampleStateFetched sampleStateFailed
      Outcome.returns Outcome.throws (by decide) (Or.inr rfl) (by decide)).1⟩

theorem applied_step (l : Step) (s s' : BackgroundSync) (hl : l ≠ Step.finish Outcome.throws)
    (hI : Inv s)
    (hA : appliedEntries s.applierCalls = popped s.applierCalls ++ pendingApplied s.applierPc)
    (hs : step l s = some s') :
    appliedEntries s'.applierCalls =
      popped s'.applierCalls ++ pendingApplied s'.applierPc := by
  cases l with
  | push o =>
    simp only [step, producePush] at hs
    split at hs
    · simp at hs
    · simp only [Option.some.injEq] at hs
      subst hs
      exact hA
  | front =>
    simp only [step, applierFront] at hs
    split at hs
    · rename_i hpc _
      simp only [Option.some.injEq] at hs
      subst hs
      simpa [hpc, pendingApplied] using hA
    · simp at hs
  | apply a b =>
    simp only [step, applierApply] at hs
    split at hs
    · rename_i curr hpc
      rw [hpc] at hA
      split at hs <;> simp only [Option.some.injEq] at hs <;> subst hs <;>
        simp [appliedEntries_append, popped_append, appliedEntries, popped, pendingApplied]
          at hA ⊢ <;> exact hA
    · simp at hs
  | finish a =>
    cases a with
    | throws => exact absurd rfl hl
    | returns =>
      obtain ⟨c, hpc, _, hcalls⟩ := finish_returns_spec s s' hI hs
      have hpc' : s'.applierPc = ApplierPc.top := by
        simp only [step, applierFinish, hpc] at hs
        split at hs
        · simp at hs
        · split at hs <;> simp only [Option.some.injEq] at hs <;> subst hs <;> rfl
      rw [hpc] at hA
      rw [hcalls, hpc']
      split <;>
        simp [appliedEntries_append, popped_append, appliedEntries, popped, pendingApplied]
          at hA ⊢ <;> exact hA

/-- C1, counterexample. One entry is pushed; the applier applies it,
`noteGTIDApplied` throws, and the next iteration applies the same front entry
again before it is popped. The queue is empty at the end and the pushed
sequence has one entry, but the sequence of entries applied has two: it is not
the pushed sequence and not an initial segment of it. -/
theorem fifo_application_fails :
    run sampleRunRetry BackgroundSync.init = some sampleStateRetry ∧
    sampleStateRetry._deque = [] ∧
    sampleStateRetry.pushed = [sampleEntry 1] ∧
    appliedEntries sampleStateRetry.applierCalls = [sampleEntry 1, sampleEntry 1] ∧
    popped sampleStateRetry.applierCalls = [sampleEntry 1] ∧
    ¬ appliedEntries sampleStateRetry.applierCalls <+: sampleStateRetry.pushed ∧
    appliedEntries sampleStateRetry.applierCalls ≠ sampleStateRetry.pushed := by
  refine ⟨by decide, by decide, by decide, by decide, by decide, ?_, by decide⟩
  intro hp
  have := hp.length_le
  revert this
  decide

/-- C1, amended (FIFO application). In every state reached from the initial
state by any interleaving of producer pushes and applier steps, the pushed
sequence is the popped sequence followed by the queue content: the entries the
applier popped are, in order, an initial segment of the pushed entries and the
whole pushed sequence whenever the queue is empty; every pop comes directly
after the application of the very entry popped. In the runs in which
`noteGTIDApplied` does not throw, the sequence of entries applied is the popped
sequence followed by the one entry applied and not yet popped, if any; it is,
in order, an initial segment of the pushed entries and the whole pushed
sequence whenever the queue is empty. -/
theorem fifo_application (ls : List Step) (s : BackgroundSync)
    (h : run ls BackgroundSync.init = some s) :
    s.pushed = popped s.applierCalls ++ s._deque ∧
    popped s.applierCalls <+: s.pushed ∧
    (s._deque = [] → popped s.applierCalls = s.pushed) ∧
    (∀ o ∈ popped s.applierCalls, o ∈ appliedEntries s.applierCalls) ∧
    StepOrder s.applierCalls ∧
    ((∀ l ∈ ls, l ≠ Step.finish Outcome.throws) →
      appliedEntries s.applierCalls = popped s.applierCalls ++ pendingApplied s.applierPc ∧
      appliedEntries s.applierCalls <+: s.pushed ∧
      (s._deque = [] → appliedEntries s.applierCalls = s.pushed)) := by
  have hI := inv_run ls s h
  have hempty : s._deque = [] → popped s.applierCalls = s.pushed := by
    intro he
    have := hI.fifo
    rw [he, List.append_nil] at this
    exact this.symm
  refine ⟨hI.fifo, ⟨s._deque, hI.fifo.symm⟩, hempty, ?_, hI.order, ?_⟩
  · intro o ho
    obtain ⟨pre, post, hsplit⟩ := List.append_of_mem (mem_popped.mp ho)
    obtain ⟨pre', hpre⟩ := hI.order pre o post hsplit
    rw [mem_appliedEntries, hsplit, hpre]
    simp
  · intro hno
    have hP := run_preserves_of (fun l => l ≠ Step.finish Outcome.throws)
      (fun s => Inv s ∧
        appliedEntries s.applierCalls = popped s.applierCalls ++ pendingApplied s.applierPc)
      (fun l s s' hl hp hs => ⟨inv_step l s s' hp.1 hs, applied_step l s s' hl hp.1 hp.2 hs⟩)
      ls BackgroundSync.init s hno ⟨inv_init, rfl⟩ h
    have hA := hP.2
    have hpend : pendingApplied s.applierPc <+: s._deque := by
      cases hpc : s.applierPc with
      | top => simp [pendingApplied]
      | fetched c => simp [pendingApplied]
      | applied c =>
        have := (hI.front_applied c hpc).1
        cases hd : s._deque with
        | nil => simp [hd] at this
        | cons x xs =>
          simp only [hd, List.head?_cons, Option.some.injEq] at this
          subst this
          simp [pendingApplied]
    refine ⟨hA, ?_, ?_⟩
    · rw [hA, hI.fifo]
      exact (List.prefix_append_right_inj _).mpr hpend
    · intro he
      rw [he] at hpend
      have hnil : pendingApplied s.applierPc = [] := List.prefix_nil.mp hpend
      rw [hA, hnil, List.append_nil]
      exact hempty he

/-- C1, witness: the sample run of two pushes, one applier iteration and a
third push; nothing throws, and the one entry applied is the one popped, the
first one pushed. -/
theorem fifo_application_witness :
    run sampleRun BackgroundSync.init = some sampleState ∧
    popped sampleState.applierCalls <+: sampleState.pushed ∧
    appliedEntries sampleState.applierCalls = [sampleEntry 1] ∧
    appliedEntries sampleState.applierCalls <+: sampleState.pushed :=
  ⟨by decide, (fifo_application sampleRun sampleState (by decide)).2.1, by decide,
    ((fifo_application sampleRun sampleState (by decide)).2.2.2.2.2 (by decide)).2.1⟩

/-- C6, counterexample. One entry is pushed; the applier applies it,
`noteGTIDApplied` throws, the loop starts over, reads the same front entry and
applies it a second time: two completed applications for one push. -/
theorem at_most_once_fails :
    run sampleRunRetry BackgroundSync.init = some sampleStateRetry ∧
    (appliedEntries sampleStateRetry.applierCalls).count (sampleEntry 1) = 2 ∧
    sampleStateRetry.pushed.count (sampleEntry 1) = 1 ∧
    ¬ AtMostOnce sampleStateRetry := by
  refine ⟨by decide, by decide, by decide, fun h => ?_⟩
  have := h (sampleEntry 1)
  revert this
  decide

/-- C6, amended. In every run of the applier in which `noteGTIDApplied` does
not throw (`noteApplyingGTID` and `applyTransactionFromOplog` may throw any
number of times), the entries for which `applyTransactionFromOplog` completed
are, in order, the popped entries followed by the one applied and not yet
popped; they form an initial segment of the pushed sequence, so no entry has
more completed applications than pushes. -/
theorem at_most_once (ls : List Step) (s : BackgroundSync)
    (hno : ∀ l ∈ ls, l ≠ Step.finish Outcome.throws)
    (h : run ls BackgroundSync.init = some s) :
    appliedEntries s.applierCalls = popped s.applierCalls ++ pendingApplied s.applierPc ∧
    appliedEntries s.applierCalls <+: s.pushed ∧ AtMostOnce s := by
  have hP := run_preserves_of (fun l => l ≠ Step.finish Outcome.throws)
    (fun s => Inv s ∧
      appliedEntries s.applierCalls = popped s.applierCalls ++ pendingApplied s.applierPc)
    (fun l s s' hl hp hs => ⟨inv_step l s s' hp.1 hs, applied_step l s s' hl hp.1 hp.2 hs⟩)
    ls BackgroundSync.init s hno ⟨inv_init, rfl⟩ h
  obtain ⟨hI, hA⟩ := hP
  have hpre : appliedEntries s.applierCalls <+: s.pushed := by
    rw [hA, hI.fifo]
    cases hpc : s.applierPc with
    | top => simp [pendingApplied]
    | fetched c => simp [pendingApplied]
    | applied c =>
      have := (hI.front_applied c hpc).1
      cases hd : s._deque with
      | nil => simp [hd] at this
      | cons x xs =>
        simp only [hd, List.head?_cons, Option.some.injEq] at this
        subst this
        simp [pendingApplied]
  exact ⟨hA, hpre, fun o => hpre.sublist.count_le o⟩

/-- C6, witness of the amended claim on the sample run. -/
theorem at_most_once_witness :
    run sampleRun BackgroundSync.init = some sampleState ∧
    appliedEntries sampleState.applierCalls <+: sampleState.pushed :=
  ⟨by decide, (at_most_once sampleRun sampleState (by decide) (by decide)).2.1⟩

/-! ## Theorems: rollback -/

theorem GTID.cmp_self (a : GTID) : GTID.cmp a a = 0 := by
  simp [GTID.cmp]

theorem GTID.cmp_eq_zero_iff (a b : GTID) : GTID.cmp a b = 0 ↔ a = b := by
  constructor
  · intro h
    cases a with
    | mk p q =>
      cases b with
      | mk p' q' =>
        simp only [GTID.cmp] at h
        split at h
        · omega
        · split at h
          · omega
          · split at h
            · omega
            · split at h
              · omega
              · have hp : p = p' := by omega
                have hq : q = q' := by omega
                rw [hp, hq]
  · intro h
    rw [h]
    exact GTID.cmp_self b

theorem GTID.cmp_neg_swap (a b : GTID) (h : GTID.cmp a b < 0) : 0 < GTID.cmp b a := by
  simp only [GTID.cmp] at h ⊢
  split at h
  · rename_i h1
    have h2 : ¬ b.primary < a.primary := by omega
    simp [h2, h1]
  · split at h
    · omega
    · split at h
      · rename_i h1 h2 h3
        have h4 : ¬ b.seq < a.seq := by omega
        simp [h1, h2, h3, h4]
      · split at h <;> omega

theorem strictlyIncreasing_concat (l : List BSONObj) (x : BSONObj) :
    StrictlyIncreasing (l ++ [x]) ↔
      StrictlyIncreasing l ∧ ∀ y ∈ l, GTID.cmp y._id x._id < 0 := by
  simp [StrictlyIncreasing, List.pairwise_append]

theorem rollback_concat (l : List BSONObj) (x : BSONObj)
    (h : ∀ y ∈ l, GTID.cmp y._id x._id < 0) :
    rollbackTransactionFromOplog x (l ++ [x]) = l := by
  unfold rollbackTransactionFromOplog
  rw [List.filter_append]
  have h1 : l.filter (fun e => decide (e._id ≠ x._id)) = l := by
    rw [List.filter_eq_self]
    intro y hy
    have := h y hy
    simp only [ne_eq, decide_not, Bool.not_eq_eq_eq_not, Bool.not_true, decide_eq_false_iff_not]
    intro heq
    rw [heq, GTID.cmp_self] at this
    omega
  rw [h1]
  simp

theorem undoLoop_sorted (a : GTID) (oplog : List BSONObj) :
    StrictlyIncreasing oplog → (∃ e ∈ oplog, e._id = a) →
    ∀ (fuel : Nat) (undone : List BSONObj), oplog.length < fuel →
      undoLoop a fuel oplog undone = some
        { oplog := oplog.filter (fun e => decide (GTID.cmp e._id a ≤ 0)),
          undone := undone ++ (oplog.filter (fun e => decide (0 < GTID.cmp e._id a))).reverse,
          exit := UndoExit.reachedAncestor } := by
  induction oplog using List.reverseRecOn with
  | nil =>
    intro _ ha
    obtain ⟨e, he, _⟩ := ha
    simp at he
  | append_singleton l x ih =>
    intro hs ha fuel undone hf
    rw [strictlyIncreasing_concat] at hs
    obtain ⟨hsl, hlt⟩ := hs
    cases fuel with
    | zero => omega
    | succ f =>
      have hlast : getLast (l ++ [x]) = some x := by simp [getLast]
      simp only [undoLoop, hlast]
      by_cases hle : GTID.cmp x._id a ≤ 0
      · have hz : GTID.cmp x._id a = 0 := by
          obtain ⟨e, he, hea⟩ := ha
          rw [List.mem_append, List.mem_singleton] at he
          rcases he with he | he
          · have := GTID.cmp_neg_swap _ _ (hlt e he)
            rw [hea] at this
            omega
          · rw [← hea, he]
            exact GTID.cmp_self _
        have hxa : x._id = a := (GTID.cmp_eq_zero_iff _ _).mp hz
        have h1 : (l ++ [x]).filter (fun e => decide (GTID.cmp e._id a ≤ 0)) = l ++ [x] := by
          rw [List.filter_eq_self]
          intro y hy
          rw [List.mem_append, List.mem_singleton] at hy
          rcases hy with hy | hy
          · have := hlt y hy
            rw [hxa] at this
            simp only [decide_eq_true_eq]
            omega
          · rw [hy]
            simp [hz]
        have h2 : (l ++ [x]).filter (fun e => decide (0 < GTID.cmp e._id a)) = [] := by
          rw [List.filter_eq_nil_iff]
          intro y hy
          rw [List.mem_append, List.mem_singleton] at hy
          rcases hy with hy | hy
          · have := hlt y hy
            rw [hxa] at this
            simp only [decide_eq_true_eq]
            omega
          · rw [hy]
            simp [hz]
        rw [h1, h2]
        simp [hz]
      · have hmem : ∃ e ∈ l, e._id = a := by
          obtain ⟨e, he, hea⟩ := ha
          rw [List.mem_append, List.mem_singleton] at he
          rcases he with he | he
          · exact ⟨e, he, hea⟩
          · rw [he] at hea
            rw [hea, GTID.cmp_self] at hle
            omega
        have hpos : 0 < GTID.cmp x._id a := by omega
        have hlen : l.length < f := by
          simp only [List.length_append, List.length_singleton] at hf
          omega
        simp only [hle, if_false]
        rw [rollback_concat l x hlt, ih hsl hmem f (undone ++ [x]) hlen]
        simp [List.filter_append, hle, hpos]

theorem split_at_ancestor (a : GTID) (oplog : List BSONObj) :
    StrictlyIncreasing oplog → (∃ e ∈ oplog, e._id = a) →
    oplog = oplog.filter (fun e => decide (GTID.cmp e._id a ≤ 0)) ++
      oplog.filter (fun e => decide (0 < GTID.cmp e._id a)) ∧
    (getLast (oplog.filter (fun e => decide (GTID.cmp e._id a ≤ 0)))).map (fun o => o._id)
      = some a := by
  induction oplog using List.reverseRecOn with
  | nil =>
    intro _ ha
    obtain ⟨e, he, _⟩ := ha
    simp at he
  | append_singleton l x ih =>
    intro hs ha
    rw [strictlyIncreasing_concat] at hs
    obtain ⟨hsl, hlt⟩ := hs
    by_cases hle : GTID.cmp x._id a ≤ 0
    · have hz : GTID.cmp x._id a = 0 := by
        obtain ⟨e, he, hea⟩ := ha
        rw [List.mem_append, List.mem_singleton] at he
        rcases he with he | he
        · have := GTID.cmp_neg_swap _ _ (hlt e he)
          rw [hea] at this
          omega
        · rw [← hea, he]
          exact GTID.cmp_self _
      have hxa : x._id = a := (GTID.cmp_eq_zero_iff _ _).mp hz
      have h1 : (l ++ [x]).filter (fun e => decide (GTID.cmp e._id a ≤ 0)) = l ++ [x] := by
        rw [List.filter_eq_self]
        intro y hy
        rw [List.mem_append, List.mem_singleton] at hy
        rcases hy with hy | hy
        · have := hlt y hy
          rw [hxa] at this
          simp only [decide_eq_true_eq]
          omega
        · rw [hy]
          simp [hz]
      have h2 : (l ++ [x]).filter (fun e => decide (0 < GTID.cmp e._id a)) = [] := by
        rw [List.filter_eq_nil_iff]
        intro y hy
        rw [List.mem_append, List.mem_singleton] at hy
        rcases hy with hy | hy
        · have := hlt y hy
          rw [hxa] at this
          simp only [decide_eq_true_eq]
          omega
        · rw [hy]
          simp [hz]
      rw [h1, h2]
      simp [getLast, hxa]
    · have hmem : ∃ e ∈ l, e._id = a := by
        obtain ⟨e, he, hea⟩ := ha
        rw [List.mem_append, List.mem_singleton] at he
        rcases he with he | he
        · exact ⟨e, he, hea⟩
        · rw [he] at hea
          rw [hea, GTID.cmp_self] at hle
          omega
      have hpos : 0 < GTID.cmp x._id a := by omega
      obtain ⟨ih1, ih2⟩ := ih hsl hmem
      have h1 : (l ++ [x]).filter (fun e => decide (GTID.cmp e._id a ≤ 0)) =
          l.filter (fun e => decide (GTID.cmp e._id a ≤ 0)) := by
        simp [List.filter_append, hle]
      have h2 : (l ++ [x]).filter (fun e => decide (0 < GTID.cmp e._id a)) =
          l.filter (fun e => decide (0 < GTID.cmp e._id a)) ++ [x] := by
        simp [List.filter_append, hpos]
      rw [h1, h2, ← List.append_assoc, ← ih1]
      exact ⟨rfl, ih2⟩

/-- C7 (rollback postcondition). For a local oplog in strictly increasing
GTID order that holds an entry with the GTID `idToRollbackTo`, the undo phase
returns; the original oplog is what it leaves followed by the undone entries
(truncation), an entry was undone exactly if its GTID is greater than
`idToRollbackTo`, the last entry left has GTID `idToRollbackTo`, and the GTID
manager was reset to that GTID with the recorded timestamp and hash. -/
theorem rollback_postcondition (oplog : List BSONObj) (v : RollbackVars) (gm : GTIDManager)
    (hs : StrictlyIncreasing oplog) (ha : ∃ e ∈ oplog, e._id = v.idToRollbackTo) :
    ∃ gm' r, undoPhase (oplog.length + 1) v gm oplog = some (gm', r) ∧
      oplog = r.oplog ++ r.undone.reverse ∧
      (∀ e ∈ oplog, e ∈ r.undone ↔ 0 < GTID.cmp e._id v.idToRollbackTo) ∧
      (∀ e ∈ oplog, e ∈ r.oplog ↔ GTID.cmp e._id v.idToRollbackTo ≤ 0) ∧
      (getLast r.oplog).map (fun o => o._id) = some v.idToRollbackTo ∧
      gm'.getLiveState = v.idToRollbackTo ∧
      gm' = gm.resetAfterInitialSync v.idToRollbackTo v.rollbackPointTS v.rollbackPointHash := by
  have hloop := undoLoop_sorted v.idToRollbackTo oplog hs ha (oplog.length + 1) []
    (Nat.lt_succ_self _)
  obtain ⟨hsplit, hlast⟩ := split_at_ancestor v.idToRollbackTo oplog hs ha
  refine ⟨gm.resetAfterInitialSync v.idToRollbackTo v.rollbackPointTS v.rollbackPointHash,
    { oplog := oplog.filter (fun e => decide (GTID.cmp e._id v.idToRollbackTo ≤ 0)),
      undone := [] ++
        (oplog.filter (fun e => decide (0 < GTID.cmp e._id v.idToRollbackTo))).reverse,
      exit := UndoExit.reachedAncestor }, ?_, ?_, ?_, ?_, hlast, rfl, rfl⟩
  · simp only [undoPhase, hloop, Option.map_some']
  · simpa using hsplit
  · intro e he
    simp [he]
  · intro e he
    simp [he]

/-- C7, witness: the sample oplog (1, 1) to (1, 5) rolled back to (1, 3). -/
theorem rollback_postcondition_witness :
    StrictlyIncreasing sampleOplog ∧
    ∃ gm' r, undoPhase (sampleOplog.length + 1) sampleVars sampleManager sampleOplog
        = some (gm', r) ∧
      sampleOplog = r.oplog ++ r.undone.reverse ∧
      (∀ e ∈ sampleOplog, e ∈ r.undone ↔ 0 < GTID.cmp e._id sampleVars.idToRollbackTo) ∧
      (∀ e ∈ sampleOplog, e ∈ r.oplog ↔ GTID.cmp e._id sampleVars.idToRollbackTo ≤ 0) ∧
      (getLast r.oplog).map (fun o => o._id) = some sampleVars.idToRollbackTo ∧
      gm'.getLiveState = sampleVars.idToRollbackTo ∧
      gm' = sampleManager.resetAfterInitialSync sampleVars.idToRollbackTo
        sampleVars.rollbackPointTS sampleVars.rollbackPointHash :=
  ⟨by decide, rollback_postcondition sampleOplog sampleVars sampleManager (by decide)
    ⟨sampleEntry 3, by decide, rfl⟩⟩

/-- C8 (the undo loop terminates and its assertion holds). For a local oplog
in strictly increasing GTID order that holds the ancestor, the undo loop
returns for every fuel above the oplog length; it leaves through the exit at
which the last entry's GTID equals the ancestor (never through the empty-oplog
exit or the one where the `dassert` fails); every entry it undid had a GTID
above the ancestor, and the entries were undone in strictly decreasing GTID
order, all of those above the ancestor, newest first. -/
theorem undo_loop_terminates (oplog : List BSONObj) (a : GTID)
    (hs : StrictlyIncreasing oplog) (ha : ∃ e ∈ oplog, e._id = a)
    (fuel : Nat) (hf : oplog.length < fuel) :
    ∃ r, undoLoop a fuel oplog [] = some r ∧
      r.exit = UndoExit.reachedAncestor ∧ r.exit ≠ UndoExit.belowAncestor ∧
      (getLast r.oplog).map (fun o => o._id) = some a ∧
      (∀ e ∈ r.undone, 0 < GTID.cmp e._id a) ∧
      r.undone = (oplog.filter (fun e => decide (0 < GTID.cmp e._id a))).reverse ∧
      r.undone.Pairwise (fun x y => GTID.cmp y._id x._id < 0) := by
  have hloop := undoLoop_sorted a oplog hs ha fuel [] hf
  obtain ⟨_, hlast⟩ := split_at_ancestor a oplog hs ha
  refine ⟨_, hloop, rfl, by simp, hlast, ?_, by simp, ?_⟩
  · intro e he
    simp only [List.nil_append, List.mem_reverse, List.mem_filter, decide_eq_true_eq] at he
    exact he.2
  · simp only [List.nil_append, List.pairwise_reverse]
    exact List.Pairwise.filter _ hs

/-- C8, witness: the undo loop on the sample oplog with ancestor (1, 3). -/
theorem undo_loop_terminates_witness :
    StrictlyIncreasing sampleOplog ∧
    ∃ r, undoLoop ⟨1, 3⟩ 6 sampleOplog [] = some r ∧
      r.exit = UndoExit.reachedAncestor ∧ r.exit ≠ UndoExit.belowAncestor ∧
      (getLast r.oplog).map (fun o => o._id) = some ⟨1, 3⟩ ∧
      (∀ e ∈ r.undone, 0 < GTID.cmp e._id ⟨1, 3⟩) ∧
      r.undone = (sampleOplog.filter (fun e => decide (0 < GTID.cmp e._id ⟨1, 3⟩))).reverse ∧
      r.undone.Pairwise (fun x y => GTID.cmp y._id x._id < 0) :=
  ⟨by decide, undo_loop_terminates sampleOplog ⟨1, 3⟩ (by decide)
    ⟨sampleEntry 3, by decide, rfl⟩ 6 (by decide)⟩

theorem scanLoop_cons (localOplog : List BSONObj) (r : BSONObj) (rest : List BSONObj)
    (v : RollbackVars) :
    scanLoop localOplog (r :: rest) v =
      if outsideWindow r.ts (horizon v r) = true then Except.error RollbackOplogException.tooLong
      else
        match findOne localOplog r._id with
        | some localObj =>
          if localObj.h = r.h ∧ localObj.ts = r.ts ∧ GTID.cmp localObj._id r._id = 0 then
            Except.ok { oplogTS := horizon v r, idToRollbackTo := localObj._id,
                        rollbackPointTS := localObj.ts, rollbackPointHash := localObj.h,
                        lookups := v.lookups ++ [r._id] }
          else scanLoop localOplog rest
            { v with oplogTS := horizon v r, lookups := v.lookups ++ [r._id] }
        | none => scanLoop localOplog rest
            { v with oplogTS := horizon v r, lookups := v.lookups ++ [r._id] } := rfl

theorem scanLoop_ok (localOplog : List BSONObj) (cursor : List BSONObj) :
    ∀ v v', scanLoop localOplog cursor v = Except.ok v' →
      (∃ pre r post, cursor = pre ++ r :: post ∧ (∀ x ∈ pre, ¬ Accepts localOplog x) ∧
        Accepts localOplog r ∧ v'.idToRollbackTo = r._id ∧ v'.rollbackPointTS = r.ts ∧
        v'.rollbackPointHash = r.h) ∨
      ((∀ x ∈ cursor, ¬ Accepts localOplog x) ∧ v'.idToRollbackTo = v.idToRollbackTo) := by
  induction cursor with
  | nil =>
    intro v v' h
    simp only [scanLoop, Except.ok.injEq] at h
    subst h
    exact Or.inr ⟨by simp, rfl⟩
  | cons r rest ih =>
    intro v v' h
    have hrec : ∀ w, w.idToRollbackTo = v.idToRollbackTo → ¬ Accepts localOplog r →
        scanLoop localOplog rest w = Except.ok v' →
        (∃ pre r' post, r :: rest = pre ++ r' :: post ∧
          (∀ x ∈ pre, ¬ Accepts localOplog x) ∧
          Accepts localOplog r' ∧ v'.idToRollbackTo = r'._id ∧ v'.rollbackPointTS = r'.ts ∧
          v'.rollbackPointHash = r'.h) ∨
        ((∀ x ∈ r :: rest, ¬ Accepts localOplog x) ∧
          v'.idToRollbackTo = v.idToRollbackTo) := by
      intro w hw hna hw'
      rcases ih w v' hw' with ⟨pre, r', post, h1, h2, h3⟩ | ⟨h1, h2⟩
      · refine Or.inl ⟨r :: pre, r', post, by rw [h1]; rfl, ?_, h3⟩
        intro x hx
        rcases List.mem_cons.mp hx with hx | hx
        · rw [hx]; exact hna
        · exact h2 x hx
      · refine Or.inr ⟨?_, by rw [h2, hw]⟩
        intro x hx
        rcases List.mem_cons.mp hx with hx | hx
        · rw [hx]; exact hna
        · exact h1 x hx
    rw [scanLoop_cons] at h
    by_cases hwin : outsideWindow r.ts (horizon v r) = true
    · rw [if_pos hwin] at h
      simp at h
    · rw [if_neg hwin] at h
      cases hfind : findOne localOplog r._id with
      | none =>
        simp only [hfind] at h
        refine hrec _ (by rfl) ?_ h
        rintro ⟨l, hl, _⟩
        rw [hfind] at hl
        simp at hl
      | some localObj =>
        simp only [hfind] at h
        by_cases hcond : localObj.h = r.h ∧ localObj.ts = r.ts ∧
            GTID.cmp localObj._id r._id = 0
        · simp only [if_pos hcond, Except.ok.injEq] at h
          subst h
          have hid : localObj._id = r._id := (GTID.cmp_eq_zero_iff _ _).mp hcond.2.2
          exact Or.inl ⟨[], r, rest, rfl, by simp, ⟨localObj, hfind, hcond⟩, hid,
            hcond.2.1, hcond.1⟩
        · simp only [if_neg hcond] at h
          refine hrec _ (by rfl) ?_ h
          rintro ⟨l, hl, hc⟩
          rw [hfind] at hl
          simp only [Option.some.injEq] at hl
          subst hl
          exact hcond hc

theorem findOne_unique (localOplog : List BSONObj)
    (hk : localOplog.Pairwise (fun x y => x._id ≠ y._id)) (o : BSONObj) (g : GTID) :
    findOne localOplog g = some o ↔ o ∈ localOplog ∧ o._id = g := by
  induction localOplog with
  | nil => simp [findOne]
  | cons x xs ih =>
    rw [List.pairwise_cons] at hk
    obtain ⟨hx, hxs⟩ := hk
    have ih' := ih hxs
    unfold findOne at ih' ⊢
    by_cases hxg : x._id = g
    · simp only [List.find?_cons, hxg, decide_True, Option.some.injEq, List.mem_cons]
      constructor
      · intro h
        exact ⟨Or.inl h.symm, h ▸ hxg⟩
      · rintro ⟨h | h, hog⟩
        · exact h.symm
        · exact absurd (hxg.trans hog.symm) (hx o h)
    · simp only [List.find?_cons, hxg, decide_False, List.mem_cons]
      rw [ih']
      constructor
      · rintro ⟨h1, h2⟩
        exact ⟨Or.inr h1, h2⟩
      · rintro ⟨h | h, hog⟩
        · exact absurd (h ▸ hog) hxg
        · exact ⟨h, hog⟩

theorem accepts_iff_holdsSame (localOplog : List BSONObj)
    (hk : localOplog.Pairwise (fun x y => x._id ≠ y._id)) (r : BSONObj) :
    Accepts localOplog r ↔ HoldsSame localOplog r := by
  constructor
  · rintro ⟨l, hl, hh, hts, hc⟩
    have := (findOne_unique localOplog hk l r._id).mp hl
    exact ⟨l, this.1, this.2, hts, hh⟩
  · rintro ⟨l, hl, hid, hts, hh⟩
    exact ⟨l, (findOne_unique localOplog hk l r._id).mpr ⟨hl, hid⟩, hh, hts,
      (GTID.cmp_eq_zero_iff _ _).mpr hid⟩

/-- C9 (common ancestor selection). With local `_id`s pairwise distinct: when
the scan phase succeeds, the rollback point (GTID, timestamp, hash) is that of
the first entry, in cursor order, for which the local oplog holds an entry
with the same GTID, timestamp and hash; when no entry of the cursor is such an
entry the scan phase always throws, and when moreover the loop ran to the end
of the cursor it throws "could not find ID to rollback to". -/
theorem common_ancestor_selection (localOplog cursor : List BSONObj) (oplogTS : Nat)
    (hk : localOplog.Pairwise (fun x y => x._id ≠ y._id)) :
    (∀ v, scanPhase localOplog cursor oplogTS = Except.ok v →
      ∃ pre r post, cursor = pre ++ r :: post ∧
        (∀ x ∈ pre, ¬ HoldsSame localOplog x) ∧ HoldsSame localOplog r ∧
        v.idToRollbackTo = r._id ∧ v.rollbackPointTS = r.ts ∧ v.rollbackPointHash = r.h) ∧
    ((∀ x ∈ cursor, ¬ HoldsSame localOplog x) →
      (scanPhase localOplog cursor oplogTS = Except.error RollbackOplogException.couldNotFind ∨
        scanPhase localOplog cursor oplogTS = Except.error RollbackOplogException.tooLong) ∧
      ∀ v', scanLoop localOplog cursor (RollbackVars.start oplogTS) = Except.ok v' →
        scanPhase localOplog cursor oplogTS =
          Except.error RollbackOplogException.couldNotFind) := by
  have hiff := accepts_iff_holdsSame localOplog hk
  constructor
  · intro v hv
    unfold scanPhase at hv
    cases hloop : scanLoop localOplog cursor (RollbackVars.start oplogTS) with
    | error e => simp [hloop] at hv
    | ok v' =>
      simp only [hloop] at hv
      split at hv
      · simp at hv
      · rename_i hinit
        simp only [Except.ok.injEq] at hv
        subst hv
        rcases scanLoop_ok localOplog cursor _ _ hloop with
          ⟨pre, r, post, h1, h2, h3, h4⟩ | ⟨_, h2⟩
        · exact ⟨pre, r, post, h1, fun x hx => fun hh => h2 x hx ((hiff x).mpr hh),
            (hiff r).mp h3, h4⟩
        · exfalso
          apply hinit
          rw [GTID.isInitial, h2]
          simp [RollbackVars.start]
  · intro hnone
    have hok : ∀ v', scanLoop localOplog cursor (RollbackVars.start oplogTS) = Except.ok v' →
        scanPhase localOplog cursor oplogTS =
          Except.error RollbackOplogException.couldNotFind := by
      intro v' hloop
      rcases scanLoop_ok localOplog cursor _ _ hloop with
        ⟨pre, r, post, h1, _, h3, _⟩ | ⟨_, h2⟩
      · exact absurd ((hiff r).mp h3) (hnone r (by rw [h1]; simp))
      · have hinit : v'.idToRollbackTo.isInitial = true := by
          rw [GTID.isInitial, h2]
          simp [RollbackVars.start]
        simp [scanPhase, hloop, hinit]
    refine ⟨?_, hok⟩
    cases hloop : scanLoop localOplog cursor (RollbackVars.start oplogTS) with
    | error e =>
      cases e with
      | tooLong => exact Or.inr (by simp [scanPhase, hloop])
      | couldNotFind => exact Or.inl (by simp [scanPhase, hloop])
    | ok v' => exact Or.inl (hok v' hloop)

/-- C9, witness: the sample cursor agrees with the sample oplog first at (1, 3). -/
theorem common_ancestor_selection_witness :
    sampleOplog.Pairwise (fun x y => x._id ≠ y._id) ∧
    scanPhase sampleOplog sampleCursor 6000 = Except.ok sampleVars ∧
    ∃ pre r post, sampleCursor = pre ++ r :: post ∧
      (∀ x ∈ pre, ¬ HoldsSame sampleOplog x) ∧ HoldsSame sampleOplog r ∧
      sampleVars.idToRollbackTo = r._id ∧ sampleVars.rollbackPointTS = r.ts ∧
      sampleVars.rollbackPointHash = r.h :=
  ⟨by decide, by rfl,
    (common_ancestor_selection sampleOplog sampleCursor 6000 (by decide)).1 sampleVars
      (by rfl)⟩

theorem outsideWindow_of_no_wrap (remoteTS oplogTS : Nat)
    (h : remoteTS + 1800 * 1000 < 2 ^ 64) :
    outsideWindow remoteTS oplogTS = true ↔ remoteTS + 1800000 < oplogTS := by
  unfold outsideWindow
  rw [Nat.mod_eq_of_lt h]
  simp

/-- C10 (rollback window), the code at the failing input. The remote entry
has timestamp 2^64 - 1 and the horizon is 2^64 - 1 as well, so the entry's
timestamp plus 30 minutes is not below the horizon; the 64-bit sum of line 494
wraps to 1 799 999, the comparison holds, and the scan throws "too long a time
period" at the entry although the local oplog holds the very same entry. -/
theorem window_check_wraps :
    ¬ (lateEntry.ts + 1800000 < 18446744073709551615) ∧
    outsideWindow lateEntry.ts 18446744073709551615 = true ∧
    HoldsSame [lateEntry] lateEntry ∧
    scanPhase [lateEntry] [lateEntry] 18446744073709551615 =
      Except.error RollbackOplogException.tooLong := by
  refine ⟨by decide, by decide, ⟨lateEntry, by simp, rfl, rfl, rfl⟩, ?_⟩
  rfl

/-! ## Theorems: sync target selection -/

theorem GTID.cmp_neg_iff (a b : GTID) :
    GTID.cmp a b < 0 ↔ a.primary < b.primary ∨ (a.primary = b.primary ∧ a.seq < b.seq) := by
  unfold GTID.cmp
  split
  · rename_i h; simp [h]
  · split
    · rename_i h1 h2
      constructor
      · intro h; omega
      · rintro (h | ⟨h, _⟩) <;> omega
    · split
      · rename_i h1 h2 h3
        constructor
        · intro _; exact Or.inr ⟨by omega, h3⟩
        · intro _; omega
      · split
        · constructor
          · intro h; omega
          · rintro (h | ⟨_, h⟩) <;> omega
        · constructor
          · intro h; omega
          · rintro (h | ⟨_, h⟩) <;> omega

/-- C13 (staleness test). `isStale` returns true exactly when
`GTID::cmp(lastLive, remoteOldest) < 0`, which in the lexicographic order is
`lastLive` strictly below the GTID of the candidate's oldest entry; when the
two GTIDs are equal, or `lastLive` is the greater one, it returns false. -/
theorem isStale_iff (gm : GTIDManager) (remoteOldestOp : BSONObj) :
    (isStale gm remoteOldestOp = true ↔ GTID.cmp gm.getLiveState remoteOldestOp._id < 0) ∧
    (isStale gm remoteOldestOp = true ↔
      gm.lastLive.primary < remoteOldestOp._id.primary ∨
      (gm.lastLive.primary = remoteOldestOp._id.primary ∧
        gm.lastLive.seq < remoteOldestOp._id.seq)) ∧
    (gm.getLiveState = remoteOldestOp._id → isStale gm remoteOldestOp = false) ∧
    (0 < GTID.cmp gm.getLiveState remoteOldestOp._id → isStale gm remoteOldestOp = false) := by
  have h1 : isStale gm remoteOldestOp = true ↔
      GTID.cmp gm.getLiveState remoteOldestOp._id < 0 := by
    unfold isStale
    simp
  refine ⟨h1, ?_, ?_, ?_⟩
  · rw [h1, GTID.cmp_neg_iff]
    rfl
  · intro heq
    cases hs : isStale gm remoteOldestOp with
    | false => rfl
    | true =>
      have := h1.mp hs
      rw [heq, GTID.cmp_self] at this
      omega
  · intro hpos
    cases hs : isStale gm remoteOldestOp with
    | false => rfl
    | true =>
      have := h1.mp hs
      omega

/-- C13, witness data: the local live state (1, 5) against an oldest remote
entry (1, 9) and against (1, 5) itself. -/
theorem isStale_iff_witness :
    isStale sampleManager (sampleEntry 9) = true ∧
    (sampleManager.getLiveState = (sampleEntry 5)._id →
      isStale sampleManager (sampleEntry 5) = false) :=
  ⟨by decide, (isStale_iff sampleManager (sampleEntry 5)).2.2.1⟩

theorem getOplogReaderLoop_reject (gm : GTIDManager) (cands : List Member) :
    ∀ v, (∀ x ∈ cands, ¬ Acceptable gm x) →
      (getOplogReaderLoop gm cands v).1 = none ∧
      (getOplogReaderLoop gm cands v).2.consulted = v.consulted ++ cands ∧
      (getOplogReaderLoop gm cands v).2.vetoes = v.vetoes ++ cands.map vetoFor ∧
      ((getOplogReaderLoop gm cands v).2.stale.isSome = true ↔
        (v.stale.isSome = true ∨
          ∃ x ∈ cands, x.connects = true ∧ isStale gm x.remoteOldestOp = true)) := by
  induction cands with
  | nil =>
    intro v _
    simp [getOplogReaderLoop]
  | cons t rest ih =>
    intro v hrej
    have hrest : ∀ x ∈ rest, ¬ Acceptable gm x := fun x hx =>
      hrej x (List.mem_cons_of_mem _ hx)
    have ht := hrej t (List.mem_cons_self _ _)
    unfold getOplogReaderLoop
    by_cases hc : t.connects = false
    · simp only [hc, if_true]
      obtain ⟨h1, h2, h3, h4⟩ := ih
        { stale := v.stale, oldest := v.oldest, consulted := v.consulted ++ [t],
          vetoes := v.vetoes ++ [(t.fullName, none)] } hrest
      refine ⟨h1, ?_, ?_, ?_⟩
      · rw [h2]; simp
      · rw [h3]; simp [vetoFor, hc]
      · rw [h4]; simp [hc]
    · have hc' : t.connects = true := by
        cases h : t.connects with
        | true => rfl
        | false => exact absurd h hc
      have hst : isStale gm t.remoteOldestOp = true := by
        cases h : isStale gm t.remoteOldestOp with
        | true => rfl
        | false => exact absurd ⟨hc', h⟩ ht
      simp only [hc', hst, if_true, Bool.true_eq_false, if_false]
      obtain ⟨h1, h2, h3, h4⟩ := ih
        { stale := some t, oldest := some t.remoteOldestOp, consulted := v.consulted ++ [t],
          vetoes := v.vetoes ++ [(t.fullName, some 600)] } hrest
      refine ⟨h1, ?_, ?_, ?_⟩
      · rw [h2]; simp
      · rw [h3]; simp [vetoFor, hc']
      · rw [h4]; simp [hc', hst]

theorem getOplogReaderLoop_accept (gm : GTIDManager) (pre : List Member) (t : Member)
    (post : List Member) :
    ∀ v, (∀ x ∈ pre, ¬ Acceptable gm x) → Acceptable gm t →
      (getOplogReaderLoop gm (pre ++ t :: post) v).1 = some t ∧
      (getOplogReaderLoop gm (pre ++ t :: post) v).2.consulted = v.consulted ++ pre ++ [t] ∧
      (getOplogReaderLoop gm (pre ++ t :: post) v).2.vetoes = v.vetoes ++ pre.map vetoFor := by
  induction pre with
  | nil =>
    intro v _ ht
    simp [getOplogReaderLoop, ht.1, ht.2]
  | cons x rest ih =>
    intro v hrej ht
    have hrest : ∀ y ∈ rest, ¬ Acceptable gm y := fun y hy =>
      hrej y (List.mem_cons_of_mem _ hy)
    have hx := hrej x (List.mem_cons_self _ _)
    rw [List.cons_append]
    unfold getOplogReaderLoop
    by_cases hc : x.connects = false
    · simp only [hc, if_true]
      obtain ⟨h1, h2, h3⟩ := ih
        { stale := v.stale, oldest := v.oldest, consulted := v.consulted ++ [x],
          vetoes := v.vetoes ++ [(x.fullName, none)] } hrest ht
      refine ⟨h1, ?_, ?_⟩
      · rw [h2]; simp
      · rw [h3]; simp [vetoFor, hc]
    · have hc' : x.connects = true := by
        cases h : x.connects with
        | true => rfl
        | false => exact absurd h hc
      have hst : isStale gm x.remoteOldestOp = true := by
        cases h : isStale gm x.remoteOldestOp with
        | true => rfl
        | false => exact absurd ⟨hc', h⟩ hx
      simp only [hc', hst, if_true, Bool.true_eq_false, if_false]
      obtain ⟨h1, h2, h3⟩ := ih
        { stale := some x, oldest := some x.remoteOldestOp, consulted := v.consulted ++ [x],
          vetoes := v.vetoes ++ [(x.fullName, some 600)] } hrest ht
      refine ⟨h1, ?_, ?_⟩
      · rw [h2]; simp
      · rw [h3]; simp [vetoFor, hc']

/-- C14 (sync target selection). When the candidates offered are `pre`, then
`t`, then `post`, no candidate of `pre` both connects and is not stale, and
`t` does, then `getOplogReader` sets the current sync target to `t`, has taken
exactly `pre` and `t` from `getMemberToSyncTo` (none of `post`), has vetoed
every candidate of `pre`, in order, with the default time when its connection
failed and with 600 seconds when it was stale, and does not call `goStale`. -/
theorem sync_target_selection (gm : GTIDManager) (pre : List Member) (t : Member)
    (post : List Member) (hpre : ∀ x ∈ pre, ¬ Acceptable gm x) (ht : Acceptable gm t) :
    (getOplogReader gm (pre ++ t :: post))._currentSyncTarget = some t ∧
    (getOplogReader gm (pre ++ t :: post)).consulted = pre ++ [t] ∧
    (getOplogReader gm (pre ++ t :: post)).vetoes = pre.map vetoFor ∧
    (∀ x ∈ pre, vetoFor x = (x.fullName, if x.connects = false then none else some 600)) ∧
    (getOplogReader gm (pre ++ t :: post)).goStale = none := by
  obtain ⟨h1, h2, h3⟩ := getOplogReaderLoop_accept gm pre t post SyncVars.start hpre ht
  have hv : ∀ x ∈ pre, vetoFor x =
      (x.fullName, if x.connects = false then none else some 600) := by
    intro x _
    unfold vetoFor
    split <;> rfl
  unfold getOplogReader
  cases hloop : getOplogReaderLoop gm (pre ++ t :: post) SyncVars.start with
  | mk tgt v =>
    rw [hloop] at h1 h2 h3
    simp only at h1 h2 h3
    subst h1
    simp only
    refine ⟨trivial, ?_, ?_, hv, trivial⟩
    · rw [h2]; simp [SyncVars.start]
    · rw [h3]; simp [SyncVars.start]

/-- C14, witness: of the four sample candidates the first is down, the second
is stale, the third is accepted and the fourth is never consulted. -/
theorem sync_target_selection_witness :
    (getOplogReader sampleManager sampleMembers)._currentSyncTarget =
      some { fullName := "c:27017", connects := true, remoteOldestOp := sampleEntry 2 } ∧
    (getOplogReader sampleManager sampleMembers).vetoes =
      [("a:27017", none), ("b:27017", some 600)] :=
  ⟨(sync_target_selection sampleManager
      [{ fullName := "a:27017", connects := false, remoteOldestOp := sampleEntry 1 },
       { fullName := "b:27017", connects := true, remoteOldestOp := sampleEntry 9 }]
      { fullName := "c:27017", connects := true, remoteOldestOp := sampleEntry 2 }
      [{ fullName := "d:27017", connects := true, remoteOldestOp := sampleEntry 1 }]
      (by decide) (by decide)).1,
    by decide⟩

theorem getOplogReader_reject (gm : GTIDManager) (cands : List Member)
    (hnone : ∀ x ∈ cands, ¬ Acceptable gm x) :
    (getOplogReader gm cands)._currentSyncTarget = none ∧
    (getOplogReader gm cands).consulted = cands ∧
    (getOplogReader gm cands).vetoes = cands.map vetoFor ∧
    ((getOplogReader gm cands).goStale.isSome = true ↔
      ∃ x ∈ cands, x.connects = true ∧ isStale gm x.remoteOldestOp = true) := by
  obtain ⟨h1, h2, h3, h4⟩ := getOplogReaderLoop_reject gm cands SyncVars.start hnone
  unfold getOplogReader
  cases hloop : getOplogReaderLoop gm cands SyncVars.start with
  | mk tgt v =>
    rw [hloop] at h1 h2 h3 h4
    simp only at h1 h2 h3 h4
    subst h1
    simp only [SyncVars.start, List.nil_append, Option.isSome_none, Bool.false_eq_true,
      false_or] at h2 h3 h4
    cases hs : v.stale with
    | none =>
      simp only [hs, Option.isSome_none, Bool.false_eq_true, false_iff] at h4
      simp only [hs]
      refine ⟨trivial, h2, h3, ?_⟩
      simp only [Option.isSome_none, Bool.false_eq_true, false_iff]
      exact h4
    | some m =>
      simp only [hs, Option.isSome_some, true_iff] at h4
      simp only [hs]
      refine ⟨trivial, h2, h3, ?_⟩
      simp only [Option.isSome_some, true_iff]
      exact h4

/-- C15 (no target and going stale). When `produce` gets as far as
`getOplogReader` and no candidate both connects and is not stale, then
`getOplogReader` leaves the current sync target null and calls `goStale`
exactly if some candidate connected and was found stale; `produce` returns 1
(sleep one second) having made only the veto and `goStale` calls: nothing is
written to the local oplog and nothing is pushed onto the queue. -/
theorem no_target_go_stale (env : ProduceEnv) (w : ReplSet)
    (hmulti : ¬ (env.membersSize = 1 ∧ env.potentiallyHot = true ∧ env.mgr = true))
    (hnone : ∀ x ∈ env.candidates, ¬ Acceptable w.gtidManager x) :
    (getOplogReader w.gtidManager env.candidates)._currentSyncTarget = none ∧
    ((getOplogReader w.gtidManager env.candidates).goStale.isSome = true ↔
      ∃ x ∈ env.candidates, x.connects = true ∧
        isStale w.gtidManager x.remoteOldestOp = true) ∧
    ((∃ h g, ProducerCall.goStale h g ∈
        (getOplogReader w.gtidManager env.candidates).calls) ↔
      ∃ x ∈ env.candidates, x.connects = true ∧
        isStale w.gtidManager x.remoteOldestOp = true) ∧
    (produce env w).2 = ProduceResult.returned 1 ∧
    (produce env w).1._currentSyncTarget = none ∧
    (produce env w).1.calls =
      w.calls ++ (getOplogReader w.gtidManager env.candidates).calls ∧
    (∀ o, ProducerCall.push_back o ∉ (getOplogReader w.gtidManager env.candidates).calls) ∧
    (produce env w).1.localOplog = w.localOplog := by
  obtain ⟨h1, _, _, h4⟩ := getOplogReader_reject w.gtidManager env.candidates hnone
  have hcalls : (∃ h g, ProducerCall.goStale h g ∈
      (getOplogReader w.gtidManager env.candidates).calls) ↔
      (getOplogReader w.gtidManager env.candidates).goStale.isSome = true := by
    unfold SyncOutcome.calls
    cases hg : (getOplogReader w.gtidManager env.candidates).goStale with
    | none => simp
    | some p => simp
  have hpush : ∀ o, ProducerCall.push_back o ∉
      (getOplogReader w.gtidManager env.candidates).calls := by
    intro o
    unfold SyncOutcome.calls
    cases hg : (getOplogReader w.gtidManager env.candidates).goStale with
    | none => simp
    | some p => simp
  refine ⟨h1, h4, hcalls.trans h4, ?_, ?_, ?_, hpush, ?_⟩ <;>
    simp [produce, hmulti, h1]

/-- C15, witness: with one candidate down and one stale, `produce` returns 1
after a default veto, a veto of 600 seconds and `goStale`. -/
theorem no_target_go_stale_witness :
    (produce sampleStaleEnv sampleReplSet).2 = ProduceResult.returned 1 ∧
    (produce sampleStaleEnv sampleReplSet).1.calls =
      [ProducerCall.veto "a:27017" none, ProducerCall.veto "b:27017" (some 600),
        ProducerCall.goStale "b:27017" (some ⟨1, 9⟩)] ∧
    (produce sampleStaleEnv sampleReplSet).1.localOplog = sampleReplSet.localOplog :=
  ⟨(no_target_go_stale sampleStaleEnv sampleReplSet (by decide) (by decide)).2.2.2.1,
    by decide,
    (no_target_go_stale sampleStaleEnv sampleReplSet (by decide) (by decide)).2.2.2.2.2.2.2⟩

/-! ## Theorems: the producer -/

theorem writeOrder_of_no_push {evs : List ProducerCall}
    (h : ∀ o, ProducerCall.push_back o ∉ evs) : WriteOrder evs := by
  intro pre o post heq
  exact absurd (heq ▸ List.mem_append_right pre (List.mem_cons_self _ _)) (h o)

theorem writeOrder_append {a b : List ProducerCall} (ha : WriteOrder a) (hb : WriteOrder b) :
    WriteOrder (a ++ b) := by
  intro pre o post heq
  rw [List.append_eq_append_iff] at heq
  rcases heq with ⟨a', h1, h2⟩ | ⟨c', h1, h2⟩
  · obtain ⟨pre', hpre⟩ := hb a' o post h2
    exact ⟨a ++ pre', by rw [h1, hpre, List.append_assoc]⟩
  · cases c' with
    | nil =>
      simp only [List.nil_append] at h2
      obtain ⟨pre', hpre⟩ := hb [] o post h2.symm
      simp at hpre
    | cons x c'' =>
      simp only [List.cons_append, List.cons.injEq] at h2
      exact ha pre o c'' (by rw [h1, ← h2.1])

theorem writeOrder_write (o : BSONObj) :
    WriteOrder [ProducerCall.replicateTransactionToOplog o, ProducerCall.commit,
      ProducerCall.noteGTIDAdded o._id o.ts o.h, ProducerCall.push_back o] := by
  intro pre o' post heq
  have hlen := congrArg List.length heq
  simp only [List.length_cons, List.length_nil, List.length_append] at hlen
  match pre, heq with
  | [], heq => simp at heq
  | [_], heq => simp at heq
  | [_, _], heq => simp at heq
  | [a, b, c], heq =>
    simp only [List.cons_append, List.nil_append, List.cons.injEq,
      ProducerCall.push_back.injEq] at heq
    obtain ⟨ha, hb, hc, ho, _⟩ := heq
    subst ha hb hc ho
    exact ⟨[], rfl⟩
  | _ :: _ :: _ :: _ :: _, heq =>
    simp only [List.length_cons] at hlen
    omega

theorem extends_refl (w : ReplSet) (x : ProduceResult) : Extends w (w, x) :=
  ⟨[], [], by simp, writeOrder_of_no_push (by simp), by simp, by simp⟩

theorem extends_step {w w1 : ReplSet} {res : ReplSet × ProduceResult}
    {evs : List ProducerCall} {added : List BSONObj}
    (hc : w1.calls = w.calls ++ evs) (ho : WriteOrder evs)
    (hl : w1.localOplog = w.localOplog ++ added)
    (hp : ∀ o, ProducerCall.push_back o ∈ evs → o ∈ added)
    (h : Extends w1 res) : Extends w res := by
  obtain ⟨evs', added', h1, h2, h3, h4⟩ := h
  refine ⟨evs ++ evs', added ++ added', ?_, writeOrder_append ho h2, ?_, ?_⟩
  · rw [h1, hc, List.append_assoc]
  · rw [h3, hl, List.append_assoc]
  · intro o hmem
    rcases List.mem_append.mp hmem with hm | hm
    · exact List.mem_append_left _ (hp o hm)
    · exact List.mem_append_right _ (h4 o hm)

theorem extends_afterInner (env : IterEnv) (r : OplogReader) (w : ReplSet)
    (rest : ReplSet × ProduceResult) (h : Extends w rest) :
    Extends w (afterInner env r w rest) := by
  unfold afterInner
  split
  · exact extends_refl w _
  · split
    · exact extends_refl w _
    · exact h

theorem extends_noteSlaveDelay (slaveDelay ts : Nat) (w : ReplSet)
    (res : ReplSet × ProduceResult) (h : Extends (noteSlaveDelay slaveDelay ts w) res) :
    Extends w res := by
  unfold noteSlaveDelay at h
  split at h
  · exact @extends_step w _ res [ProducerCall.handleSlaveDelay ts] [] rfl
      (writeOrder_of_no_push (by simp)) (by simp) (by simp) h
  · exact h

theorem replicateAndPush_extends (env : IterEnv) (o : BSONObj) (w : ReplSet)
    (res : ReplSet × ProduceResult) (h : Extends (replicateAndPush env o w).1 res) :
    Extends w res := by
  unfold replicateAndPush at h
  split at h
  · exact h
  · exact @extends_step w _ res [ProducerCall.replicateTransactionToOplog o] [] rfl
      (writeOrder_of_no_push (by simp)) (by simp) (by simp) h
  · exact @extends_step w _ res
      [ProducerCall.replicateTransactionToOplog o, ProducerCall.commit] [o] rfl
      (writeOrder_of_no_push (by simp)) rfl (by simp) h
  · exact @extends_step w _ res
      [ProducerCall.replicateTransactionToOplog o, ProducerCall.commit,
        ProducerCall.noteGTIDAdded o._id o.ts o.h, ProducerCall.push_back o] [o] rfl
      (writeOrder_write o) rfl (by simp) h

theorem fetchLoop_extends (slaveDelay : Nat) (envs : List IterEnv) :
    ∀ r w, Extends w (fetchLoop slaveDelay envs r w) := by
  induction envs with
  | nil =>
    intro r w
    exact extends_refl w _
  | cons env envs ih =>
    intro r w
    unfold fetchLoop
    split
    · exact extends_refl w _
    split
    · exact extends_refl w _
    split
    · exact extends_refl w _
    split
    · exact extends_refl w _
    split
    · exact extends_refl w _
    split
    · exact extends_afterInner _ _ _ _ (ih _ _)
    · split
      · exact extends_refl w _
      · rename_i o r2 _
        simp only
        split
        · exact extends_noteSlaveDelay slaveDelay o.ts w _
            (extends_afterInner _ _ _ _ (ih _ _))
        · apply extends_noteSlaveDelay slaveDelay o.ts w
          split
          · rename_i w2 hres
            have : w2 = (replicateAndPush env o (noteSlaveDelay slaveDelay o.ts w)).1 := by
              rw [hres]
            apply replicateAndPush_extends env o
            rw [← this]
            exact extends_refl _ _
          · rename_i w2 hres
            have : w2 = (replicateAndPush env o (noteSlaveDelay slaveDelay o.ts w)).1 := by
              rw [hres]
            apply replicateAndPush_extends env o
            rw [← this]
            exact ih _ _

theorem runRollback_error (w : ReplSet) (cursor : List BSONObj) (oplogTS : Nat)
    (e : RollbackOplogException) (h : (runRollback w cursor oplogTS).2 = Except.error e) :
    (runRollback w cursor oplogTS).1 =
      { w with rbid := w.rbid + 1, calls := w.calls ++ [ProducerCall.incRBID] } ∧
    scanPhase w.localOplog cursor oplogTS = Except.error e := by
  unfold runRollback at h ⊢
  simp only at h ⊢
  cases hscan : scanPhase w.localOplog cursor oplogTS with
  | error e' =>
    simp only [hscan] at h ⊢
    simp only [Except.error.injEq] at h
    exact ⟨trivial, by rw [h]⟩
  | ok v =>
    simp only [hscan] at h
    simp at h

theorem runRollback_calls (w : ReplSet) (cursor : List BSONObj) (oplogTS : Nat) :
    ∃ evs, (runRollback w cursor oplogTS).1.calls = w.calls ++ evs ∧
      ∀ o, ProducerCall.push_back o ∉ evs := by
  unfold runRollback
  simp only
  cases hscan : scanPhase w.localOplog cursor oplogTS with
  | error e' => exact ⟨[ProducerCall.incRBID], rfl, by simp⟩
  | ok v =>
    simp only
    refine ⟨_, by simp only [List.append_assoc]; rfl, ?_⟩
    intro o
    simp

theorem isRollbackRequired_spec (tsOuter : Nat) (cursor : List BSONObj) (w : ReplSet)
    (r : OplogReader) :
    ((isRollbackRequired tsOuter cursor w r).2.2 = Except.ok false →
      (isRollbackRequired tsOuter cursor w r).1 = w) ∧
    (∀ e, (isRollbackRequired tsOuter cursor w r).2.2 = Except.error e →
      (isRollbackRequired tsOuter cursor w r).1 =
        { w with rbid := w.rbid + 1, calls := w.calls ++ [ProducerCall.incRBID] }) ∧
    (∃ evs, (isRollbackRequired tsOuter cursor w r).1.calls = w.calls ++ evs ∧
      ∀ o, ProducerCall.push_back o ∉ evs) := by
  have key : ∀ (ts : Nat) (r' : OplogReader),
      let res : ReplSet × OplogReader × Except RollbackOplogException Bool :=
        match runRollback w cursor ts with
        | (w', Except.error e) => (w', r', Except.error e)
        | (w', Except.ok _) => (w', r', Except.ok true)
      (res.2.2 = Except.ok false → res.1 = w) ∧
      (∀ e, res.2.2 = Except.error e →
        res.1 = { w with rbid := w.rbid + 1, calls := w.calls ++ [ProducerCall.incRBID] }) ∧
      (∃ evs, res.1.calls = w.calls ++ evs ∧ ∀ o, ProducerCall.push_back o ∉ evs) := by
    intro ts r'
    have herr := runRollback_error w cursor ts
    have hcalls := runRollback_calls w cursor ts
    cases hrr : runRollback w cursor ts with
    | mk w' res' =>
      rw [hrr] at herr hcalls
      cases res' with
      | error e =>
        simp only
        refine ⟨by simp, ?_, hcalls⟩
        intro e' he'
        simp only [Except.error.injEq] at he'
        exact (herr e rfl).1
      | ok u =>
        simp only
        exact ⟨by simp, by simp, hcalls⟩
  have hrefl : (∃ evs, w.calls = w.calls ++ evs ∧ ∀ o, ProducerCall.push_back o ∉ evs) :=
    ⟨[], by simp, by simp⟩
  unfold isRollbackRequired
  split
  · exact key _ _
  · split
    · exact ⟨fun _ => rfl, by simp, hrefl⟩
    · simp only
      split
      · exact ⟨fun _ => rfl, by simp, hrefl⟩
      · exact key _ _

theorem durable_of_no_push (w w1 : ReplSet) (x : ProduceResult) (evs : List ProducerCall)
    (hc : w1.calls = w.calls ++ evs) (hno : ∀ o, ProducerCall.push_back o ∉ evs) :
    Durable w (w1, x) :=
  ⟨evs, hc, writeOrder_of_no_push hno, fun o hm => absurd hm (hno o)⟩

theorem durable_of_extends (w w1 : ReplSet) (res : ReplSet × ProduceResult)
    (evs : List ProducerCall) (hc : w1.calls = w.calls ++ evs)
    (hno : ∀ o, ProducerCall.push_back o ∉ evs) (h : Extends w1 res) : Durable w res := by
  obtain ⟨evs', added, h1, h2, h3, h4⟩ := h
  refine ⟨evs ++ evs', by rw [h1, hc, List.append_assoc],
    writeOrder_append (writeOrder_of_no_push hno) h2, ?_⟩
  intro o hm
  rcases List.mem_append.mp hm with hm | hm
  · exact absurd hm (hno o)
  · rw [h3]
    exact List.mem_append_right _ (h4 o hm)

theorem syncOutcome_calls_no_push (out : SyncOutcome) :
    ∀ o, ProducerCall.push_back o ∉ out.calls := by
  intro o
  unfold SyncOutcome.calls
  cases out.goStale with
  | none => simp
  | some p => simp

theorem produce_durable (env : ProduceEnv) (w : ReplSet) : Durable w (produce env w) := by
  unfold produce
  split
  · exact durable_of_no_push w _ _ [ProducerCall.msgCheckNewState] rfl (by simp)
  · simp only
    split
    · exact durable_of_no_push w _ _ _ rfl (syncOutcome_calls_no_push _)
    · have hno : ∀ o, ProducerCall.push_back o ∉
          (getOplogReader w.gtidManager env.candidates).calls ++
            [ProducerCall.tailingQueryGTE w.gtidManager.getLiveState] := by
        intro o hm
        rcases List.mem_append.mp hm with hm | hm
        · exact syncOutcome_calls_no_push _ o hm
        · simp at hm
      split
      · exact durable_of_no_push w _ _ _ (by simp only [List.append_assoc]) hno
      · split
        · exact durable_of_no_push w _ _ _ (by simp only [List.append_assoc]) hno
        · rename_i r _ _
          obtain ⟨hfalse, herr, evs, hcalls, hnopush⟩ :=
            isRollbackRequired_spec env.tsOuter env.rollbackCursor
              { w with
                _currentSyncTarget :=
                  (getOplogReader w.gtidManager env.candidates)._currentSyncTarget,
                calls := w.calls ++ (getOplogReader w.gtidManager env.candidates).calls ++
                  [ProducerCall.tailingQueryGTE w.gtidManager.getLiveState] } r
          have hno2 : ∀ o, ProducerCall.push_back o ∉
              ((getOplogReader w.gtidManager env.candidates).calls ++
                [ProducerCall.tailingQueryGTE w.gtidManager.getLiveState]) ++ evs := by
            intro o hm
            rcases List.mem_append.mp hm with hm | hm
            · exact hno o hm
            · exact hnopush o hm
          split
          · rename_i w1 _ heq
            rw [heq] at hcalls
            exact durable_of_no_push w _ _ _
              (by rw [hcalls]; simp only [List.append_assoc]) hno2
          · rename_i w1 r1 heq
            rw [heq] at hcalls
            exact durable_of_extends w w1 _ _
              (by rw [hcalls]; simp only [List.append_assoc]) hno2 (fetchLoop_extends _ _ _ _)
          · rename_i w1 r1 e heq
            rw [heq] at hcalls
            have hno3 : ∀ o, ProducerCall.push_back o ∉
                (((getOplogReader w.gtidManager env.candidates).calls ++
                  [ProducerCall.tailingQueryGTE w.gtidManager.getLiveState]) ++ evs) ++
                  [ProducerCall.fatal] := by
              intro o hm
              rcases List.mem_append.mp hm with hm | hm
              · exact hno2 o hm
              · simp at hm
            have hcalls' : w1.calls = _ := hcalls
            exact durable_of_extends w _ _ _
              (by simp only [hcalls', List.append_assoc]) hno3 (fetchLoop_extends _ _ _ _)

theorem fetchLoop_write_throws (sd : Nat) (it : IterEnv) (its : List IterEnv)
    (r r1 r2 : OplogReader) (o : BSONObj) (w0 : ReplSet)
    (h1 : it.shouldExit = false) (h2 : it.shouldRun = true)
    (h3 : r.moreInCurrentBatch = false →
      it.gotForceSync = false ∧ it.isPrimary = false ∧ it.targetReadable = true)
    (h4 : (if r.moreInCurrentBatch = false then r.more.2 else r).more = (true, r1))
    (h5 : r1.nextSafe = some (o, r2))
    (h6 : 0 < sd → it.shouldRunAfterDelay = true)
    (h7 : it.write = Outcome.throws) :
    fetchLoop sd (it :: its) r w0 = (noteSlaveDelay sd o.ts w0, ProduceResult.threw) := by
  have hrp : replicateAndPush it o (noteSlaveDelay sd o.ts w0) =
      (noteSlaveDelay sd o.ts w0, true) := by
    unfold replicateAndPush
    simp [h7]
  have hd : ¬ (0 < sd ∧ it.shouldRunAfterDelay = false) := by
    rintro ⟨ha, hb⟩
    rw [h6 ha] at hb
    exact absurd hb (by decide)
  unfold fetchLoop
  by_cases hb : r.moreInCurrentBatch = false
  · obtain ⟨g1, g2, g3⟩ := h3 hb
    simp only [hb, if_true] at h4
    simp [h1, h2, hb, g1, g2, g3, h4, h5, hd, hrp]
  · have hb' : r.moreInCurrentBatch = true := by
      cases h : r.moreInCurrentBatch with
      | true => rfl
      | false => exact absurd h hb
    simp only [hb', Bool.true_eq_false, if_false] at h4
    simp [h1, h2, hb', h4, h5, hd, hrp]

/-- C16 (durability ordering). In every call of `produce`, each `push_back(o)`
is directly preceded by `replicateTransactionToOplog(o)`, the commit of its
transaction and `noteGTIDAdded` with the GTID, timestamp and hash of `o`, and
every entry pushed is in the local oplog. When the write to the local oplog
throws, the block leaves the state as it was (no `noteGTIDAdded`, no push, the
oplog unchanged), and the pass of the fetch loop that fetched the entry ends
`produce` with that exception. -/
theorem durability_ordering (env : ProduceEnv) (w : ReplSet) :
    (∃ evs, (produce env w).1.calls = w.calls ++ evs ∧
      (∀ pre o post, evs = pre ++ ProducerCall.push_back o :: post →
        ∃ pre', pre = pre' ++ [ProducerCall.replicateTransactionToOplog o,
          ProducerCall.commit, ProducerCall.noteGTIDAdded o._id o.ts o.h]) ∧
      (∀ o, ProducerCall.push_back o ∈ evs → o ∈ (produce env w).1.localOplog)) ∧
    (∀ (it : IterEnv) (o : BSONObj) (w0 : ReplSet), it.write = Outcome.throws →
      replicateAndPush it o w0 = (w0, true)) ∧
    (∀ (sd : Nat) (it : IterEnv) (its : List IterEnv) (r r1 r2 : OplogReader) (o : BSONObj)
      (w0 : ReplSet),
      it.shouldExit = false → it.shouldRun = true →
      (r.moreInCurrentBatch = false →
        it.gotForceSync = false ∧ it.isPrimary = false ∧ it.targetReadable = true) →
      (if r.moreInCurrentBatch = false then r.more.2 else r).more = (true, r1) →
      r1.nextSafe = some (o, r2) →
      (0 < sd → it.shouldRunAfterDelay = true) →
      it.write = Outcome.throws →
      fetchLoop sd (it :: its) r w0 = (noteSlaveDelay sd o.ts w0, ProduceResult.threw)) := by
  refine ⟨produce_durable env w, ?_, ?_⟩
  · intro it o w0 h
    unfold replicateAndPush
    simp [h]
  · intro sd it its r r1 r2 o w0 h1 h2 h3 h4 h5 h6 h7
    exact fetchLoop_write_throws sd it its r r1 r2 o w0 h1 h2 h3 h4 h5 h6 h7

/-- C16, witness: the sample call of `produce` writes, notes and pushes the
entries (1, 6) and (1, 7); with a failing write nothing is noted or pushed. -/
theorem durability_ordering_witness :
    (produce sampleProduceEnv sampleReplSet).1.calls =
      [ProducerCall.tailingQueryGTE ⟨1, 5⟩,
        ProducerCall.replicateTransactionToOplog (sampleEntry 6), ProducerCall.commit,
        ProducerCall.noteGTIDAdded ⟨1, 6⟩ 6000 6, ProducerCall.push_back (sampleEntry 6),
        ProducerCall.replicateTransactionToOplog (sampleEntry 7), ProducerCall.commit,
        ProducerCall.noteGTIDAdded ⟨1, 7⟩ 7000 7, ProducerCall.push_back (sampleEntry 7)] ∧
    replicateAndPush failingWriteIter (sampleEntry 6) sampleReplSet = (sampleReplSet, true) ∧
    fetchLoop 0 [failingWriteIter] sampleReader sampleReplSet =
      (noteSlaveDelay 0 (sampleEntry 5).ts sampleReplSet, ProduceResult.threw) :=
  ⟨by decide,
    (durability_ordering sampleProduceEnv sampleReplSet).2.1 failingWriteIter (sampleEntry 6)
      sampleReplSet rfl,
    (durability_ordering sampleProduceEnv sampleReplSet).2.2 0 failingWriteIter [] sampleReader
      sampleReader
      { batch := [sampleEntry 6, sampleEntry 7], script := [], dead := false }
      (sampleEntry 5) sampleReplSet rfl rfl (by decide) (by decide) (by decide) (by decide)
      rfl⟩

/-- C11 (failed rollback ends the pass), the code at the failing input. The
first remote entry calls for a rollback, `runRollback` throws ("could not
find ID to rollback to"), `produce` calls `fatal()` in its catch block and,
having no `return` there, goes on into the fetch loop: it writes the next
fetched entry (1, 6) to the local oplog, calls `noteGTIDAdded` for it and
pushes it onto the queue. -/
theorem failed_rollback_keeps_fetching :
    (isRollbackRequired failedRollbackEnv.tsOuter failedRollbackEnv.rollbackCursor
      { sampleReplSet with
        _currentSyncTarget :=
          some { fullName := "c:27017", connects := true, remoteOldestOp := sampleEntry 2 },
        calls := [ProducerCall.tailingQueryGTE ⟨1, 5⟩] }
      { batch := [divergedEntry, sampleEntry 6], script := [], dead := false }).2.2 =
      Except.error RollbackOplogException.couldNotFind ∧
    (produce failedRollbackEnv sampleReplSet).1.state = MemberState.fatal ∧
    (produce failedRollbackEnv sampleReplSet).1.calls =
      [ProducerCall.tailingQueryGTE ⟨1, 5⟩, ProducerCall.incRBID, ProducerCall.fatal,
        ProducerCall.replicateTransactionToOplog (sampleEntry 6), ProducerCall.commit,
        ProducerCall.noteGTIDAdded ⟨1, 6⟩ 6000 6, ProducerCall.push_back (sampleEntry 6)] ∧
    (produce failedRollbackEnv sampleReplSet).1.localOplog = sampleOplog ++ [sampleEntry 6] ∧
    (produce failedRollbackEnv sampleReplSet).2 = ProduceResult.returned 0 := by
  refine ⟨by rfl, by decide, by decide, by decide, by decide⟩

theorem undoLoop_total (a : GTID) :
    ∀ (fuel : Nat) (oplog undone : List BSONObj), oplog.length < fuel →
      ∃ res, undoLoop a fuel oplog undone = some res := by
  intro fuel
  induction fuel with
  | zero =>
    intro oplog undone h
    omega
  | succ n ih =>
    intro oplog undone h
    unfold undoLoop
    cases hlast : getLast oplog with
    | none => exact ⟨_, rfl⟩
    | some o =>
      simp only
      split
      · split
        · exact ⟨_, rfl⟩
        · exact ⟨_, rfl⟩
      · apply ih
        have hmem : o ∈ oplog := List.mem_of_getLast?_eq_some hlast
        have hlt : (rollbackTransactionFromOplog o oplog).length < oplog.length := by
          unfold rollbackTransactionFromOplog
          rw [List.length_filter_lt_length_iff_exists]
          exact ⟨o, hmem, by simp⟩
        omega

theorem undoAll_eq (a : GTID) (oplog : List BSONObj) :
    undoLoop a (oplog.length + 1) oplog [] = some (undoAll a oplog) := by
  obtain ⟨res, hres⟩ := undoLoop_total a (oplog.length + 1) oplog [] (Nat.lt_succ_self _)
  unfold undoAll
  rw [hres]
  rfl

/-! ## Theorems: lifecycle -/

theorem lstep_shouldExit (l : LStep) (s s' : Lifecycle) (h : lstep l s = some s')
    (hs : s._opSyncShouldExit = true) : s'._opSyncShouldExit = true := by
  cases l with
  | producer b =>
    simp only [lstep, producerAdvance] at h
    split at h <;> (try split at h) <;>
      simp only [Option.some.injEq, reduceCtorEq] at h <;> subst h <;> exact hs
  | push o =>
    simp only [lstep] at h
    split at h
    · simp only [Option.map_eq_some'] at h
      obtain ⟨q, _, hq⟩ := h
      subst hq
      exact hs
    · simp at h
  | produceReturn secs =>
    simp only [lstep] at h
    split at h <;> simp only [Option.some.injEq, reduceCtorEq] at h
    subst h
    exact hs
  | produceThrows =>
    simp only [lstep] at h
    split at h <;> simp only [Option.some.injEq, reduceCtorEq] at h
    subst h
    exact hs
  | applierStart =>
    simp only [lstep] at h
    split at h <;> simp only [Option.some.injEq, reduceCtorEq] at h
    subst h
    exact hs
  | applier st =>
    simp only [lstep] at h
    split at h
    · simp at h
    · split at h
      · simp only [Option.map_eq_some'] at h
        obtain ⟨q, _, hq⟩ := h
        subst hq
        exact hs
      · simp at h
  | applierExit =>
    simp only [lstep] at h
    split at h <;> simp only [Option.some.injEq, reduceCtorEq] at h
    subst h
    exact hs
  | stopCall =>
    simp only [lstep, stopAfterRunning] at h
    split at h <;> (try split at h) <;> (try split at h) <;> (try split at h) <;>
      simp only [Option.some.injEq, reduceCtorEq] at h <;> subst h <;> exact hs
  | stopWake =>
    simp only [lstep, stopAfterRunning] at h
    split at h <;> (try split at h) <;> (try split at h) <;> (try split at h) <;>
      simp only [Option.some.injEq, reduceCtorEq] at h <;> subst h <;> exact hs
  | startCall =>
    simp only [lstep] at h
    split at h <;> (try split at h) <;> (try split at h) <;>
      simp only [Option.some.injEq, reduceCtorEq] at h <;> subst h <;> exact hs
  | startWake =>
    simp only [lstep] at h
    split at h <;> (try split at h) <;> (try split at h) <;>
      simp only [Option.some.injEq, reduceCtorEq] at h <;> subst h <;> exact hs
  | shutdownCall =>
    simp only [lstep] at h
    split at h <;> simp only [Option.some.injEq, reduceCtorEq] at h
    subst h
    rfl
  | shutdownWake =>
    simp only [lstep] at h
    split at h <;> (try split at h) <;>
      simp only [Option.some.injEq, reduceCtorEq] at h <;> subst h <;> exact hs

theorem lrun_preserves_of (Q : LStep → Prop) (P : Lifecycle → Prop)
    (hstep : ∀ l s s', Q l → P s → lstep l s = some s' → P s') :
    ∀ ls s s', (∀ l ∈ ls, Q l) → P s → lrun ls s = some s' → P s' := by
  intro ls
  induction ls with
  | nil =>
    intro s s' _ hP h
    simp only [lrun, Option.some.injEq] at h
    exact h ▸ hP
  | cons l ls ih =>
    intro s s' hQ hP h
    simp only [lrun] at h
    cases hs : lstep l s with
    | none => simp [hs] at h
    | some t =>
      simp only [hs, Option.bind_some] at h
      exact ih t s' (fun x hx => hQ x (List.mem_cons_of_mem _ hx))
        (hstep l s t (hQ l (List.mem_cons_self _ _)) hP hs) h

/-- C18 (shouldExit is monotone). `_opSyncShouldExit` is false after the
constructor, and along every interleaving of `shutdown`, `stopOpSyncThread`,
`startOpSyncThread`, producer and applier steps, once it is true it stays
true. -/
theorem shouldExit_monotone (ls : List LStep) (s s' : Lifecycle)
    (h : lrun ls s = some s') (hs : s._opSyncShouldExit = true) :
    s'._opSyncShouldExit = true ∧ Lifecycle.init._opSyncShouldExit = false :=
  ⟨lrun_preserves_of (fun _ => True) (fun t => t._opSyncShouldExit = true)
      (fun l t t' _ ht hstep => lstep_shouldExit l t t' hstep ht) ls s s'
      (fun _ _ => trivial) hs h,
    rfl⟩

/-- C18, witness: once `shutdown` has set the flag in the sample run, the
steps that follow (the producer wakes up, the applier drains the queue,
`stopOpSyncThread` returns) leave it set. -/
theorem shouldExit_monotone_witness :
    lrun ([LStep.producer false] ++ applierDrainsOne ++ [LStep.stopWake])
      { stateStopWaits with _opSyncShouldExit := true, shutdownPc := ShutdownPc.waitProducer }
      = some { stateStopWaits with
          _opSyncShouldExit := true, shutdownPc := ShutdownPc.waitProducer,
          _opSyncRunning := true, producer := ProducerPc.afterGate, queue := drainedQueue,
          stopPc := StopPc.returned false true 0 } ∧
    ({ stateStopWaits with
          _opSyncShouldExit := true, shutdownPc := ShutdownPc.waitProducer,
          _opSyncRunning := true, producer := ProducerPc.afterGate, queue := drainedQueue,
          stopPc := StopPc.returned false true 0 } : Lifecycle)._opSyncShouldExit = true :=
  ⟨by decide,
    (shouldExit_monotone ([LStep.producer false] ++ applierDrainsOne ++ [LStep.stopWake])
      { stateStopWaits with _opSyncShouldExit := true, shutdownPc := ShutdownPc.waitProducer }
      _ (by decide) rfl).1⟩

/-- C17, counterexample. Two interleavings from the initial state in which
`stopOpSyncThread` returns while waiting threads of other lifecycle operations
have changed the flags: with `shutdown` called while it waits for the queue,
the producer is woken by `_opSyncShouldExit` and `_opSyncRunning` is true when
`stopOpSyncThread` returns; with `startOpSyncThread` called after the queue
has drained, `_opSyncShouldRun` is true when it returns. -/
theorem stop_postcondition_fails :
    (lrun stopDuringShutdownRun Lifecycle.init).map (fun s => s.stopPc) =
      some (StopPc.returned false true 0) ∧
    (lrun stopDuringStartRun Lifecycle.init).map (fun s => s.stopPc) =
      some (StopPc.returned true false 0) := by
  constructor <;> decide

theorem bool_eq_false_of_ne_true {b : Bool} (h : ¬ b = true) : b = false := by
  cases b with
  | true => exact absurd rfl h
  | false => rfl

theorem producerAdvance_spec (b : Bool) (s s' : Lifecycle)
    (h : producerAdvance b s = some s') :
    s'._opSyncShouldExit = s._opSyncShouldExit ∧
    s'._opSyncShouldRun = s._opSyncShouldRun ∧
    s'.stopPc = s.stopPc ∧ s'.queue = s.queue ∧
    (s'._opSyncRunning = true →
      s._opSyncRunning = true ∨ s._opSyncShouldRun = true ∨ s._opSyncShouldExit = true) := by
  unfold producerAdvance at h
  split at h
  · simp only [Option.some.injEq] at h
    subst h
    exact ⟨rfl, rfl, rfl, rfl, fun hr => Or.inl hr⟩
  · split at h
    · simp only [Option.some.injEq] at h
      subst h
      exact ⟨rfl, rfl, rfl, rfl, fun hr => Or.inl hr⟩
    · split at h <;> simp only [Option.some.injEq] at h <;> subst h <;>
        exact ⟨rfl, rfl, rfl, rfl, fun hr => Or.inl hr⟩
  · simp only [Option.some.injEq] at h
    subst h
    exact ⟨rfl, rfl, rfl, rfl, fun hr => absurd hr (by simp)⟩
  · simp only [Option.some.injEq] at h
    subst h
    exact ⟨rfl, rfl, rfl, rfl, fun hr => Or.inl hr⟩
  · split at h <;> simp only [Option.some.injEq] at h <;> subst h <;>
      exact ⟨rfl, rfl, rfl, rfl, fun hr => Or.inl hr⟩
  · split at h
    · simp only [Option.some.injEq] at h
      subst h
      exact ⟨rfl, rfl, rfl, rfl, fun hr => absurd hr (by simp)⟩
    · rename_i hcond
      simp only [Option.some.injEq] at h
      subst h
      refine ⟨rfl, rfl, rfl, rfl, fun _ => ?_⟩
      by_cases hr : s._opSyncShouldRun = true
      · exact Or.inr (Or.inl hr)
      · by_cases he : s._opSyncShouldExit = true
        · exact Or.inr (Or.inr he)
        · exact absurd ⟨bool_eq_false_of_ne_true hr, bool_eq_false_of_ne_true he⟩ hcond
  · split at h
    · simp at h
    · rename_i hcond
      simp only [Option.some.injEq] at h
      subst h
      refine ⟨rfl, rfl, rfl, rfl, fun _ => ?_⟩
      by_cases hr : s._opSyncShouldRun = true
      · exact Or.inr (Or.inl hr)
      · by_cases he : s._opSyncShouldExit = true
        · exact Or.inr (Or.inr he)
        · exact absurd ⟨bool_eq_false_of_ne_true hr, bool_eq_false_of_ne_true he⟩ hcond
  · split at h <;> simp only [Option.some.injEq] at h <;> subst h <;>
      exact ⟨rfl, rfl, rfl, rfl, fun hr => Or.inl hr⟩
  · split at h <;> simp only [Option.some.injEq] at h <;> subst h <;>
      exact ⟨rfl, rfl, rfl, rfl, fun hr => Or.inl hr⟩
  · simp at h
  · simp only [Option.some.injEq] at h
    subst h
    exact ⟨rfl, rfl, rfl, rfl, fun hr => absurd hr (by simp)⟩
  · simp at h

theorem stopInv_of_same (s s' : Lifecycle) (hI : StopInv s)
    (h1 : s'._opSyncShouldExit = s._opSyncShouldExit)
    (h2 : s'._opSyncShouldRun = s._opSyncShouldRun)
    (h3 : s'.stopPc = s.stopPc)
    (h4 : s'._opSyncRunning = true →
      s._opSyncRunning = true ∨ s._opSyncShouldRun = true ∨ s._opSyncShouldExit = true) :
    StopInv s' := by
  obtain ⟨i1, i2, i3, i4⟩ := hI
  refine ⟨by rw [h1]; exact i1, ?_, ?_, ?_⟩
  · intro hpc
    rw [h3] at hpc
    rw [h2]
    exact i2 hpc
  · intro hpc
    rw [h3] at hpc
    apply bool_eq_false_of_ne_true
    intro hr
    rcases h4 hr with h | h | h
    · rw [i3 hpc] at h
      exact absurd h (by simp)
    · rw [i2 (Or.inr hpc)] at h
      exact absurd h (by simp)
    · rw [i1] at h
      exact absurd h (by simp)
  · intro a b n hpc
    rw [h3] at hpc
    exact i4 a b n hpc

theorem stopAfterRunning_inv (s : Lifecycle) (h1 : s._opSyncShouldExit = false)
    (h2 : s._opSyncShouldRun = false) (h3 : s._opSyncRunning = false) :
    StopInv (stopAfterRunning s) := by
  unfold stopAfterRunning
  split
  · rename_i h
    rw [h2] at h
    exact absurd h (by simp)
  · split
    · exact ⟨h1, fun _ => h2, fun _ => h3, fun a b n hpc => by simp at hpc⟩
    · rename_i hlen
      refine ⟨h1, fun hpc => by simp at hpc, fun hpc => by simp at hpc, ?_⟩
      intro a b n hpc
      simp only [StopPc.returned.injEq] at hpc
      obtain ⟨ha, hb, hn⟩ := hpc
      refine ⟨by rw [← ha, h2], by rw [← hb, h3], ?_⟩
      omega

theorem stopInv_step (l : LStep) (s s' : Lifecycle)
    (hl : l ≠ LStep.startCall ∧ l ≠ LStep.shutdownCall) (hI : StopInv s)
    (h : lstep l s = some s') : StopInv s' := by
  cases l with
  | producer b =>
    obtain ⟨g1, g2, g3, _, g5⟩ := producerAdvance_spec b s s' h
    exact stopInv_of_same s s' hI g1 g2 g3 g5
  | push o =>
    simp only [lstep] at h
    split at h
    · simp only [Option.map_eq_some'] at h
      obtain ⟨q, _, hq⟩ := h
      subst hq
      exact stopInv_of_same s _ hI rfl rfl rfl (fun hr => Or.inl hr)
    · simp at h
  | produceReturn secs =>
    simp only [lstep] at h
    split at h <;> simp only [Option.some.injEq, reduceCtorEq] at h
    subst h
    exact stopInv_of_same s _ hI rfl rfl rfl (fun hr => Or.inl hr)
  | produceThrows =>
    simp only [lstep] at h
    split at h <;> simp only [Option.some.injEq, reduceCtorEq] at h
    subst h
    exact stopInv_of_same s _ hI rfl rfl rfl (fun hr => Or.inl hr)
  | applierStart =>
    simp only [lstep] at h
    split at h <;> simp only [Option.some.injEq, reduceCtorEq] at h
    subst h
    exact stopInv_of_same s _ hI rfl rfl rfl (fun hr => Or.inl hr)
  | applier st =>
    simp only [lstep] at h
    split at h
    · simp at h
    · split at h
      · simp only [Option.map_eq_some'] at h
        obtain ⟨q, _, hq⟩ := h
        subst hq
        exact stopInv_of_same s _ hI rfl rfl rfl (fun hr => Or.inl hr)
      · simp at h
  | applierExit =>
    simp only [lstep] at h
    split at h <;> simp only [Option.some.injEq, reduceCtorEq] at h
    subst h
    exact stopInv_of_same s _ hI rfl rfl rfl (fun hr => Or.inl hr)
  | stopCall =>
    obtain ⟨i1, _, _, _⟩ := hI
    simp only [lstep] at h
    split at h
    · simp at h
    · simp at h
    · split at h
      · simp only [Option.some.injEq] at h
        subst h
        exact ⟨i1, fun _ => rfl, fun hpc => by simp at hpc, fun a b n hpc => by simp at hpc⟩
      · rename_i hr
        simp only [Option.some.injEq] at h
        subst h
        exact stopAfterRunning_inv _ i1 rfl (bool_eq_false_of_ne_true hr)
  | stopWake =>
    obtain ⟨i1, i2, i3, _⟩ := hI
    simp only [lstep] at h
    split at h
    · rename_i hpc
      split at h
      · simp at h
      · rename_i hr
        simp only [Option.some.injEq] at h
        subst h
        exact stopAfterRunning_inv s i1 (i2 (Or.inl hpc)) (bool_eq_false_of_ne_true hr)
    · rename_i hpc
      split at h
      · simp at h
      · rename_i hlen
        simp only [Option.some.injEq] at h
        subst h
        refine ⟨i1, fun hq => by simp at hq, fun hq => by simp at hq, ?_⟩
        intro a b n hq
        simp only [StopPc.returned.injEq] at hq
        obtain ⟨ha, hb, hn⟩ := hq
        refine ⟨by rw [← ha]; exact i2 (Or.inr hpc), by rw [← hb]; exact i3 hpc, ?_⟩
        omega
    · simp at h
  | startCall => exact absurd rfl hl.1
  | startWake =>
    simp only [lstep] at h
    split at h
    · split at h
      · simp at h
      · split at h <;> simp only [Option.some.injEq] at h <;> subst h <;>
          exact stopInv_of_same s _ hI rfl rfl rfl (fun hr => Or.inl hr)
    · simp at h
  | shutdownCall => exact absurd rfl hl.2
  | shutdownWake =>
    simp only [lstep] at h
    split at h
    · split at h
      · simp at h
      · simp only [Option.some.injEq] at h
        subst h
        exact stopInv_of_same s _ hI rfl rfl rfl (fun hr => Or.inl hr)
    · split at h
      · simp at h
      · simp only [Option.some.injEq] at h
        subst h
        exact stopInv_of_same s _ hI rfl rfl rfl (fun hr => Or.inl hr)
    · simp at h

/-- C17, amended. Take any state in which `shutdown` has not been requested
(`_opSyncShouldExit` is false) and no call of `stopOpSyncThread` is under way,
and any interleaving of `stopOpSyncThread` with producer and applier steps from
there in which neither `startOpSyncThread` nor `shutdown` is called. If
`stopOpSyncThread` has returned at the end, then at the moment it returned
`_opSyncShouldRun` was false, `_opSyncRunning` was false and the queue was
empty. -/
theorem stop_postcondition (s0 s1 : Lifecycle) (mid : List LStep)
    (hexit : s0._opSyncShouldExit = false) (hidle : s0.stopPc = StopPc.idle)
    (hmid : ∀ l ∈ mid, l ≠ LStep.startCall ∧ l ≠ LStep.shutdownCall)
    (hrun : lrun mid s0 = some s1) :
    ∀ a b n, s1.stopPc = StopPc.returned a b n → a = false ∧ b = false ∧ n = 0 := by
  have h0 : StopInv s0 := by
    refine ⟨hexit, ?_, ?_, ?_⟩ <;> simp [hidle]
  exact (lrun_preserves_of (fun l => l ≠ LStep.startCall ∧ l ≠ LStep.shutdownCall) StopInv
    stopInv_step mid s0 s1 hmid h0 hrun).2.2.2

/-- C17, witness: from the sample state in which the producer runs,
`stopOpSyncThread` is called, the producer pauses, the applier drains the
queue, and `stopOpSyncThread` returns with both flags false and the queue
empty. -/
theorem stop_postcondition_witness :
    lrun runUntilPush Lifecycle.init = some statePushed ∧
    lrun (stopUntilQueueWait ++ applierDrainsOne ++ [LStep.stopWake]) statePushed =
      some { stateStopWaits with
        queue := drainedQueue, stopPc := StopPc.returned false false 0 } ∧
    (false = false ∧ false = false ∧ 0 = 0) :=
  ⟨by decide, by decide,
    stop_postcondition statePushed
      { stateStopWaits with queue := drainedQueue, stopPc := StopPc.returned false false 0 }
      (stopUntilQueueWait ++ applierDrainsOne ++ [LStep.stopWake])
      (by decide) (by decide) (by decide) (by decide) false false 0 rfl⟩

/-! ## Theorems: `producerThread` pass and slave delay -/

theorem producerThreadIteration_fatal (e1 e2 : Bool) (env : ProduceEnv) (w : ReplSet)
    (hst : w.state = MemberState.fatal ∨ w.state = MemberState.startup) :
    (producerThreadIteration e1 e2 env w).produceCalled = false ∧
    (producerThreadIteration e1 e2 env w).world = w ∧
    ((producerThreadIteration e1 e2 env w).fin = IterationEnd.breaks ∨
      (producerThreadIteration e1 e2 env w).fin = IterationEnd.next 5) ∧
    (e1 = false → e2 = false →
      (producerThreadIteration e1 e2 env w).fin = IterationEnd.next 5) := by
  unfold producerThreadIteration
  by_cases h1 : e1 = true
  · simp [h1]
  · by_cases h2 : e2 = true
    · simp [h1, h2]
    · simp [h1, h2, hst]

theorem producerThreadLoop_fatal (envs : List (Bool × Bool × ProduceEnv)) (w : ReplSet)
    (hst : w.state = MemberState.fatal ∨ w.state = MemberState.startup) :
    (producerThreadLoop envs w).1 = w ∧ (producerThreadLoop envs w).2.1 = false ∧
    ∀ t ∈ (producerThreadLoop envs w).2.2, t = 5 := by
  induction envs with
  | nil => simp [producerThreadLoop]
  | cons e rest ih =>
    obtain ⟨e1, e2, env⟩ := e
    obtain ⟨h0, h1, h2, _⟩ := producerThreadIteration_fatal e1 e2 env w hst
    unfold producerThreadLoop
    simp only
    rcases h2 with h2 | h2
    · rw [h2]
      simp only
      exact ⟨h1, h0, by simp⟩
    · rw [h2]
      simp only
      rw [h1, h0]
      refine ⟨ih.1, by simp [ih.2.1], ?_⟩
      intro t ht
      rcases List.mem_cons.mp ht with ht | ht
      · exact ht
      · exact ih.2.2 t ht

/-- C19 (producer short-circuit). In a pass of the loop of `producerThread`
in which the replica-set state is fatal or startup, `produce()` is not called
and the producer's surroundings (local oplog, GTID manager, calls made) are
left as they were; the pass either leaves the loop, because
`_opSyncShouldExit` was seen, or chooses a sleep of 5 seconds, and it chooses
5 seconds whenever `_opSyncShouldExit` is false. Over any number of passes
`produce()` is never called, the surroundings stay as they were and every
sleep chosen is 5 seconds. -/
theorem producer_short_circuit (e1 e2 : Bool) (env : ProduceEnv)
    (envs : List (Bool × Bool × ProduceEnv)) (w : ReplSet)
    (hst : w.state = MemberState.fatal ∨ w.state = MemberState.startup) :
    (producerThreadIteration e1 e2 env w).produceCalled = false ∧
    (producerThreadIteration e1 e2 env w).world = w ∧
    ((producerThreadIteration e1 e2 env w).fin = IterationEnd.breaks ∨
      (producerThreadIteration e1 e2 env w).fin = IterationEnd.next 5) ∧
    (e1 = false → e2 = false →
      (producerThreadIteration e1 e2 env w).fin = IterationEnd.next 5) ∧
    (producerThreadLoop envs w).1 = w ∧
    (producerThreadLoop envs w).2.1 = false ∧
    (∀ t ∈ (producerThreadLoop envs w).2.2, t = 5) :=
  ⟨(producerThreadIteration_fatal e1 e2 env w hst).1,
    (producerThreadIteration_fatal e1 e2 env w hst).2.1,
    (producerThreadIteration_fatal e1 e2 env w hst).2.2.1,
    (producerThreadIteration_fatal e1 e2 env w hst).2.2.2,
    (producerThreadLoop_fatal envs w hst).1, (producerThreadLoop_fatal envs w hst).2.1,
    (producerThreadLoop_fatal envs w hst).2.2⟩

/-- C19, witness: in the fatal state, with entries ready to be fetched, two
passes choose 5 seconds each, do not call `produce()` and change nothing. -/
theorem producer_short_circuit_witness :
    producerThreadLoop [(false, false, sampleProduceEnv), (false, false, sampleProduceEnv)]
      fatalReplSet = (fatalReplSet, false, [5, 5]) ∧
    (producerThreadIteration false false sampleProduceEnv fatalReplSet).produceCalled
      = false :=
  ⟨by decide,
    (producer_short_circuit false false sampleProduceEnv [] fatalReplSet
      (Or.inl rfl)).1⟩

theorem slaveDelayLoop_spec (T : Nat) (ticks : List DelayTick) :
    ∀ (currTime : Nat) (evs res : List DelayEvent) (exit : DelayExit),
      SleepThenCheck evs → slaveDelayLoop T ticks currTime evs = some (res, exit) →
      SleepThenCheck res ∧ ∀ t, exit = DelayExit.reached t → T ≤ t := by
  induction ticks with
  | nil =>
    intro currTime evs res exit hevs h
    unfold slaveDelayLoop at h
    split at h
    · simp at h
    · rename_i hlt
      simp only [Option.some.injEq, Prod.mk.injEq] at h
      obtain ⟨h1, h2⟩ := h
      subst h1 h2
      refine ⟨hevs, ?_⟩
      intro t ht
      simp only [DelayExit.reached.injEq] at ht
      omega
  | cons tick rest ih =>
    intro currTime evs res exit hevs h
    unfold slaveDelayLoop at h
    split at h
    · rename_i hlt
      have hnext : SleepThenCheck (evs ++
          [DelayEvent.sleepmillis (if T - currTime < 1000 then T - currTime else 1000),
            DelayEvent.readShouldRun tick.shouldRun]) := by
        obtain ⟨pairs, hp, hb⟩ := hevs
        refine ⟨pairs ++ [((if T - currTime < 1000 then T - currTime else 1000),
          tick.shouldRun)], ?_, ?_⟩
        · rw [hp]
          simp [List.flatMap_append]
        · intro p hp'
          rcases List.mem_append.mp hp' with hp' | hp'
          · exact hb p hp'
          · simp only [List.mem_singleton] at hp'
            subst hp'
            simp only
            split <;> omega
      simp only at h
      split at h
      · simp only [Option.some.injEq, Prod.mk.injEq] at h
        obtain ⟨h1, h2⟩ := h
        subst h1 h2
        exact ⟨hnext, fun t ht => by simp at ht⟩
      · exact ih _ _ _ _ hnext h
    · rename_i hlt
      simp only [Option.some.injEq, Prod.mk.injEq] at h
      obtain ⟨h1, h2⟩ := h
      subst h1 h2
      refine ⟨hevs, ?_⟩
      intro t ht
      simp only [DelayExit.reached.injEq] at ht
      omega

theorem slaveDelayMillisOf_small (slaveDelay : Nat) (hint : slaveDelay * 1000 < 2 ^ 31) :
    slaveDelayMillisOf slaveDelay = slaveDelay * 1000 := by
  unfold slaveDelayMillisOf
  have h1 : (slaveDelay * 1000) % 2 ^ 32 = slaveDelay * 1000 :=
    Nat.mod_eq_of_lt (by omega)
  simp only [h1, hint, if_true]

theorem handleSlaveDelay_no_wrap (slaveDelay opTimestamp firstNow : Nat)
    (ticks : List DelayTick) (evs : List DelayEvent) (exit : DelayExit)
    (hint : slaveDelay * 1000 < 2 ^ 31)
    (hno : opTimestamp + slaveDelay * 1000 < 2 ^ 64)
    (h : handleSlaveDelay slaveDelay opTimestamp firstNow ticks = some (evs, exit)) :
    SleepThenCheck evs ∧
    ∀ t, exit = DelayExit.reached t → opTimestamp + slaveDelay * 1000 ≤ t := by
  unfold handleSlaveDelay at h
  have h1 : slaveDelayMillisOf slaveDelay = slaveDelay * 1000 :=
    slaveDelayMillisOf_small slaveDelay hint
  have h2 : (opTimestamp + slaveDelay * 1000) % 2 ^ 64 = opTimestamp + slaveDelay * 1000 :=
    Nat.mod_eq_of_lt hno
  simp only [h1, h2] at h
  exact slaveDelayLoop_spec _ ticks firstNow [] evs exit ⟨[], by simp, by simp⟩ h

theorem handleSlaveDelay_events (slaveDelay opTimestamp firstNow : Nat)
    (ticks : List DelayTick) (evs : List DelayEvent) (exit : DelayExit)
    (h : handleSlaveDelay slaveDelay opTimestamp firstNow ticks = some (evs, exit)) :
    SleepThenCheck evs ∧
    ∀ t, exit = DelayExit.reached t →
      (opTimestamp + slaveDelayMillisOf slaveDelay) % 2 ^ 64 ≤ t := by
  unfold handleSlaveDelay at h
  exact slaveDelayLoop_spec _ ticks firstNow [] evs exit ⟨[], by simp, by simp⟩ h

/-- C20 (slave delay), the code at the failing input. The op timestamp is
2^64 - 1 and the slave delay is one second; the 64-bit sum of line 231 wraps
to 999, so at the clock reading 1 700 000 000 000 the loop is not entered and
`handleSlaveDelay` returns at once, without a sleep and without reading the
pause flag, although the clock is below the op timestamp plus the delay. With
an op timestamp of 1 700 000 000 000 the same call sleeps 1000 ms and 500 ms,
reading the flag after each sleep. -/
theorem slave_delay_wraps :
    handleSlaveDelay 1 18446744073709551615 1700000000000 [] =
      some ([], DelayExit.reached 1700000000000) ∧
    ¬ (18446744073709551615 + 1 * 1000 ≤ 1700000000000) ∧
    handleSlaveDelay 1 1700000000000 1699999999500
        [{ shouldRun := true, now := 1700000000500 }, { shouldRun := true, now := 1700000001000 }]
      = some ([DelayEvent.sleepmillis 1000, DelayEvent.readShouldRun true,
          DelayEvent.sleepmillis 500, DelayEvent.readShouldRun true],
        DelayExit.reached 1700000001000) := by
  refine ⟨by decide, by decide, by decide⟩


/-! ## Theorems: namespace strings -/

theorem cstr_eq_self (s : List Char) (h : NUL ∉ s) : cstr s = s := by
  unfold cstr
  induction s with
  | nil => rfl
  | cons x xs ih =>
    have hx : x ≠ NUL := fun e => h (by rw [e]; exact List.mem_cons_self _ _)
    have hxs : NUL ∉ xs := fun e => h (List.mem_cons_of_mem _ e)
    simp only [List.takeWhile_cons, bne_iff_ne, ne_eq, hx, not_false_eq_true, decide_True,
      if_true, ih hxs]

theorem strchr_none (s : List Char) (c : Char) (h : strchr s c = none) : c ∉ cstr s := by
  induction s with
  | nil => simp [cstr]
  | cons x xs ih =>
    unfold strchr at h
    by_cases hxc : x = c
    · simp [hxc] at h
    · simp only [hxc, if_false] at h
      by_cases hx : x = NUL
      · simp [cstr, hx]
      · simp only [hx, if_false, Option.map_eq_none'] at h
        have := ih h
        unfold cstr at this ⊢
        simp only [List.takeWhile_cons, bne_iff_ne, ne_eq, hx, not_false_eq_true, decide_True,
          if_true, List.mem_cons, not_or]
        exact ⟨fun e => hxc e.symm, this⟩

theorem strchr_some (s : List Char) (c : Char) :
    ∀ p, strchr s c = some p → c ≠ NUL →
      s = s.take p ++ c :: s.drop (p + 1) ∧ c ∉ s.take p ∧ NUL ∉ s.take p := by
  induction s with
  | nil =>
    intro p h hc
    simp [strchr, hc] at h
  | cons x xs ih =>
    intro p h hc
    unfold strchr at h
    by_cases hxc : x = c
    · simp only [hxc, if_true, Option.some.injEq] at h
      subst h
      simp [hxc]
    · simp only [hxc, if_false] at h
      by_cases hx : x = NUL
      · simp [hx] at h
      · simp only [hx, if_false, Option.map_eq_some'] at h
        obtain ⟨q, hq, rfl⟩ := h
        obtain ⟨h1, h2, h3⟩ := ih q hq hc
        refine ⟨?_, ?_, ?_⟩
        · simp only [List.take_succ_cons, List.drop_succ_cons, List.cons_append]
          rw [← h1]
        · simp only [List.take_succ_cons, List.mem_cons, not_or]
          exact ⟨fun e => hxc e.symm, h2⟩
        · simp only [List.take_succ_cons, List.mem_cons, not_or]
          exact ⟨fun e => hx e.symm, h3⟩

/-- A string splits in one way only at its first occurrence of `c`. -/
theorem split_first_unique (c : Char) (a b a2 b2 : List Char)
    (h : a ++ c :: b = a2 ++ c :: b2) (ha : c ∉ a) (ha2 : c ∉ a2) : a = a2 ∧ b = b2 := by
  induction a generalizing a2 with
  | nil =>
    cases a2 with
    | nil => simpa using h
    | cons y ys =>
      simp only [List.nil_append, List.cons_append, List.cons.injEq] at h
      exact absurd (by rw [h.1]; exact List.mem_cons_self _ _) ha2
  | cons x xs ih =>
    cases a2 with
    | nil =>
      simp only [List.nil_append, List.cons_append, List.cons.injEq] at h
      exact absurd (by rw [← h.1]; exact List.mem_cons_self _ _) ha
    | cons y ys =>
      simp only [List.cons_append, List.cons.injEq] at h
      have := ih ys h.2 (fun e => ha (List.mem_cons_of_mem _ e))
        (fun e => ha2 (List.mem_cons_of_mem _ e))
      exact ⟨by rw [h.1, this.1], this.2⟩

theorem databasePart_split (a b : List Char) (ha : '.' ∉ a) :
    databasePart (a ++ '.' :: b) = a := by
  unfold databasePart
  induction a with
  | nil => simp
  | cons x xs ih =>
    have hx : x ≠ '.' := fun e => ha (by rw [e]; exact List.mem_cons_self _ _)
    simp only [List.cons_append, List.takeWhile_cons, bne_iff_ne, ne_eq, hx, not_false_eq_true,
      decide_True, if_true, List.cons.injEq, true_and]
    exact ih (fun e => ha (List.mem_cons_of_mem _ e))

theorem databasePart_no_dot (s : List Char) (h : '.' ∉ s) : databasePart s = s := by
  unfold databasePart
  induction s with
  | nil => rfl
  | cons x xs ih =>
    have hx : x ≠ '.' := fun e => h (by rw [e]; exact List.mem_cons_self _ _)
    simp only [List.takeWhile_cons, bne_iff_ne, ne_eq, hx, not_false_eq_true, decide_True,
      if_true, ih (fun e => h (List.mem_cons_of_mem _ e))]

theorem NUL_ne_dot : ('.' : Char) ≠ NUL := by decide

theorem NUL_ne_dollar : ('$' : Char) ≠ NUL := by decide

/-- C21: for every string `ns` without a NUL character, `NamespaceString(ns)`
splits `ns` at its first dot: when `ns` has a dot, `ns = db ++ "." ++ coll` with
no dot in `db` (so `db` is the part before the first dot and `coll` all that
follows it, dots included); when `ns` has no dot, `db` and `coll` are empty.
The sample of the source, "acme.orders", gives `coll = "orders"`. -/
theorem namespaceString_splits_at_first_dot (ns : List Char) (hn : NUL ∉ ns) :
    ('.' ∈ ns →
      ns = (NamespaceString.init ns).db ++ '.' :: (NamespaceString.init ns).coll ∧
      '.' ∉ (NamespaceString.init ns).db ∧
      (NamespaceString.init ns).db = databasePart ns) ∧
    ('.' ∉ ns → (NamespaceString.init ns).db = [] ∧ (NamespaceString.init ns).coll = []) ∧
    (NamespaceString.init ['a', 'c', 'm', 'e', '.', 'o', 'r', 'd', 'e', 'r', 's']).coll =
      ['o', 'r', 'd', 'e', 'r', 's'] := by
  refine ⟨?_, ?_, by decide⟩
  · intro hdot
    unfold NamespaceString.init
    cases hp : strchr ns '.' with
    | none =>
      have := strchr_none ns '.' hp
      rw [cstr_eq_self ns hn] at this
      exact absurd hdot this
    | some p =>
      obtain ⟨h1, h2, _⟩ := strchr_some ns '.' p hp NUL_ne_dot
      have hdrop : NUL ∉ ns.drop (p + 1) := fun e => hn (List.mem_of_mem_drop e)
      simp only [cstr_eq_self _ hdrop]
      refine ⟨h1, h2, ?_⟩
      conv_rhs => rw [h1]
      exact (databasePart_split _ _ h2).symm
  · intro hdot
    unfold NamespaceString.init
    cases hp : strchr ns '.' with
    | none => exact ⟨rfl, rfl⟩
    | some p =>
      obtain ⟨h1, _, _⟩ := strchr_some ns '.' p hp NUL_ne_dot
      exact absurd (by rw [h1]; simp) hdot

/-- C21, witness: "a.b.c" gives `db = "a"` and `coll = "b.c"`. -/
theorem namespaceString_splits_at_first_dot_witness :
    NUL ∉ ['a', '.', 'b', '.', 'c'] ∧
    (NamespaceString.init ['a', '.', 'b', '.', 'c']).db = ['a'] ∧
    (NamespaceString.init ['a', '.', 'b', '.', 'c']).coll = ['b', '.', 'c'] ∧
    ['a', '.', 'b', '.', 'c'] =
      (NamespaceString.init ['a', '.', 'b', '.', 'c']).db ++
        '.' :: (NamespaceString.init ['a', '.', 'b', '.', 'c']).coll :=
  ⟨by decide, by decide, by decide,
    ((namespaceString_splits_at_first_dot ['a', '.', 'b', '.', 'c'] (by decide)).1
      (by decide)).1⟩


theorem cspn_eq_length_iff (s chars : List Char) :
    StringData.cspn s chars = s.length ↔ ∀ c ∈ s, c ∉ chars := by
  unfold StringData.cspn
  induction s with
  | nil => simp
  | cons x xs ih =>
    by_cases hx : x ∈ chars
    · simp [List.takeWhile_cons, hx]
    · simp only [List.takeWhile_cons, List.elem_eq_mem, hx, decide_False, Bool.not_false,
        if_true, List.length_cons, add_left_inj, List.mem_cons, forall_eq_or_imp,
        not_false_eq_true, true_and]
      simpa using ih

/-- C22: `validDBName(db)` is true exactly when `db` is not empty, has at most
64 characters and holds none of slash, backslash, dot, blank and double quote;
`foo`, `bar` and `foo-bar` are allowed, `foo bar`, `foo.bar` and `foo"bar` are
not. -/
theorem validDBName_iff (db : StringData) :
    (NamespaceString.validDBName db = true ↔
      db ≠ [] ∧ db.length ≤ 64 ∧ '/' ∉ db ∧ Char.ofNat 92 ∉ db ∧ '.' ∉ db ∧
        Char.ofNat 32 ∉ db ∧ Char.ofNat 34 ∉ db) ∧
    NamespaceString.validDBName ['f', 'o', 'o'] = true ∧
    NamespaceString.validDBName ['b', 'a', 'r'] = true ∧
    NamespaceString.validDBName ['f', 'o', 'o', '-', 'b', 'a', 'r'] = true ∧
    NamespaceString.validDBName ['f', 'o', 'o', Char.ofNat 32, 'b', 'a', 'r'] = false ∧
    NamespaceString.validDBName ['f', 'o', 'o', '.', 'b', 'a', 'r'] = false ∧
    NamespaceString.validDBName ['f', 'o', 'o', Char.ofNat 34, 'b', 'a', 'r'] = false := by
  refine ⟨?_, by decide, by decide, by decide, by decide, by decide, by decide⟩
  unfold NamespaceString.validDBName
  by_cases h0 : db.length = 0 ∨ db.length > 64
  · simp only [h0, if_true, Bool.false_eq_true, false_iff, not_and]
    intro hne hlen
    rcases h0 with h0 | h0
    · exact absurd (List.length_eq_zero.mp h0) hne
    · omega
  · simp only [h0, if_false, decide_eq_true_eq, cspn_eq_length_iff]
    have hne : db ≠ [] := fun e => h0 (Or.inl (by rw [e]; rfl))
    have hlen : db.length ≤ 64 := by
      by_contra hc
      exact h0 (Or.inr (by omega))
    constructor
    · intro h
      refine ⟨hne, hlen, ?_, ?_, ?_, ?_, ?_⟩ <;>
        · intro hm
          exact h _ hm (by simp [badDBNameChars])
    · rintro ⟨_, _, h1, h2, h3, h4, h5⟩ c hc hbad
      simp only [badDBNameChars, List.mem_cons, List.mem_singleton, List.not_mem_nil,
        or_false] at hbad
      rcases hbad with rfl | rfl | rfl | rfl | rfl
      · exact h1 hc
      · exact h2 hc
      · exact h3 hc
      · exact h4 hc
      · exact h5 hc

theorem strcmp_eq_zero_iff (a : List Char) : ∀ b, strcmp a b = 0 ↔ cstr a = cstr b := by
  induction a with
  | nil =>
    intro b
    cases b with
    | nil => simp [strcmp, cstr]
    | cons y ys =>
      by_cases hy : y = NUL
      · simp [strcmp, cstr, hy]
      · simp [strcmp, cstr, hy]
  | cons x xs ih =>
    intro b
    cases b with
    | nil =>
      by_cases hx : x = NUL
      · simp [strcmp, cstr, hx]
      · simp [strcmp, cstr, hx]
    | cons y ys =>
      by_cases hxy : x = y
      · subst hxy
        by_cases hx : x = NUL
        · simp [strcmp, cstr, hx]
        · have := ih ys
          simp only [cstr] at this
          simp [strcmp, cstr, hx, this]
      · have hne : (if x.toNat < y.toNat then (-1 : Int) else 1) ≠ 0 := by
          split <;> decide
        by_cases hx : x = NUL
        · subst hx
          have hy : ¬ y = NUL := fun e => hxy e.symm
          simp [strcmp, cstr, hxy, hy, hne]
        · by_cases hy : y = NUL
          · subst hy
            simp [strcmp, cstr, hxy, hx, hne]
          · simp [strcmp, cstr, hxy, hx, hy, hne]

theorem normal_iff (ns : List Char) (hn : NUL ∉ ns) :
    NamespaceString.normal ns = true ↔ '$' ∉ ns ∨ ns = localOplogMain := by
  unfold NamespaceString.normal
  cases hp : strchr ns '$' with
  | none =>
    have := strchr_none ns '$' hp
    rw [cstr_eq_self ns hn] at this
    simp [this]
  | some p =>
    obtain ⟨h1, _, _⟩ := strchr_some ns '$' p hp NUL_ne_dollar
    have hmem : '$' ∈ ns := by rw [h1]; simp
    have hl : cstr localOplogMain = localOplogMain := by decide
    simp only [decide_eq_true_eq, strcmp_eq_zero_iff, cstr_eq_self ns hn, hl, hmem,
      not_true_eq_false, false_or]

/-- C23: for every C string `dbcoll`, `validCollectionName(dbcoll)` is true
exactly when `dbcoll` has a dot, its first dot is not its last character, and
`dbcoll` is normal; `normal(ns)` holds exactly when `ns` has no dollar sign or
is "local.oplog.$main". "foo.bar" is allowed and "foo." is not. -/
theorem validCollectionName_iff (dbcoll : List Char) (hn : NUL ∉ dbcoll) :
    (NamespaceString.validCollectionName dbcoll = true ↔
      '.' ∈ dbcoll ∧ (∃ a b, dbcoll = a ++ '.' :: b ∧ '.' ∉ a ∧ b ≠ []) ∧
        ('$' ∉ dbcoll ∨ dbcoll = localOplogMain)) ∧
    (NamespaceString.normal dbcoll = true ↔ '$' ∉ dbcoll ∨ dbcoll = localOplogMain) ∧
    NamespaceString.validCollectionName ['f', 'o', 'o', '.', 'b', 'a', 'r'] = true ∧
    NamespaceString.validCollectionName ['f', 'o', 'o', '.'] = false := by
  refine ⟨?_, normal_iff dbcoll hn, by decide, by decide⟩
  unfold NamespaceString.validCollectionName
  cases hp : strchr dbcoll '.' with
  | none =>
    have := strchr_none dbcoll '.' hp
    rw [cstr_eq_self dbcoll hn] at this
    simp [this]
  | some p =>
    obtain ⟨h1, h2, _⟩ := strchr_some dbcoll '.' p hp NUL_ne_dot
    have hmem : '.' ∈ dbcoll := by rw [h1]; simp
    have hplen : p < dbcoll.length := by
      by_contra hc
      have : dbcoll.take p = dbcoll := List.take_of_length_le (by omega)
      rw [this] at h2
      exact h2 hmem
    have hchar : (charAt dbcoll (p + 1) != NUL) = true ↔ dbcoll.drop (p + 1) ≠ [] := by
      unfold charAt
      constructor
      · intro h e
        have hlen : dbcoll.length ≤ p + 1 := List.drop_eq_nil_iff.mp e
        rw [List.getD_eq_default _ _ hlen] at h
        simp at h
      · intro h
        have hlen : p + 1 < dbcoll.length := by
          by_contra hc
          exact h (List.drop_eq_nil_iff.mpr (by omega))
        rw [List.getD_eq_getElem _ _ hlen]
        simp only [bne_iff_ne, ne_eq]
        intro e
        exact hn (by rw [← e]; exact List.getElem_mem _)
    simp only [Bool.and_eq_true, hchar, normal_iff dbcoll hn, hmem, true_and]
    constructor
    · rintro ⟨hd, hnorm⟩
      exact ⟨⟨_, _, h1, h2, hd⟩, hnorm⟩
    · rintro ⟨⟨a, b, hab, ha, hb⟩, hnorm⟩
      have := split_first_unique '.' _ _ _ _ (h1.symm.trans hab) h2 ha
      exact ⟨by rw [this.2]; exact hb, hnorm⟩

/-- C23, witness: "a.$x" has a dot that is not its last character, and is not
normal; it is not allowed. -/
theorem validCollectionName_iff_witness :
    NUL ∉ ['a', '.', '$', 'x'] ∧
    ¬ (NamespaceString.validCollectionName ['a', '.', '$', 'x'] = true) ∧
    (NamespaceString.validCollectionName ['a', '.', '$', 'x'] = true ↔
      '.' ∈ ['a', '.', '$', 'x'] ∧
        (∃ a b, ['a', '.', '$', 'x'] = a ++ '.' :: b ∧ '.' ∉ a ∧ b ≠ []) ∧
        ('$' ∉ ['a', '.', '$', 'x'] ∨ ['a', '.', '$', 'x'] = localOplogMain)) :=
  ⟨by decide, by decide, (validCollectionName_iff ['a', '.', '$', 'x'] (by decide)).1⟩


theorem find_none_iff (s : List Char) (c : Char) : StringData.find s c = none ↔ c ∉ s := by
  induction s with
  | nil => simp [StringData.find]
  | cons x xs ih =>
    unfold StringData.find
    by_cases hxc : x = c
    · simp [hxc]
    · have hcx : ¬ c = x := fun e => hxc e.symm
      simp [hxc, hcx, ih]

theorem find_split (a b : List Char) (c : Char) (ha : c ∉ a) :
    StringData.find (a ++ c :: b) c = some a.length := by
  induction a with
  | nil => simp [StringData.find]
  | cons x xs ih =>
    have hx : ¬ x = c := fun e => ha (by rw [e]; exact List.mem_cons_self _ _)
    have h2 := ih (fun e => ha (List.mem_cons_of_mem _ e))
    show StringData.find (x :: (xs ++ c :: b)) c = some (xs.length + 1)
    unfold StringData.find
    rw [if_neg hx, h2]
    rfl

theorem strchr_split (a b : List Char) (c : Char) (ha : c ∉ a)
    (hn : NUL ∉ a) : strchr (a ++ c :: b) c = some a.length := by
  induction a with
  | nil => simp [strchr]
  | cons x xs ih =>
    have hx : ¬ x = c := fun e => ha (by rw [e]; exact List.mem_cons_self _ _)
    have hx0 : ¬ x = NUL := fun e => hn (by rw [e]; exact List.mem_cons_self _ _)
    have h2 := ih (fun e => ha (List.mem_cons_of_mem _ e)) (fun e => hn (List.mem_cons_of_mem _ e))
    show strchr (x :: (xs ++ c :: b)) c = some (xs.length + 1)
    unfold strchr
    rw [if_neg hx, if_neg hx0, h2]
    rfl

theorem databasePart_no_dot_mem (s : List Char) : '.' ∉ databasePart s := by
  unfold databasePart
  intro h
  have := List.mem_takeWhile_imp h
  simp at this

theorem take_databasePart (s : List Char) : s.take (databasePart s).length = databasePart s :=
  (List.prefix_iff_eq_take.mp (List.takeWhile_prefix _)).symm

theorem databasePart_decomp (s : List Char) (h : '.' ∈ s) :
    ∃ b, s = databasePart s ++ '.' :: b := by
  unfold databasePart
  induction s with
  | nil => simp at h
  | cons x xs ih =>
    by_cases hx : x = '.'
    · exact ⟨xs, by simp [List.takeWhile_cons, hx]⟩
    · have hmem : '.' ∈ xs := by
        rcases List.mem_cons.mp h with e | e
        · exact absurd e.symm hx
        · exact e
      obtain ⟨b, hb⟩ := ih hmem
      refine ⟨b, ?_⟩
      simp only [List.takeWhile_cons, bne_iff_ne, ne_eq, hx, not_false_eq_true, decide_True,
        if_true, List.cons_append, List.cons.injEq, true_and]
      exact hb

/-- What `nsToDatabaseSubstring` returns, for every string. -/
theorem nsToDatabaseSubstring_eq (ns : StringData) :
    nsToDatabaseSubstring ns =
      if (databasePart ns).length < 128 then Except.ok (databasePart ns)
      else if '.' ∈ ns then Except.error 10088 else Except.error 10078 := by
  unfold nsToDatabaseSubstring MaxDatabaseNameLen
  by_cases h : '.' ∈ ns
  · obtain ⟨b, hb⟩ := databasePart_decomp ns h
    have hf : StringData.find ns '.' = some (databasePart ns).length := by
      conv_lhs => rw [hb]
      exact find_split _ _ _ (databasePart_no_dot_mem ns)
    have ht := take_databasePart ns
    simp only [hf, ht, h, if_true]
  · have hf : StringData.find ns '.' = none := (find_none_iff ns '.').mpr h
    simp only [hf, databasePart_no_dot ns h, h, if_false]

/-- C24, the counterexample: on the four bytes `a`, NUL, `.`, `b`, which hold a
dot, `nsToDatabaseSubstring` succeeds with the two bytes before the dot, and
`NamespaceString`, which reads a C string, finds no dot and leaves `db`
empty. -/
theorem nsToDatabaseSubstring_not_db_on_nul :
    '.' ∈ ['a', NUL, '.', 'b'] ∧
    nsToDatabaseSubstring ['a', NUL, '.', 'b'] = Except.ok ['a', NUL] ∧
    (NamespaceString.init ['a', NUL, '.', 'b']).db = [] ∧
    ¬ (∀ r, nsToDatabaseSubstring ['a', NUL, '.', 'b'] = Except.ok r →
        r = (NamespaceString.init ['a', NUL, '.', 'b']).db) := by
  refine ⟨by decide, by rfl, by decide, ?_⟩
  intro h
  have := h ['a', NUL] (by rfl)
  revert this
  decide

/-- C24, amended: `nsToDatabaseSubstring(ns)` returns the part of `ns` before
its first dot, or the whole of `ns` when it has no dot; it raises (code 10078
or 10088) exactly when that database part has 128 characters or more; and
whenever it succeeds on an `ns` that has a dot and no NUL character before its
first dot, the result is `NamespaceString(ns).db`. "database.a.b.c" gives
"database". -/
theorem nsToDatabaseSubstring_spec (ns : StringData) :
    ((databasePart ns).length < 128 → nsToDatabaseSubstring ns = Except.ok (databasePart ns)) ∧
    ((∃ code, nsToDatabaseSubstring ns = Except.error code) ↔
      128 ≤ (databasePart ns).length) ∧
    (∀ code, nsToDatabaseSubstring ns = Except.error code → code = 10078 ∨ code = 10088) ∧
    (∀ r, '.' ∈ ns → NUL ∉ databasePart ns → nsToDatabaseSubstring ns = Except.ok r →
      r = (NamespaceString.init ns).db) ∧
    nsToDatabaseSubstring
        ['d', 'a', 't', 'a', 'b', 'a', 's', 'e', '.', 'a', '.', 'b', '.', 'c'] =
      Except.ok ['d', 'a', 't', 'a', 'b', 'a', 's', 'e'] := by
  refine ⟨?_, ?_, ?_, ?_, by rfl⟩
  · intro h
    rw [nsToDatabaseSubstring_eq, if_pos h]
  · rw [nsToDatabaseSubstring_eq]
    by_cases h : (databasePart ns).length < 128
    · simp only [h, if_true]
      constructor
      · rintro ⟨code, hc⟩
        cases hc
      · intro h2
        omega
    · simp only [h, if_false]
      constructor
      · intro _
        omega
      · intro _
        by_cases hd : '.' ∈ ns
        · exact ⟨10088, by simp only [hd, if_true]⟩
        · exact ⟨10078, by simp only [hd, if_false]⟩
  · intro code hc
    rw [nsToDatabaseSubstring_eq] at hc
    split at hc
    · cases hc
    · split at hc
      · right
        cases hc
        rfl
      · left
        cases hc
        rfl
  · intro r hd hn hr
    rw [nsToDatabaseSubstring_eq] at hr
    split at hr
    · cases hr
      obtain ⟨b, hb⟩ := databasePart_decomp ns hd
      have hs : strchr ns '.' = some (databasePart ns).length := by
        conv_lhs => rw [hb]
        exact strchr_split _ _ _ (databasePart_no_dot_mem ns) hn
      have ht := take_databasePart ns
      unfold NamespaceString.init
      simp only [hs, ht]
    · cases hr

/-- C24, witness: on "ab.c" the result "ab" is the `db` of `NamespaceString`. -/
theorem nsToDatabaseSubstring_spec_witness :
    '.' ∈ ['a', 'b', '.', 'c'] ∧ NUL ∉ databasePart ['a', 'b', '.', 'c'] ∧
    nsToDatabaseSubstring ['a', 'b', '.', 'c'] = Except.ok ['a', 'b'] ∧
    ['a', 'b'] = (NamespaceString.init ['a', 'b', '.', 'c']).db :=
  ⟨by decide, by decide, by rfl,
    (nsToDatabaseSubstring_spec ['a', 'b', '.', 'c']).2.2.2.1 ['a', 'b'] (by decide) (by decide)
      (by rfl)⟩

/-! ## Theorems: master test for a namespace -/

theorem startsWith_iff (s : List Char) : ∀ p, NUL ∉ p →
    (startsWith s p = true ↔ ∃ t, s = p ++ t) := by
  induction s with
  | nil =>
    intro p hp
    cases p with
    | nil => simp [startsWith]
    | cons y ys =>
      have hy : ¬ y = NUL := fun e => hp (by rw [e]; exact List.mem_cons_self _ _)
      simp [startsWith, hy]
  | cons x xs ih =>
    intro p hp
    cases p with
    | nil => simp [startsWith]
    | cons y ys =>
      have hy : ¬ y = NUL := fun e => hp (by rw [e]; exact List.mem_cons_self _ _)
      have hys : NUL ∉ ys := fun e => hp (List.mem_cons_of_mem _ e)
      unfold startsWith
      by_cases hxy : x = y
      · simp only [hy, if_false, hxy, if_true, ih ys hys, List.cons_append, List.cons.injEq,
          true_and]
      · simp [hy, hxy]

theorem databasePart_eq_local_iff (ns : List Char) :
    databasePart ns = localDB ↔ ns = localDB ∨ (localDB ++ ['.']) <+: ns := by
  constructor
  · intro h
    by_cases hd : '.' ∈ ns
    · obtain ⟨b, hb⟩ := databasePart_decomp ns hd
      right
      refine ⟨b, ?_⟩
      rw [h] at hb
      rw [hb]
      simp
    · left
      rw [← h, databasePart_no_dot ns hd]
  · rintro (h | ⟨t, ht⟩)
    · rw [h]
      decide
    · rw [← ht]
      have : localDB ++ ['.'] ++ t = localDB ++ '.' :: t := by simp
      rw [this]
      exact databasePart_split _ _ (by decide)

theorem isMasterNs_not_master (g : ReplGlobals) (ns : List Char) (hn : NUL ∉ ns)
    (hg : _isMaster g = false) :
    isMasterNs g (some ns) = some (decide (ns = localDB ∨ (localDB ++ ['.']) <+: ns)) := by
  unfold isMasterNs
  simp only [hg, Bool.false_eq_true, if_false]
  by_cases hs : startsWith ns localDB = true
  · obtain ⟨t, ht⟩ := (startsWith_iff ns localDB (by decide)).mp hs
    have hc : charAt ns 5 = t.getD 0 NUL := by
      rw [ht]
      unfold charAt
      simp [localDB]
    simp only [hs, Bool.not_true, Bool.false_eq_true, if_false, hc, Option.some.injEq]
    cases t with
    | nil =>
      have : ns = localDB := by rw [ht]; simp
      simp [this]
    | cons y ys =>
      have hy : y ≠ NUL := by
        intro e
        apply hn
        rw [ht, e]
        simp
      have hne : ns ≠ localDB := by
        rw [ht]
        intro e
        have := congrArg List.length e
        simp [localDB] at this
      by_cases hdot : y = '.'
      · have hp : (localDB ++ ['.']) <+: ns := ⟨ys, by rw [ht, hdot]; simp⟩
        simp [hdot, hp]
      · have hp : ¬ (localDB ++ ['.']) <+: ns := by
          rintro ⟨u, hu⟩
          rw [ht] at hu
          simp only [List.append_assoc, List.singleton_append, List.append_cancel_left_eq,
            List.cons.injEq] at hu
          exact hdot hu.1.symm
        simp [hy, hdot, hp, hne]
  · have hp : ¬ ∃ t, ns = localDB ++ t := fun h =>
      hs ((startsWith_iff ns localDB (by decide)).mpr h)
    have h1 : ns ≠ localDB := fun e => hp ⟨[], by rw [e]; simp⟩
    have h2 : ¬ (localDB ++ ['.']) <+: ns := by
      rintro ⟨u, hu⟩
      exact hp ⟨'.' :: u, by rw [← hu]; simp⟩
    simp [hs, h1, h2]

theorem isMaster_not_master (g : ReplGlobals) (db : List Char) (hn : NUL ∉ db)
    (hg : _isMaster g = false) :
    isMaster g (some db) = some (decide (db = localDB)) := by
  unfold isMaster
  have hl : cstr localDB = localDB := by decide
  simp only [hg, Bool.false_eq_true, if_false, strcmp_eq_zero_iff, cstr_eq_self db hn, hl]

/-- C25: on a node that is not master, `isMasterNs(ns)` answers true exactly
when the C string `ns` is "local" or begins with "local." (it answers false
for "localx.foo"), and that is the answer of `isMaster(db)` for the database
part `db` of `ns`; on a master node both answer true for every namespace. -/
theorem isMasterNs_honours_local (g : ReplGlobals) (ns : List Char) (hn : NUL ∉ ns) :
    (_isMaster g = false →
      (isMasterNs g (some ns) = some true ↔ ns = localDB ∨ (localDB ++ ['.']) <+: ns) ∧
      (isMasterNs g (some ns) = some true ∨ isMasterNs g (some ns) = some false) ∧
      isMasterNs g (some ns) = isMaster g (some (databasePart ns))) ∧
    (_isMaster g = true →
      isMasterNs g (some ns) = some true ∧ ∀ dbname, isMaster g dbname = some true) ∧
    isMasterNs secondaryGlobals
      (some ['l', 'o', 'c', 'a', 'l', 'x', '.', 'f', 'o', 'o']) = some false := by
  refine ⟨?_, ?_, by decide⟩
  · intro hg
    have hdb : NUL ∉ databasePart ns := fun e =>
      hn ((List.takeWhile_prefix _).subset e)
    rw [isMasterNs_not_master g ns hn hg, isMaster_not_master g _ hdb hg]
    refine ⟨by simp, ?_, ?_⟩
    · by_cases h : ns = localDB ∨ (localDB ++ ['.']) <+: ns
      · left
        simp [h]
      · right
        simp [h]
    · congr 1
      exact decide_eq_decide.mpr (databasePart_eq_local_iff ns).symm
  · intro hg
    constructor
    · unfold isMasterNs
      simp [hg]
    · intro dbname
      unfold isMaster
      simp [hg]

/-- C25, witness: on a member that is not primary, "local.me" is accepted by
`isMasterNs`, as its database part "local" is by `isMaster`. -/
theorem isMasterNs_honours_local_witness :
    NUL ∉ ['l', 'o', 'c', 'a', 'l', '.', 'm', 'e'] ∧ _isMaster secondaryGlobals = false ∧
    isMasterNs secondaryGlobals (some ['l', 'o', 'c', 'a', 'l', '.', 'm', 'e']) =
      isMaster secondaryGlobals (some (databasePart ['l', 'o', 'c', 'a', 'l', '.', 'm', 'e'])) ∧
    isMasterNs secondaryGlobals (some ['l', 'o', 'c', 'a', 'l', '.', 'm', 'e']) = some true :=
  ⟨by decide, by decide,
    ((isMasterNs_honours_local secondaryGlobals ['l', 'o', 'c', 'a', 'l', '.', 'm', 'e']
      (by decide)).1 (by decide)).2.2, by decide⟩


/-! ## Theorems: dup tracking and match counting -/

theorem mem_setInsert (s : List BSONObj) (x y : BSONObj) :
    y ∈ (setInsert s x).1 ↔ y ∈ s ∨ y = x := by
  unfold setInsert
  by_cases h : x ∈ s
  · simp only [h, if_true]
    constructor
    · exact Or.inl
    · rintro (h1 | h1)
      · exact h1
      · rw [h1]; exact h
  · simp [h]

theorem setInsert_snd (s : List BSONObj) (x : BSONObj) :
    (setInsert s x).2 = !decide (x ∈ s) := by
  unfold setInsert
  by_cases h : x ∈ s <;> simp [h]

theorem mem_setInsertRange (xs : List BSONObj) : ∀ (s : List BSONObj) (y : BSONObj),
    y ∈ setInsertRange s xs ↔ y ∈ s ∨ y ∈ xs := by
  induction xs with
  | nil => intro s y; simp [setInsertRange]
  | cons x xs ih =>
    intro s y
    have := ih (setInsert s x).1 y
    unfold setInsertRange at this ⊢
    simp only [List.foldl_cons, this, mem_setInsert, List.mem_cons]
    tauto

/-- A call of `access` changes no key the object holds. -/
theorem mem_contents_access (s : SmallDupSet) (y : BSONObj) :
    y ∈ s.access.contents ↔ y ∈ s.contents := by
  unfold SmallDupSet.access SmallDupSet.mayUpgrade SmallDupSet.contents SmallDupSet.vec
  by_cases hv : s._set.length = 0
  · by_cases ha : wrapLongLong (s._accesses + 1) > 500
    · have hnil : s._set = [] := List.length_eq_zero.mp hv
      simp only [hnil, List.length_nil, decide_True, ha, and_self, if_true]
      by_cases hu : (setInsertRange [] s._vec).length = 0
      · simp only [hu, decide_True, if_true]
      · simp only [hu, decide_False, Bool.false_eq_true, if_false, mem_setInsertRange,
          List.not_mem_nil, false_or]
    · simp only [hv, decide_True, ha, and_false, if_false, if_true]
  · simp only [hv, decide_False, Bool.false_eq_true, false_and, if_false]

theorem getdupVec_iff (s : SmallDupSet) (pk : BSONObj) :
    s.getdupVec pk = decide (pk ∈ s._vec) := by
  unfold SmallDupSet.getdupVec
  rw [Bool.eq_iff_iff]
  simp only [List.any_eq_true, decide_eq_true_eq]
  constructor
  · rintro ⟨x, hx, rfl⟩
    exact hx
  · intro h
    exact ⟨pk, h, rfl⟩

theorem getdupSet_iff (s : SmallDupSet) (pk : BSONObj) :
    s.getdupSet pk = decide (pk ∈ s._set) := by
  unfold SmallDupSet.getdupSet
  rw [Bool.eq_iff_iff]
  simp only [decide_eq_true_eq, gt_iff_lt, List.count_pos_iff]

theorem contents_of_vec (t : SmallDupSet) (hv : t.vec = true) : t.contents = t._vec := by
  unfold SmallDupSet.contents
  simp only [hv, if_true]

theorem contents_of_not_vec (t : SmallDupSet) (hv : t.vec = false) : t.contents = t._set := by
  unfold SmallDupSet.contents
  simp only [hv, Bool.false_eq_true, if_false]

/-- What `getsetdup` answers and what the object holds afterwards. -/
theorem getsetdup_spec (s : SmallDupSet) (pk : BSONObj) :
    (s.getsetdup pk).1 = decide (pk ∈ s.contents) ∧
    ∀ y, y ∈ (s.getsetdup pk).2.contents ↔ y ∈ s.contents ∨ y = pk := by
  have hacc := mem_contents_access s
  unfold SmallDupSet.getsetdup
  simp only
  generalize s.access = t at hacc ⊢
  cases hv : t.vec with
  | true =>
    rw [contents_of_vec t hv] at hacc
    simp only [if_true]
    unfold SmallDupSet.getsetdupVec
    rw [getdupVec_iff]
    by_cases hm : pk ∈ t._vec
    · simp only [hm, decide_True, if_true]
      refine ⟨by rw [eq_comm, decide_eq_true_eq, ← hacc]; exact hm, ?_⟩
      intro y
      rw [contents_of_vec t hv, hacc]
      constructor
      · exact Or.inl
      · rintro (h | h)
        · exact h
        · rw [h, ← hacc]; exact hm
    · simp only [hm, decide_False, Bool.false_eq_true, if_false]
      refine ⟨by rw [eq_comm, decide_eq_false_iff_not, ← hacc]; exact hm, ?_⟩
      intro y
      have hv2 : SmallDupSet.vec { t with _vec := t._vec ++ [pk] } = true := hv
      rw [contents_of_vec _ hv2]
      simp only [List.mem_append, List.mem_singleton, hacc]
  | false =>
    rw [contents_of_not_vec t hv] at hacc
    simp only [Bool.false_eq_true, if_false]
    unfold SmallDupSet.getsetdupSet
    simp only [setInsert_snd, Bool.not_not]
    refine ⟨by rw [decide_eq_decide]; exact hacc pk, ?_⟩
    intro y
    have hv2 : SmallDupSet.vec { t with _set := (setInsert t._set pk).1 } = false := by
      unfold SmallDupSet.vec
      simp only [decide_eq_false_iff_not]
      intro h0
      have hnil := List.length_eq_zero.mp h0
      have hmem : pk ∈ (setInsert t._set pk).1 := (mem_setInsert _ _ _).mpr (Or.inr rfl)
      simp only at hnil
      rw [hnil] at hmem
      exact absurd hmem (List.not_mem_nil _)
    rw [contents_of_not_vec _ hv2]
    simp only [mem_setInsert, hacc]

/-- What `getdup` answers; the object holds the same keys afterwards. -/
theorem getdup_spec (s : SmallDupSet) (pk : BSONObj) :
    (s.getdup pk).1 = decide (pk ∈ s.contents) ∧
    ∀ y, y ∈ (s.getdup pk).2.contents ↔ y ∈ s.contents := by
  have hacc := mem_contents_access s
  unfold SmallDupSet.getdup
  simp only
  refine ⟨?_, hacc⟩
  generalize s.access = t at hacc ⊢
  cases hv : t.vec with
  | true =>
    rw [contents_of_vec t hv] at hacc
    simp only [if_true]
    rw [getdupVec_iff, decide_eq_decide]
    exact hacc pk
  | false =>
    rw [contents_of_not_vec t hv] at hacc
    simp only [Bool.false_eq_true, if_false]
    rw [getdupSet_iff, decide_eq_decide]
    exact hacc pk

theorem tracks_call (s : SmallDupSet) (earlier : List DupCall) (c : DupCall)
    (h : Tracks s earlier) :
    (s.call c).1 = passedEarlier earlier c.pk ∧ Tracks (s.call c).2 (earlier ++ [c]) := by
  cases c with
  | getsetdup pk =>
    obtain ⟨h1, h2⟩ := getsetdup_spec s pk
    refine ⟨?_, ?_⟩
    · show (s.getsetdup pk).1 = decide (DupCall.getsetdup pk ∈ earlier)
      rw [h1, decide_eq_decide]
      exact h pk
    · intro y
      show y ∈ (s.getsetdup pk).2.contents ↔ _
      rw [h2, h y]
      simp
  | getdup pk =>
    obtain ⟨h1, h2⟩ := getdup_spec s pk
    refine ⟨?_, ?_⟩
    · show (s.getdup pk).1 = decide (DupCall.getsetdup pk ∈ earlier)
      rw [h1, decide_eq_decide]
      exact h pk
    · intro y
      show y ∈ (s.getdup pk).2.contents ↔ _
      rw [h2, h y]
      simp

theorem answers_of_tracks (cs : List DupCall) : ∀ (s : SmallDupSet) (earlier : List DupCall),
    Tracks s earlier → SmallDupSet.answers cs s = setAnswers earlier cs := by
  induction cs with
  | nil => intro s earlier _; rfl
  | cons c cs ih =>
    intro s earlier h
    obtain ⟨h1, h2⟩ := tracks_call s earlier c h
    unfold SmallDupSet.answers setAnswers
    rw [h1, ih _ _ h2]

/-- C26: `SmallDupSet` behaves as a set. For every sequence of `getsetdup` and
`getdup` calls on a fresh object, of any length, the answers are those of a
set: each call answers true exactly when its `pk` was passed to an earlier
`getsetdup` call. (The count of accesses, and so the switch from the vector to
the set after 500 of them, does not show in the answers.) -/
theorem smallDupSet_is_a_set (calls : List DupCall) :
    SmallDupSet.answers calls SmallDupSet.init = setAnswers [] calls ∧
    ∀ (earlier : List DupCall) (c : DupCall) (rest : List DupCall),
      calls = earlier ++ c :: rest →
      ((SmallDupSet.answers calls SmallDupSet.init).getD earlier.length false = true ↔
        DupCall.getsetdup c.pk ∈ earlier) := by
  have h0 : Tracks SmallDupSet.init [] := by
    intro y
    simp [SmallDupSet.init, SmallDupSet.contents, SmallDupSet.vec]
  have hall := answers_of_tracks calls SmallDupSet.init [] h0
  refine ⟨hall, ?_⟩
  intro earlier c rest hc
  rw [hall, hc]
  have key : ∀ (pre e : List DupCall),
      (setAnswers pre (e ++ c :: rest)).getD e.length false = passedEarlier (pre ++ e) c.pk := by
    intro pre e
    induction e generalizing pre with
    | nil => simp [setAnswers]
    | cons x xs ih =>
      show (setAnswers pre (x :: (xs ++ c :: rest))).getD (xs.length + 1) false = _
      unfold setAnswers
      rw [List.getD_cons_succ, ih]
      simp
  have := key [] earlier
  rw [this]
  simp [passedEarlier]

/-- C26, witness: after 501 reads and one `getsetdup` of the same key, past the
switch to set storage, `getdup` answers true. -/
theorem smallDupSet_is_a_set_witness :
    (SmallDupSet.answers
      (List.replicate 501 (DupCall.getdup (sampleEntry 1)) ++
        [DupCall.getsetdup (sampleEntry 1), DupCall.getdup (sampleEntry 1)])
      SmallDupSet.init).getD 502 false = true := by
  have h := (smallDupSet_is_a_set
    (List.replicate 501 (DupCall.getdup (sampleEntry 1)) ++
      [DupCall.getsetdup (sampleEntry 1), DupCall.getdup (sampleEntry 1)])).2
    (List.replicate 501 (DupCall.getdup (sampleEntry 1)) ++ [DupCall.getsetdup (sampleEntry 1)])
    (DupCall.getdup (sampleEntry 1)) [] (by rw [List.append_assoc]; rfl)
  rw [List.length_append, List.length_replicate] at h
  exact h.mpr (List.mem_append_right _ (List.mem_singleton.mpr rfl))

theorem wrapInt_range (x : Int) : -2 ^ 31 ≤ wrapInt x ∧ wrapInt x < 2 ^ 31 := by
  unfold wrapInt
  constructor <;> omega

theorem wrapInt_of_range (x : Int) (h : -2 ^ 31 ≤ x ∧ x < 2 ^ 31) : wrapInt x = x := by
  unfold wrapInt
  omega

theorem wrapInt_incr_diff (a b : Int) :
    wrapInt (wrapInt (a + 1) - wrapInt (b + 1)) = wrapInt (a - b) := by
  unfold wrapInt
  omega

/-- What `countMatch` does: it counts when the match was not counted since the
last reset, the stored match is `True`, and, with dup checking on, `pk` is not
in `_dups`; then it records `pk` in `_dups` when dup checking is on. Else it
changes nothing. -/
theorem countMatch_spec (s : CachedMatchCounter) (pk : BSONObj) :
    (s._counted = false ∧ s._match = MatchState.True ∧ (s._checkDups = true → pk ∉ s._dups) →
      s.countMatch pk =
        { s with
          _cumulativeCount := wrapInt (s._cumulativeCount + 1),
          _count := wrapInt (s._count + 1),
          _counted := true,
          _dups := if s._checkDups then s._dups ++ [pk] else s._dups,
          countedPks := s.countedPks ++ [(pk, s._checkDups)] }) ∧
    (¬ (s._counted = false ∧ s._match = MatchState.True ∧
        (s._checkDups = true → pk ∉ s._dups)) → s.countMatch pk = s) := by
  obtain ⟨a1, a2, a3, a4, cd, m, ct, d, cp⟩ := s
  simp only [CachedMatchCounter.countMatch, CachedMatchCounter.getsetdup, setInsert]
  constructor
  · rintro ⟨h1, h2, h3⟩
    subst h1 h2
    cases cd with
    | false => simp
    | true =>
      have := h3 rfl
      simp [this]
  · intro h
    by_cases h12 : ct = false ∧ m = MatchState.True
    · obtain ⟨h1, h2⟩ := h12
      subst h1 h2
      have hc : cd = true := by
        by_contra hc
        exact h ⟨rfl, rfl, fun e => absurd e hc⟩
      subst hc
      have hm : pk ∈ d := by
        by_contra hm
        exact h ⟨rfl, rfl, fun _ => hm⟩
      simp [hm]
    · simp only [h12, if_false]

theorem counterInv_init (agg c0 : Int) (h : -2 ^ 31 ≤ c0 ∧ c0 < 2 ^ 31) :
    CounterInv c0 (CachedMatchCounter.init agg c0) := by
  constructor
  · show wrapInt (c0 - 0) = c0
    rw [sub_zero]
    exact wrapInt_of_range c0 h
  · intro pk
    simp [CachedMatchCounter.init]
  · show (0 : Int) = wrapInt ((0 : Nat) : Int)
    unfold wrapInt
    omega
  · show c0 = wrapInt (c0 + ((0 : Nat) : Int))
    rw [Int.natCast_zero, add_zero]
    exact (wrapInt_of_range c0 h).symm

theorem wrapInt_incr (x : Int) : wrapInt (wrapInt x + 1) = wrapInt (x + 1) := by
  unfold wrapInt
  omega

theorem counterInv_call (c0 : Int) (s : CachedMatchCounter) (c : CounterCall)
    (h : CounterInv c0 s) : CounterInv c0 (s.call c) := by
  cases c with
  | setCheckDups b => exact ⟨h.diff, h.dups, h.count_eq, h.cumul_eq⟩
  | resetMatch => exact ⟨h.diff, h.dups, h.count_eq, h.cumul_eq⟩
  | setMatch m => exact ⟨h.diff, h.dups, h.count_eq, h.cumul_eq⟩
  | updateNscanned n => exact ⟨h.diff, h.dups, h.count_eq, h.cumul_eq⟩
  | countMatch pk =>
    show CounterInv c0 (s.countMatch pk)
    obtain ⟨hyes, hno⟩ := countMatch_spec s pk
    by_cases hc : s._counted = false ∧ s._match = MatchState.True ∧
        (s._checkDups = true → pk ∉ s._dups)
    · rw [hyes hc]
      constructor
      · show wrapInt (wrapInt (s._cumulativeCount + 1) - wrapInt (s._count + 1)) = c0
        rw [wrapInt_incr_diff]
        exact h.diff
      · intro y
        cases hd : s._checkDups with
        | false => simp [h.dups y]
        | true => simp [h.dups y]
      · show wrapInt (s._count + 1) =
          wrapInt (((s.countedPks ++ [(pk, s._checkDups)]).length : Nat) : Int)
        rw [h.count_eq, wrapInt_incr, List.length_append, List.length_singleton]
        push_cast
        rfl
      · show wrapInt (s._cumulativeCount + 1) =
          wrapInt (c0 + (((s.countedPks ++ [(pk, s._checkDups)]).length : Nat) : Int))
        rw [h.cumul_eq, wrapInt_incr, List.length_append, List.length_singleton]
        push_cast
        rw [add_assoc]
    · rw [hno hc]
      exact h

theorem counterInv_calls (c0 : Int) (cs : List CounterCall) : ∀ s : CachedMatchCounter,
    CounterInv c0 s → CounterInv c0 (CachedMatchCounter.calls cs s) := by
  induction cs with
  | nil => intro s h; exact h
  | cons c cs ih => intro s h; exact ih _ (counterInv_call c0 s c h)

/-- Once a match was counted, the calls up to the next `resetMatch` leave the
two counts alone. -/
theorem counted_stays (cs : List CounterCall) : ∀ s : CachedMatchCounter,
    CounterCall.resetMatch ∉ cs → s._counted = true →
      (CachedMatchCounter.calls cs s)._count = s._count ∧
      (CachedMatchCounter.calls cs s)._cumulativeCount = s._cumulativeCount := by
  induction cs with
  | nil => intro s _ _; exact ⟨rfl, rfl⟩
  | cons c cs ih =>
    intro s hr hc
    have hr1 : CounterCall.resetMatch ≠ c := fun e => hr (by rw [e]; exact List.mem_cons_self _ _)
    have hr2 : CounterCall.resetMatch ∉ cs := fun e => hr (List.mem_cons_of_mem _ e)
    have hstep : (s.call c)._counted = true ∧ (s.call c)._count = s._count ∧
        (s.call c)._cumulativeCount = s._cumulativeCount := by
      cases c with
      | setCheckDups b => exact ⟨hc, rfl, rfl⟩
      | resetMatch => exact absurd rfl hr1
      | setMatch m => exact ⟨hc, rfl, rfl⟩
      | updateNscanned n => exact ⟨hc, rfl, rfl⟩
      | countMatch pk =>
        have e : s.call (CounterCall.countMatch pk) = s.countMatch pk := rfl
        have := (countMatch_spec s pk).2 (by rw [hc]; simp)
        rw [e, this]
        exact ⟨hc, rfl, rfl⟩
    obtain ⟨h1, h2, h3⟩ := hstep
    have := ih (s.call c) hr2 h1
    show (CachedMatchCounter.calls cs (s.call c))._count = _ ∧
      (CachedMatchCounter.calls cs (s.call c))._cumulativeCount = _
    rw [this.1, this.2, h2, h3]
    exact ⟨rfl, rfl⟩

/-- Between two `resetMatch` calls the two counts go up by one at most, and
together. -/
theorem at_most_one_increment (cs : List CounterCall) : ∀ s : CachedMatchCounter,
    CounterCall.resetMatch ∉ cs →
      ((CachedMatchCounter.calls cs s)._count = s._count ∧
        (CachedMatchCounter.calls cs s)._cumulativeCount = s._cumulativeCount) ∨
      ((CachedMatchCounter.calls cs s)._count = wrapInt (s._count + 1) ∧
        (CachedMatchCounter.calls cs s)._cumulativeCount =
          wrapInt (s._cumulativeCount + 1)) := by
  induction cs with
  | nil => intro s _; exact Or.inl ⟨rfl, rfl⟩
  | cons c cs ih =>
    intro s hr
    have hr1 : CounterCall.resetMatch ≠ c := fun e => hr (by rw [e]; exact List.mem_cons_self _ _)
    have hr2 : CounterCall.resetMatch ∉ cs := fun e => hr (List.mem_cons_of_mem _ e)
    show ((CachedMatchCounter.calls cs (s.call c))._count = _ ∧
        (CachedMatchCounter.calls cs (s.call c))._cumulativeCount = _) ∨
      ((CachedMatchCounter.calls cs (s.call c))._count = _ ∧
        (CachedMatchCounter.calls cs (s.call c))._cumulativeCount = _)
    have hsame : ∀ t : CachedMatchCounter, t._count = s._count →
        t._cumulativeCount = s._cumulativeCount →
        ((CachedMatchCounter.calls cs t)._count = s._count ∧
          (CachedMatchCounter.calls cs t)._cumulativeCount = s._cumulativeCount) ∨
        ((CachedMatchCounter.calls cs t)._count = wrapInt (s._count + 1) ∧
          (CachedMatchCounter.calls cs t)._cumulativeCount =
            wrapInt (s._cumulativeCount + 1)) := by
      intro t h1 h2
      have := ih t hr2
      rw [h1, h2] at this
      exact this
    cases c with
    | setCheckDups b => exact hsame _ rfl rfl
    | resetMatch => exact absurd rfl hr1
    | setMatch m => exact hsame _ rfl rfl
    | updateNscanned n => exact hsame _ rfl rfl
    | countMatch pk =>
      have e : s.call (CounterCall.countMatch pk) = s.countMatch pk := rfl
      rw [e]
      obtain ⟨hyes, hno⟩ := countMatch_spec s pk
      by_cases hc : s._counted = false ∧ s._match = MatchState.True ∧
          (s._checkDups = true → pk ∉ s._dups)
      · right
        have := counted_stays cs (s.countMatch pk) hr2 (by rw [hyes hc])
        rw [this.1, this.2, hyes hc]
        exact ⟨rfl, rfl⟩
      · rw [hno hc]
        exact hsame _ rfl rfl

/-- C27, the counterexample: `sampleEntry 1` is counted while dup checking is
off; after `resetMatch`, `setCheckDups(true)` and `setMatch(true)` the same
`pk` is counted again, with dup checking on. -/
theorem counted_again_once_dup_checking_is_on :
    (CachedMatchCounter.calls countThenEnableDupCheck
      (CachedMatchCounter.init 0 0))._checkDups = true ∧
    (CachedMatchCounter.calls countThenEnableDupCheck
      (CachedMatchCounter.init 0 0))._match = MatchState.True ∧
    sampleEntry 1 ∈ ((CachedMatchCounter.calls countThenEnableDupCheck
      (CachedMatchCounter.init 0 0)).countedPks.map Prod.fst) ∧
    (CachedMatchCounter.calls countThenEnableDupCheck (CachedMatchCounter.init 0 0))._count = 1 ∧
    ((CachedMatchCounter.calls countThenEnableDupCheck
      (CachedMatchCounter.init 0 0)).countMatch (sampleEntry 1))._count = 2 ∧
    ((CachedMatchCounter.calls countThenEnableDupCheck
      (CachedMatchCounter.init 0 0)).countMatch (sampleEntry 1))._cumulativeCount = 2 := by
  decide

/-- C27, amended: for a `CachedMatchCounter` built with `cumulativeCount = c0`
and any calls `pre` on it: (1) calls `seg` that follow with no `resetMatch`
among them raise `count()` and `cumulativeCount()` by one at most in total,
and together; (2) a `countMatch(pk)` call raises them only if the stored match
is `True` and, when dup checking is on, `pk` was not counted before in a call
made with dup checking on; (3) `cumulativeCount() - count()`, an `int`
subtraction, is `c0`, and it is `c0` exactly as long as the counts have not
overflowed. -/
theorem countMatch_counts_once (agg c0 : Int) (hc0 : -2 ^ 31 ≤ c0 ∧ c0 < 2 ^ 31)
    (pre seg : List CounterCall) (pk : BSONObj) :
    (CounterCall.resetMatch ∉ seg →
      ((CachedMatchCounter.calls seg
            (CachedMatchCounter.calls pre (CachedMatchCounter.init agg c0)))._count =
          (CachedMatchCounter.calls pre (CachedMatchCounter.init agg c0))._count ∧
        (CachedMatchCounter.calls seg
            (CachedMatchCounter.calls pre (CachedMatchCounter.init agg c0)))._cumulativeCount =
          (CachedMatchCounter.calls pre (CachedMatchCounter.init agg c0))._cumulativeCount) ∨
      ((CachedMatchCounter.calls seg
            (CachedMatchCounter.calls pre (CachedMatchCounter.init agg c0)))._count =
          wrapInt ((CachedMatchCounter.calls pre (CachedMatchCounter.init agg c0))._count + 1) ∧
        (CachedMatchCounter.calls seg
            (CachedMatchCounter.calls pre (CachedMatchCounter.init agg c0)))._cumulativeCount =
          wrapInt ((CachedMatchCounter.calls pre
            (CachedMatchCounter.init agg c0))._cumulativeCount + 1))) ∧
    (((CachedMatchCounter.calls pre (CachedMatchCounter.init agg c0)).countMatch pk)._count ≠
          (CachedMatchCounter.calls pre (CachedMatchCounter.init agg c0))._count ∨
        ((CachedMatchCounter.calls pre
            (CachedMatchCounter.init agg c0)).countMatch pk)._cumulativeCount ≠
          (CachedMatchCounter.calls pre (CachedMatchCounter.init agg c0))._cumulativeCount →
      (CachedMatchCounter.calls pre (CachedMatchCounter.init agg c0))._match = MatchState.True ∧
      ((CachedMatchCounter.calls pre (CachedMatchCounter.init agg c0))._checkDups = true →
        (pk, true) ∉
          (CachedMatchCounter.calls pre (CachedMatchCounter.init agg c0)).countedPks)) ∧
    wrapInt ((CachedMatchCounter.calls pre (CachedMatchCounter.init agg c0))._cumulativeCount -
        (CachedMatchCounter.calls pre (CachedMatchCounter.init agg c0))._count) = c0 ∧
    (c0 + (CachedMatchCounter.calls pre (CachedMatchCounter.init agg c0)).countedPks.length <
        2 ^ 31 →
      ((CachedMatchCounter.calls pre (CachedMatchCounter.init agg c0)).countedPks.length : Int) <
        2 ^ 31 →
      (CachedMatchCounter.calls pre (CachedMatchCounter.init agg c0))._cumulativeCount -
        (CachedMatchCounter.calls pre (CachedMatchCounter.init agg c0))._count = c0) := by
  have hinv := counterInv_calls c0 pre _ (counterInv_init agg c0 hc0)
  generalize CachedMatchCounter.calls pre (CachedMatchCounter.init agg c0) = s at hinv ⊢
  refine ⟨at_most_one_increment seg s, ?_, hinv.diff, ?_⟩
  · intro hne
    obtain ⟨_, hno⟩ := countMatch_spec s pk
    by_cases hc : s._counted = false ∧ s._match = MatchState.True ∧
        (s._checkDups = true → pk ∉ s._dups)
    · refine ⟨hc.2.1, ?_⟩
      intro hd hmem
      exact hc.2.2 hd ((hinv.dups pk).mpr hmem)
    · rw [hno hc] at hne
      rcases hne with h | h <;> exact absurd rfl h
  · intro h1 h2
    have hn : (0 : Int) ≤ (s.countedPks.length : Int) := Int.natCast_nonneg _
    rw [hinv.count_eq, hinv.cumul_eq, wrapInt_of_range _ ⟨by omega, h1⟩,
      wrapInt_of_range _ ⟨by omega, h2⟩]
    omega

/-- C27, witness: a counter built with `cumulativeCount = 5`, after two counted
matches. -/
theorem countMatch_counts_once_witness :
    (-2 ^ 31 ≤ (5 : Int) ∧ (5 : Int) < 2 ^ 31) ∧
    (CachedMatchCounter.calls (countThenEnableDupCheck ++ [CounterCall.countMatch (sampleEntry 1)])
      (CachedMatchCounter.init 0 5))._count = 2 ∧
    wrapInt
      ((CachedMatchCounter.calls
          (countThenEnableDupCheck ++ [CounterCall.countMatch (sampleEntry 1)])
          (CachedMatchCounter.init 0 5))._cumulativeCount -
        (CachedMatchCounter.calls
          (countThenEnableDupCheck ++ [CounterCall.countMatch (sampleEntry 1)])
          (CachedMatchCounter.init 0 5))._count) = 5 :=
  ⟨by decide, by decide,
    (countMatch_counts_once 0 5 (by decide)
      (countThenEnableDupCheck ++ [CounterCall.countMatch (sampleEntry 1)]) []
      (sampleEntry 1)).2.2.1⟩


/-! ## Theorems: a failing scan phase, and the actual queue bound -/

theorem scanLoopWithFaults_quiet (localOplog : List BSONObj) (cursor : List BSONObj) :
    ∀ v : RollbackVars,
      scanLoopWithFaults localOplog (cursor.map ScanRound.quiet) v =
        match scanLoop localOplog cursor v with
        | .ok v2 => .ok v2
        | .error e => .error (ScanFailure.scan e) := by
  induction cursor with
  | nil => intro v; rfl
  | cons r rest ih =>
    intro v
    simp only [List.map_cons, scanLoopWithFaults, ScanRound.quiet, scanLoop]
    by_cases hw : outsideWindow r.ts (if v.oplogTS = 0 then r.ts else v.oplogTS) = true
    · simp only [hw, if_true]
    · simp only [hw, Bool.false_eq_true, if_false]
      cases hf : findOne localOplog r._id with
      | none => exact ih _
      | some localObj =>
        by_cases hc : localObj.h = r.h ∧ localObj.ts = r.ts ∧
            GTID.cmp localObj._id r._id = 0
        · simp only [hc, and_self, if_true]
        · simp only [hc, if_false]
          exact ih _

/-- With a cursor and a lookup that never throw, `runRollbackWithFaults` is
`runRollback`. -/
theorem runRollbackWithFaults_quiet (w : ReplSet) (cursor : List BSONObj) (oplogTS : Nat) :
    (runRollbackWithFaults w none (cursor.map ScanRound.quiet) oplogTS).1 =
      (runRollback w cursor oplogTS).1 ∧
    (runRollbackWithFaults w none (cursor.map ScanRound.quiet) oplogTS).2 =
      match (runRollback w cursor oplogTS).2 with
      | .ok u => .ok u
      | .error e => .error (ScanFailure.scan e) := by
  unfold runRollbackWithFaults runRollback scanPhaseWithFaults scanPhase
  simp only [scanLoopWithFaults_quiet]
  cases h : scanLoop w.localOplog cursor (RollbackVars.start oplogTS) with
  | error e => exact ⟨rfl, rfl⟩
  | ok v =>
    simp only
    by_cases hi : v.idToRollbackTo.isInitial = true
    · simp only [hi, if_true]
      exact ⟨trivial, trivial⟩
    · simp only [hi, Bool.false_eq_true, if_false]
      exact ⟨trivial, trivial⟩

/-- C28: if the scan phase of `runRollback` fails (window exceeded, no common
ancestor, or an exception out of the cursor or out of the local lookup), then
`runRollback` throws that `RollbackOplogException` and leaves the world as it
was but for the rollback id, which is one higher, and the one call `incRBID`:
no wait on the queue, no `goToRollbackState`, no `resetAfterInitialSync`, no
`rollbackTransactionFromOplog`; local oplog, GTID manager and member state are
unchanged. -/
theorem rollback_aborts_before_touching_state (w : ReplSet) (opening : Option ScanFault)
    (rounds : List ScanRound) (oplogTS : Nat) (e : ScanFailure)
    (h : scanPhaseWithFaults w.localOplog opening rounds oplogTS = Except.error e) :
    (runRollbackWithFaults w opening rounds oplogTS).2 = Except.error e ∧
    (runRollbackWithFaults w opening rounds oplogTS).1 = afterIncRBID w ∧
    (runRollbackWithFaults w opening rounds oplogTS).1.localOplog = w.localOplog ∧
    (runRollbackWithFaults w opening rounds oplogTS).1.gtidManager = w.gtidManager ∧
    (runRollbackWithFaults w opening rounds oplogTS).1.state = w.state ∧
    (runRollbackWithFaults w opening rounds oplogTS).1.rbid = w.rbid + 1 ∧
    ∃ evs, (runRollbackWithFaults w opening rounds oplogTS).1.calls = w.calls ++ evs ∧
      ProducerCall.waitQueueDone ∉ evs ∧ ProducerCall.goToRollbackState ∉ evs ∧
      (∀ g ts hash, ProducerCall.resetAfterInitialSync g ts hash ∉ evs) ∧
      (∀ o, ProducerCall.rollbackTransactionFromOplog o ∉ evs) := by
  have hres : runRollbackWithFaults w opening rounds oplogTS =
      (afterIncRBID w, Except.error e) := by
    unfold runRollbackWithFaults
    simp only [h]
    rfl
  rw [hres]
  refine ⟨rfl, rfl, rfl, rfl, rfl, rfl, [ProducerCall.incRBID], rfl, ?_, ?_, ?_, ?_⟩
  · simp
  · simp
  · intro g ts hash
    simp
  · intro o
    simp

/-- C28, witness: on the sample state, a remote entry outside the window, an
empty rollback cursor, a cursor that throws, a lookup that throws, and a
cursor that cannot be opened: each time only `incRBID` happened. -/
theorem rollback_aborts_before_touching_state_witness :
    (runRollbackWithFaults sampleReplSet none [ScanRound.quiet (sampleEntry 5)] 1805001).1 =
      afterIncRBID sampleReplSet ∧
    (runRollbackWithFaults sampleReplSet none [] 0).1 = afterIncRBID sampleReplSet ∧
    (runRollbackWithFaults sampleReplSet none
      [{ next := CursorAnswer.throws ScanFault.dbException, lookup := none }] 0).1 =
      afterIncRBID sampleReplSet ∧
    (runRollbackWithFaults sampleReplSet none
      [{ next := CursorAnswer.entry (sampleEntry 5), lookup := some ScanFault.stdException }]
      0).1 = afterIncRBID sampleReplSet ∧
    (runRollbackWithFaults sampleReplSet (some ScanFault.dbException)
      [ScanRound.quiet (sampleEntry 5)] 0).1 = afterIncRBID sampleReplSet :=
  ⟨(rollback_aborts_before_touching_state sampleReplSet none [ScanRound.quiet (sampleEntry 5)] 1805001
      (ScanFailure.scan RollbackOplogException.tooLong) (by rfl)).2.1,
    (rollback_aborts_before_touching_state sampleReplSet none [] 0
      (ScanFailure.scan RollbackOplogException.couldNotFind) (by rfl)).2.1,
    (rollback_aborts_before_touching_state sampleReplSet none _ 0
      (ScanFailure.rethrown ScanFault.dbException) (by rfl)).2.1,
    (rollback_aborts_before_touching_state sampleReplSet none _ 0
      (ScanFailure.rethrown ScanFault.stdException) (by rfl)).2.1,
    (rollback_aborts_before_touching_state sampleReplSet (some ScanFault.dbException) _ 0
      (ScanFailure.rethrown ScanFault.dbException) (by rfl)).2.1⟩

/-- Steps of the applier keep this: the producer waits, or the queue holds
10 000 entries at most. -/
theorem waiting_or_low_step (l : Step) (s s' : BackgroundSync) (hl : ∀ o, l ≠ Step.push o)
    (hs : step l s = some s')
    (h : s.producerBlocked = true ∨ s._deque.length ≤ 10000) :
    s'.producerBlocked = true ∨ s'._deque.length ≤ 10000 := by
  cases l with
  | push o => exact absurd rfl (hl o)
  | front =>
    simp only [step, applierFront] at hs
    split at hs
    · cases hs
      exact h
    · cases hs
  | apply a b =>
    simp only [step, applierApply] at hs
    split at hs
    · split at hs <;> cases hs <;> exact h
    · cases hs
  | finish a =>
    simp only [step, applierFinish] at hs
    split at hs
    · split at hs
      · cases hs
        exact h
      · split at hs
        · cases hs
        · rename_i front rest hd
          rw [hd] at h
          simp only [List.length_cons] at h
          split at hs
          · rename_i hlen
            cases hs
            right
            show rest.length ≤ 10000
            omega
          · cases hs
            rcases h with h | h
            · left
              exact h
            · right
              show rest.length ≤ 10000
              omega
    · cases hs

theorem waiting_or_low_run (mid : List Step) : ∀ (s s' : BackgroundSync),
    (∀ o, Step.push o ∉ mid) → run mid s = some s' →
    (s.producerBlocked = true ∨ s._deque.length ≤ 10000) →
    (s'.producerBlocked = true ∨ s'._deque.length ≤ 10000) := by
  induction mid with
  | nil =>
    intro s s' _ hr h
    simp only [run, Option.some.injEq] at hr
    rw [← hr]
    exact h
  | cons l ls ih =>
    intro s s' hno hr h
    simp only [run] at hr
    cases hst : step l s with
    | none => simp [hst] at hr
    | some s1 =>
      simp only [hst, Option.some_bind] at hr
      have hl : ∀ o, l ≠ Step.push o := fun o e => hno o (by rw [e]; exact List.mem_cons_self _ _)
      exact ih s1 s' (fun o e => hno o (List.mem_cons_of_mem _ e)) hr
        (waiting_or_low_step l s s1 hl hst h)

/-- C29: with a waiting producer released by the applier's signal only, in
every state `s` reached from the empty queue: (1) the queue holds 20 001
entries at most; (2) a push out of `s` leaves the producer waiting exactly
when the queue then holds more than 20 000 entries; (3) if the producer waits
in `s`, its next push (after applier steps `mid`) is made from a state whose
queue holds 10 000 entries at most. -/
theorem actual_queue_bound (ls : List Step) (s : BackgroundSync)
    (h : run ls BackgroundSync.init = some s) :
    s._deque.length ≤ 20001 ∧
    (∀ o s', step (Step.push o) s = some s' →
      s'._deque.length = s._deque.length + 1 ∧
      (s'.producerBlocked = true ↔ 20000 < s'._deque.length)) ∧
    (s.producerBlocked = true →
      ∀ (mid : List Step) (s2 : BackgroundSync) (o : BSONObj) (s3 : BackgroundSync),
        (∀ o2, Step.push o2 ∉ mid) → run mid s = some s2 →
        step (Step.push o) s2 = some s3 → s2._deque.length ≤ 10000) := by
  refine ⟨(inv_run ls s h).bound, ?_, ?_⟩
  · intro o s' hs
    simp only [step, producePush] at hs
    split at hs
    · cases hs
    · cases hs
      simp
  · intro hb mid s2 o s3 hno hr hs
    have hlow := waiting_or_low_run mid s s2 hno hr (Or.inl hb)
    rcases hlow with hw | hlow
    · simp [step, producePush, hw] at hs
    · exact hlow

/-- C29, witness: after 20 001 pushes the producer waits and the queue holds
20 001 entries; a push out of the state of the sample run leaves the
producer running. -/
theorem actual_queue_bound_witness :
    run (List.replicate 20001 (Step.push (sampleEntry 1))) BackgroundSync.init =
      some (afterPushes (sampleEntry 1) 20001) ∧
    (afterPushes (sampleEntry 1) 20001).producerBlocked = true ∧
    (afterPushes (sampleEntry 1) 20001)._deque.length = 20001 ∧
    (afterPushes (sampleEntry 1) 20001)._deque.length ≤ 20001 ∧
    run sampleRun BackgroundSync.init = some sampleState ∧
    (∀ o s', step (Step.push o) sampleState = some s' →
      s'._deque.length = sampleState._deque.length + 1 ∧
      (s'.producerBlocked = true ↔ 20000 < s'._deque.length)) :=
  ⟨run_pushes _ 20001 (Nat.le_refl _), by decide, List.length_replicate _ _,
    (actual_queue_bound _ _ (run_pushes (sampleEntry 1) 20001 (Nat.le_refl _))).1,
    by decide, (actual_queue_bound sampleRun sampleState (by decide)).2.1⟩

end BgSync
